import Mathlib

/-!
Keychain serialisation of libdime (`src/libs/signet/keys.c`), the enumerations of
`src/include/signet/general.h` and the Fletcher hash of
`src/libs/core/hash/fletcher.c`.

A shallow embedding of the keychain reader and writer of libdime.

* A byte buffer is a `List Byte`; a C pointer to it is an `Option (List Byte)`
  (`none` is `NULL`), and `p + k` is the pair of the buffer and the offset `k`.
* Every read of the buffer goes through `rd`, which reports an index outside
  the buffer as the failure `Failure.oob i` (undefined behaviour in C).
* A function that leaves through one of the `RET_ERROR_*` macros returns
  `Except.error (Failure.err kind)`, where `kind` is the error code the macro
  is given.
* `size_t` values are natural numbers; the casts to `uint16_t` and `uint32_t`
  in `keys_file_create` are written as `% 2 ^ 16` and `% 2 ^ 32`.
* The file functions are embedded as the list of their effects (key material
  coming to be held in a buffer, wipes, frees, calls of external functions) and
  their result; the results of the external functions are parameters.
-/

namespace Dime

/-! ## Bytes and results -/

/-- An `unsigned char`. -/
abbrev Byte := Fin 256

/-- Conversion of an integer to `unsigned char` (the low eight bits). -/
def byte (n : Nat) : Byte := ⟨n % 256, Nat.mod_lt n (by decide)⟩

/-- The error codes of `common/error.h` that `keys.c` uses. -/
inductive err_t where
  | ERR_BAD_PARAM
  | ERR_UNSPEC
  | ERR_NOMEM
  deriving DecidableEq, Repr

/-- Ways in which a call does not produce its value: an error reported through
`RET_ERROR_*`, a read outside the buffer, or the loop bound of the embedding
being used up. -/
inductive Failure where
  | err (kind : err_t)
  | oob (index : Nat)
  | fuel
  deriving DecidableEq, Repr

deriving instance DecidableEq for Except

/-- The caller's `if (callee(...) < 0) RET_ERROR(kind)`: an error of the callee
is reported under the caller's own error code; a read outside the buffer stays
what it is. -/
def on_error {α : Type} (kind : err_t) : Except Failure α → Except Failure α
  | .error (.err _) => .error (.err kind)
  | r => r

/-- The value of an `int`-returning function: `0`, or `-1` from `RET_ERROR_INT`;
no value when the call read outside the buffer. -/
def ret_int : Except Failure Unit → Option Int
  | .ok _ => some 0
  | .error (.err _) => some (-1)
  | .error _ => none

/-- The value of a pointer-returning function: the key, or `NULL` (`none`) from
`RET_ERROR_PTR`; no value when the call read outside the buffer. -/
def ret_ptr {α : Type} : Except Failure α → Option (Option α)
  | .ok k => some (some k)
  | .error (.err _) => some none
  | .error _ => none

/-- The call of an external deserializer and the test of its result:
`if(!(key = deserialize(...))) { RET_ERROR_PTR(ERR_UNSPEC, ...); } return key;`.
The argument is what the deserializer returned, `none` for `NULL`. -/
def deserialized {α : Type} : Option α → Except Failure α
  | none => .error (.err .ERR_UNSPEC)
  | some key => .ok key

/-! ## Constants of `signet/general.h` -/

def SIGNET_HEADER_SIZE : Nat := 5
def KEYS_HEADER_SIZE : Nat := 5

/-- Modelled from the spec: `ED25519_KEY_SIZE` is declared in
`common/dcrypto.h`, which is not among the sources; the spec gives the Ed25519
private key 32 bytes and writes the length byte of the signing record as 32. -/
def ED25519_KEY_SIZE : Nat := 32

def DIME_ORG_SIGNET : Nat := 1776
def DIME_USER_SIGNET : Nat := 1789
def DIME_SSR : Nat := 1216
def DIME_ORG_KEYS : Nat := 1952
def DIME_USER_KEYS : Nat := 2013
def DIME_MSG_TRACING : Nat := 1837
def DIME_ENCRYPTED_MSG : Nat := 1847

inductive keys_type_t where
  | KEYS_TYPE_ERROR
  | KEYS_TYPE_ORG
  | KEYS_TYPE_USER
  deriving DecidableEq, Repr

def KEYS_ORG_PRIVATE_POK : Nat := 1
def KEYS_ORG_PRIVATE_SOK : Nat := 2
def KEYS_ORG_PRIVATE_ENC : Nat := 3
def KEYS_USER_PRIVATE_SIGN : Nat := 1
def KEYS_USER_PRIVATE_ENC : Nat := 2

/-! ## Reading the buffer -/

/-- The read `buf[i]`, promoted to an integer. -/
def rd (buf : List Byte) (i : Nat) : Except Failure Nat :=
  match buf[i]? with
  | some v => .ok v.val
  | none => .error (.oob i)

/-- Modelled from the spec: `_int_no_get_2b` (declared in `common/misc.h`, not
among the sources) reads a big-endian integer of width 2 at `buf + off`. -/
def _int_no_get_2b (buf : List Byte) (off : Nat) : Except Failure Nat := do
  let b0 ← rd buf off
  let b1 ← rd buf (off + 1)
  pure (b0 * 256 + b1)

/-- Modelled from the spec: `_int_no_get_3b` (declared in `common/misc.h`, not
among the sources) reads a big-endian integer of width 3 at `buf + off`. -/
def _int_no_get_3b (buf : List Byte) (off : Nat) : Except Failure Nat := do
  let b0 ← rd buf off
  let b1 ← rd buf (off + 1)
  let b2 ← rd buf (off + 2)
  pure (b0 * 65536 + b1 * 256 + b2)

/-- `keys_check_length` (keys.c 28-43). -/
def keys_check_length (in_ : Option (List Byte)) (in_len : Nat) : Except Failure Unit :=
  match in_ with
  | none => .error (.err .ERR_BAD_PARAM)
  | some buf =>
    if in_len < SIGNET_HEADER_SIZE then .error (.err .ERR_BAD_PARAM)
    else do
      let signet_length ← _int_no_get_3b buf 2
      if in_len - SIGNET_HEADER_SIZE ≠ signet_length then .error (.err .ERR_UNSPEC)
      else pure ()

/-- The value of a function returning `keys_type_t`: `RET_ERROR_CUST` returns
`KEYS_TYPE_ERROR`; no value when the call read outside the buffer. -/
def ret_keys_type : Except Failure keys_type_t → Option keys_type_t
  | .ok t => some t
  | .error (.err _) => some .KEYS_TYPE_ERROR
  | .error _ => none

/-- `keys_type_get` (keys.c 51-70). -/
def keys_type_get (bin_keys : Option (List Byte)) (len : Nat) : Except Failure keys_type_t :=
  match bin_keys with
  | none => .error (.err .ERR_BAD_PARAM)
  | some buf => do
    on_error .ERR_BAD_PARAM (keys_check_length (some buf) len)
    let number ← _int_no_get_2b buf 0
    if number = DIME_ORG_KEYS then pure .KEYS_TYPE_ORG
    else if number = DIME_USER_KEYS then pure .KEYS_TYPE_USER
    else .error (.err .ERR_UNSPEC)

/-- The record search of `keys_serial_get_enc_key` (keys.c 111-117):
`while(bin_keys[at++] != enc_fid) { at += bin_keys[at] + 1; if(len <= at) ... }`.
The last argument is `at` when the loop test is evaluated; the result is `at`
when the loop is left, the index after the encryption field id. The first
numeric argument bounds the number of loop tests. -/
def keys_serial_get_enc_key_loop (bin_keys : List Byte) (len enc_fid : Nat) :
    Nat → Nat → Except Failure Nat
  | 0, _ => .error .fuel
  | fuel + 1, at_ => do
    let fid ← rd bin_keys at_
    let at_ := at_ + 1
    if fid ≠ enc_fid then
      let skip ← rd bin_keys at_
      let at_ := at_ + (skip + 1)
      if len ≤ at_ then .error (.err .ERR_UNSPEC)
      else keys_serial_get_enc_key_loop bin_keys len enc_fid fuel at_
    else pure at_

/-- `keys_serial_get_enc_key` (keys.c 79-131). `_deserialize_ec_privkey` is the
external deserializer; it is given the `privkeylen` bytes at `bin_keys + at`.
The loop is run with `len` as its bound, which it never uses up
(`keys_serial_get_enc_key_ne_fuel`). -/
def keys_serial_get_enc_key {EC_KEY : Type} (_deserialize_ec_privkey : List Byte → Option EC_KEY)
    (bin_keys : Option (List Byte)) (len : Nat) : Except Failure EC_KEY :=
  match bin_keys with
  | none => .error (.err .ERR_BAD_PARAM)
  | some buf => do
    on_error .ERR_BAD_PARAM (keys_check_length (some buf) len)
    let enc_fid ← (do
      match ← on_error .ERR_UNSPEC (keys_type_get (some buf) len) with
      | .KEYS_TYPE_ORG => pure KEYS_ORG_PRIVATE_ENC
      | .KEYS_TYPE_USER => pure KEYS_USER_PRIVATE_ENC
      | .KEYS_TYPE_ERROR => .error (.err .ERR_UNSPEC))
    let at_ ← keys_serial_get_enc_key_loop buf len enc_fid len KEYS_HEADER_SIZE
    let privkeylen ← _int_no_get_2b buf at_
    let at_ := at_ + 2
    if at_ + privkeylen > len then .error (.err .ERR_UNSPEC)
    else deserialized (_deserialize_ec_privkey ((buf.drop at_).take privkeylen))

/-- `keys_serial_get_sign_key` (keys.c 140-183). `_deserialize_ed25519_privkey`
is the external deserializer; it is given the `ED25519_KEY_SIZE` bytes at
`bin_keys + at`. -/
def keys_serial_get_sign_key {ED25519_KEY : Type}
    (_deserialize_ed25519_privkey : List Byte → Option ED25519_KEY)
    (bin_keys : Option (List Byte)) (len : Nat) : Except Failure ED25519_KEY :=
  match bin_keys with
  | none => .error (.err .ERR_BAD_PARAM)
  | some buf => do
    on_error .ERR_BAD_PARAM (keys_check_length (some buf) len)
    if len < KEYS_HEADER_SIZE + 2 + ED25519_KEY_SIZE then .error (.err .ERR_BAD_PARAM)
    else
      let sign_fid ← (do
        match ← on_error .ERR_UNSPEC (keys_type_get (some buf) len) with
        | .KEYS_TYPE_ORG => pure KEYS_ORG_PRIVATE_POK
        | .KEYS_TYPE_USER => pure KEYS_USER_PRIVATE_SIGN
        | .KEYS_TYPE_ERROR => .error (.err .ERR_UNSPEC))
      let at_ := KEYS_HEADER_SIZE
      let fid ← rd buf at_
      let at_ := at_ + 1
      if fid ≠ sign_fid then .error (.err .ERR_UNSPEC)
      else
        let size ← rd buf at_
        let at_ := at_ + 1
        if size ≠ ED25519_KEY_SIZE then .error (.err .ERR_UNSPEC)
        else deserialized (_deserialize_ed25519_privkey ((buf.drop at_).take ED25519_KEY_SIZE))

/-! ## Writing the buffer -/

/-- Modelled from the spec: `_int_no_put_2b` (declared in `common/misc.h`, not
among the sources) writes a 16-bit value big-endian at `buf + off`. -/
def _int_no_put_2b (buf : List Byte) (off : Nat) (val : Nat) : List Byte :=
  (buf.set off (byte (val / 256))).set (off + 1) (byte val)

/-- Modelled from the spec: `_int_no_put_3b` (declared in `common/misc.h`, not
among the sources) writes the low 24 bits of a value big-endian at `buf + off`. -/
def _int_no_put_3b (buf : List Byte) (off : Nat) (val : Nat) : List Byte :=
  ((buf.set off (byte (val / 65536))).set (off + 1) (byte (val / 256))).set (off + 2) (byte val)

/-- `memcpy(dst + off, src, n)`, for `n ≤ |src|` and `off + n ≤ |dst|`. -/
def memcpy (dst : List Byte) (off : Nat) (src : List Byte) (n : Nat) : List Byte :=
  dst.take off ++ src.take n ++ dst.drop (off + n)

/-- The binary keychain assembled by `keys_file_create` (keys.c 235-283), as it
is handed to `_b64encode` in line 286: the buffer `serial_keys` and its size
`serial_size`. `private_key` is `sign_key->private_key` and `serial_enc` is the
buffer returned by `_serialize_ec_privkey`, whose length is `enc_size`. This is
the path on which the three pointer arguments are non-null and
`_serialize_ec_privkey` and `malloc` succeed; the other exits of the function
build no buffer. -/
def keys_file_create_serial_keys (type : keys_type_t) (private_key serial_enc : List Byte) :
    Except Failure (List Byte × Nat) := do
  let (number, sign_fid, enc_fid) ← (
    match type with
    | .KEYS_TYPE_ORG => pure (DIME_ORG_KEYS, KEYS_ORG_PRIVATE_POK, KEYS_ORG_PRIVATE_ENC)
    | .KEYS_TYPE_USER => pure (DIME_USER_KEYS, KEYS_USER_PRIVATE_SIGN, KEYS_USER_PRIVATE_ENC)
    | .KEYS_TYPE_ERROR => Except.error (Failure.err .ERR_BAD_PARAM))
  let serial_sign := memcpy (List.replicate ED25519_KEY_SIZE 0) 0 private_key ED25519_KEY_SIZE
  let enc_size := serial_enc.length
  let serial_size := KEYS_HEADER_SIZE + 1 + 1 + ED25519_KEY_SIZE + 1 + 2 + enc_size
  let serial_keys := List.replicate serial_size (0 : Byte)
  let serial_keys := _int_no_put_2b serial_keys 0 (number % 2 ^ 16)
  let serial_keys := _int_no_put_3b serial_keys 2 ((serial_size - KEYS_HEADER_SIZE) % 2 ^ 32)
  let at_ := KEYS_HEADER_SIZE
  let serial_keys := serial_keys.set at_ (byte sign_fid)
  let at_ := at_ + 1
  let serial_keys := serial_keys.set at_ (byte ED25519_KEY_SIZE)
  let at_ := at_ + 1
  let serial_keys := memcpy serial_keys at_ serial_sign ED25519_KEY_SIZE
  let at_ := at_ + ED25519_KEY_SIZE
  let serial_keys := serial_keys.set at_ (byte enc_fid)
  let at_ := at_ + 1
  let serial_keys := _int_no_put_2b serial_keys at_ (enc_size % 2 ^ 16)
  let at_ := at_ + 2
  let serial_keys := memcpy serial_keys at_ serial_enc enc_size
  pure (serial_keys, serial_size)

/-! ## The layout of the spec -/

/-- The spec's `u2be`: two bytes, most significant first. -/
def u2be (n : Nat) : List Byte := [byte (n / 256), byte n]

/-- The spec's `u3be`: three bytes, most significant first. -/
def u3be (n : Nat) : List Byte := [byte (n / 65536), byte (n / 256), byte n]

/-- The keychain layout of the spec (4.6):
`magic[2] || length[3] || sign_fid || 32 || sign_priv[32] || enc_fid || enc_len[2] || enc_priv`. -/
def keychain_layout (magic sign_fid enc_fid : Nat) (s e : List Byte) : List Byte :=
  u2be magic ++ u3be (37 + e.length) ++ [byte sign_fid] ++ [byte 32] ++ s ++ [byte enc_fid] ++
    u2be e.length ++ e

/-- The magic number of a keychain kind (keys.c 237-246). -/
def keys_magic : keys_type_t → Nat
  | .KEYS_TYPE_ORG => DIME_ORG_KEYS
  | .KEYS_TYPE_USER => DIME_USER_KEYS
  | .KEYS_TYPE_ERROR => 0

/-- The signing-key field id of a keychain kind (keys.c 156-161, 237-246). -/
def keys_sign_fid : keys_type_t → Nat
  | .KEYS_TYPE_ORG => KEYS_ORG_PRIVATE_POK
  | .KEYS_TYPE_USER => KEYS_USER_PRIVATE_SIGN
  | .KEYS_TYPE_ERROR => 0

/-- The encryption-key field id of a keychain kind (keys.c 95-102, 237-246). -/
def keys_enc_fid : keys_type_t → Nat
  | .KEYS_TYPE_ORG => KEYS_ORG_PRIVATE_ENC
  | .KEYS_TYPE_USER => KEYS_USER_PRIVATE_ENC
  | .KEYS_TYPE_ERROR => 0

/-- The 3-byte big-endian integer stored in `b[2]`, `b[3]`, `b[4]`. -/
def header_length (b : List Byte) : Nat :=
  (b.getD 2 0).val * 65536 + (b.getD 3 0).val * 256 + (b.getD 4 0).val

/-- The 2-byte big-endian integer stored in `b[0]`, `b[1]`. -/
def header_magic (b : List Byte) : Nat :=
  (b.getD 0 0).val * 256 + (b.getD 1 0).val

/-- A length-consistent USER keychain whose only record, at offset 5, is an
encryption-key record (field id 2, length 1, one byte `0xAA`). -/
def keychain_enc_only : List Byte := [7, 221, 0, 0, 4, 2, 0, 1, 0xAA]

/-- A length-consistent ORG keychain with an empty payload. -/
def keychain_empty : List Byte := [7, 160, 0, 0, 0]

/-- A length-consistent ORG keychain whose last byte is the field id 1. -/
def keychain_ends_in_fid : List Byte := [7, 160, 0, 0, 1, 1]

/-- A length-consistent ORG keychain whose last byte is the encryption field id 3. -/
def keychain_ends_in_enc_fid : List Byte := [7, 160, 0, 0, 1, 3]

/-- A length-consistent USER keychain that holds the signing-key record only
(field id 1, length 32, the key bytes `5, ..., 5`). -/
def keychain_sign_only : List Byte := [7, 221, 0, 0, 34, 1, 32] ++ List.replicate 32 5

/-- A length-consistent USER keychain whose encryption-key record declares 9
bytes where one byte follows. -/
def keychain_enc_overlong : List Byte := [7, 221, 0, 0, 4, 2, 0, 9, 0xAA]

/-! ## Effects of the file functions

The file functions of `keys.c` call external code (EC serialisation, `malloc`,
base64, PEM input and output) and are obliged to wipe the buffers that hold key
material. A call of such a function is embedded as the list of its effects, in
program order, together with its result; what the external functions return is
given by a record of type `Extern`. -/

/-- The buffers of `keys.c` that hold key material. The decoded keychain is
`serial_keys` in `keys_file_serialize` and `keys_bin` in its callers; it is
`Buf.keys_bin` here. -/
inductive Buf where
  | serial_sign
  | serial_enc
  | serial_keys
  | b64_keys
  | keys_bin
  deriving DecidableEq, Repr

/-- The external functions that the file functions call. -/
inductive Callee where
  | serialize_ec_privkey
  | malloc
  | b64encode
  | write_pem_data
  | read_pem_data
  | b64decode
  deriving DecidableEq, Repr

/-- One effect of a file function: key material of `len` bytes comes to be held
in `buf`; `_secure_wipe(buf, len)`; `free(buf)`; a call of an external function. -/
inductive Event where
  | secret (buf : Buf) (len : Nat)
  | wipe (buf : Buf) (len : Nat)
  | free (buf : Buf)
  | call (f : Callee)
  deriving DecidableEq, Repr

/-- What the external functions return: `none` is `NULL`, `malloc` is given the
size and tells whether it succeeds, `_write_pem_data` returns its `int`. A C
string is the list of its characters, so `strlen` is the length of the list. -/
structure Extern (EC_KEY : Type) where
  _serialize_ec_privkey : EC_KEY → Option (List Byte)
  malloc : Nat → Bool
  _b64encode : List Byte → Nat → Option (List Byte)
  _write_pem_data : List Byte → List Byte → Int
  _read_pem_data : List Byte → Option (List Byte)
  _b64decode : List Byte → Nat → Option (List Byte)

/-- `keys_file_create` (keys.c 223-303): the effects in program order and the
result (`Except.ok ()` for `0`). `sign_key` is `none` for `NULL` and otherwise
`sign_key->private_key`; the buffer of lines 260-283 is
`keys_file_create_serial_keys`. -/
def keys_file_create {EC_KEY : Type} (ext : Extern EC_KEY) (type : keys_type_t)
    (sign_key : Option (List Byte)) (enc_key : Option EC_KEY) (filename : Option (List Byte)) :
    List Event × Except Failure Unit :=
  match sign_key, enc_key, filename with
  | some private_key, some enc_key, some filename =>
    if type = .KEYS_TYPE_ERROR then ([], .error (.err .ERR_BAD_PARAM))
    else
      let tr := [Event.secret .serial_sign ED25519_KEY_SIZE, .call .serialize_ec_privkey]
      match ext._serialize_ec_privkey enc_key with
      | none => (tr ++ [.wipe .serial_sign ED25519_KEY_SIZE], .error (.err .ERR_UNSPEC))
      | some serial_enc =>
        let enc_size := serial_enc.length
        let serial_size := KEYS_HEADER_SIZE + 1 + 1 + ED25519_KEY_SIZE + 1 + 2 + enc_size
        let tr := tr ++ [.secret .serial_enc enc_size, .call .malloc]
        if ext.malloc serial_size = false then
          (tr ++ [.wipe .serial_sign ED25519_KEY_SIZE, .wipe .serial_enc enc_size,
            .free .serial_enc], .error (.err .ERR_NOMEM))
        else
          match keys_file_create_serial_keys type private_key serial_enc with
          | .error f => (tr, .error f)
          | .ok (serial_keys, serial_size) =>
            let tr := tr ++ [.secret .serial_keys serial_size,
              .wipe .serial_sign ED25519_KEY_SIZE, .wipe .serial_enc enc_size,
              .free .serial_enc, .call .b64encode]
            match ext._b64encode serial_keys serial_size with
            | none =>
              (tr ++ [.wipe .serial_keys serial_size, .free .serial_keys],
                .error (.err .ERR_UNSPEC))
            | some b64_keys =>
              let tr := tr ++ [.secret .b64_keys b64_keys.length,
                .wipe .serial_keys serial_size, .free .serial_keys, .call .write_pem_data]
              let res := ext._write_pem_data b64_keys filename
              let tr := tr ++ [.wipe .b64_keys b64_keys.length, .free .b64_keys]
              if res < 0 then (tr, .error (.err .ERR_UNSPEC)) else (tr, .ok ())
  | _, _, _ => ([], .error (.err .ERR_BAD_PARAM))

/-- `keys_file_serialize` (keys.c 192-213): the effects and the result, the
decoded keychain with its length `*len`. `len` is `none` for a `NULL` pointer. -/
def keys_file_serialize {EC_KEY : Type} (ext : Extern EC_KEY) (filename : Option (List Byte))
    (len : Option Unit) : List Event × Except Failure (List Byte × Nat) :=
  match filename, len with
  | some filename, some _ =>
    match ext._read_pem_data filename with
    | none => ([.call .read_pem_data], .error (.err .ERR_UNSPEC))
    | some b64_keys =>
      let tr := [Event.call .read_pem_data, .secret .b64_keys b64_keys.length,
        .call .b64decode]
      match ext._b64decode b64_keys b64_keys.length with
      | none => (tr ++ [.free .b64_keys], .error (.err .ERR_UNSPEC))
      | some serial_keys =>
        (tr ++ [.secret .keys_bin serial_keys.length, .free .b64_keys],
          .ok (serial_keys, serial_keys.length))
  | _, _ => ([], .error (.err .ERR_BAD_PARAM))

/-- `keys_fetch_sign_key` (keys.c 311-336). -/
def keys_fetch_sign_key {EC_KEY ED25519_KEY : Type} (ext : Extern EC_KEY)
    (_deserialize_ed25519_privkey : List Byte → Option ED25519_KEY)
    (filename : Option (List Byte)) : List Event × Except Failure ED25519_KEY :=
  match filename with
  | none => ([], .error (.err .ERR_BAD_PARAM))
  | some fname =>
    if fname.length = 0 then ([], .error (.err .ERR_BAD_PARAM))
    else
      match keys_file_serialize ext (some fname) (some ()) with
      | (tr, .error _) => (tr, .error (.err .ERR_UNSPEC))
      | (tr, .ok (keys_bin, keys_len)) =>
        let key := keys_serial_get_sign_key _deserialize_ed25519_privkey (some keys_bin) keys_len
        (tr ++ [.wipe .keys_bin keys_len, .free .keys_bin], on_error .ERR_UNSPEC key)

/-- `keys_fetch_enc_key` (keys.c 344-369). -/
def keys_fetch_enc_key {EC_KEY : Type} (ext : Extern EC_KEY)
    (_deserialize_ec_privkey : List Byte → Option EC_KEY)
    (filename : Option (List Byte)) : List Event × Except Failure EC_KEY :=
  match filename with
  | none => ([], .error (.err .ERR_BAD_PARAM))
  | some fname =>
    if fname.length = 0 then ([], .error (.err .ERR_BAD_PARAM))
    else
      match keys_file_serialize ext (some fname) (some ()) with
      | (tr, .error _) => (tr, .error (.err .ERR_UNSPEC))
      | (tr, .ok (keys_bin, keys_len)) =>
        let key := keys_serial_get_enc_key _deserialize_ec_privkey (some keys_bin) keys_len
        (tr ++ [.wipe .keys_bin keys_len, .free .keys_bin], on_error .ERR_UNSPEC key)

/-- What is known of a buffer while the effects are replayed: it holds no key
material, it holds `len` bytes of key material, or it was freed while it held key
material. -/
inductive Held where
  | nothing
  | material (len : Nat)
  | released
  deriving DecidableEq, Repr

/-- The effect of one event on what `buf` holds: a wipe clears the buffer when
it covers the full length, a `free` of a buffer that holds key material
releases the material. -/
def Held.step (buf : Buf) : Held → Event → Held
  | .released, _ => .released
  | h, .secret b len => if b = buf then .material len else h
  | .material len, .wipe b n => if b = buf ∧ n = len then .nothing else .material len
  | .material len, .free b => if b = buf then .released else .material len
  | h, _ => h

/-- Whether, in a list of effects that ends with the return of the function,
`buf` is wiped over its full length before it is freed and before the function
returns, whenever it holds key material. -/
def wiped_before_release (buf : Buf) (tr : List Event) : Bool :=
  match tr.foldl (Held.step buf) .nothing with
  | .nothing => true
  | _ => false

/-- External functions for a run in which everything succeeds: the EC key
serialises to `1, 2, 3`, base64 text is `B6A=`, the PEM body decodes to the
keychain `keychain_sign_only`. -/
def extern_ok : Extern Unit where
  _serialize_ec_privkey := fun _ => some [1, 2, 3]
  malloc := fun _ => true
  _b64encode := fun _ _ => some [66, 54, 65, 61]
  _write_pem_data := fun _ _ => 0
  _read_pem_data := fun _ => some [66, 54, 65, 61]
  _b64decode := fun _ _ => some keychain_sign_only

/-- External functions for a run in which the PEM body is read and its base64
decoding fails. -/
def extern_bad_b64 : Extern Unit where
  _serialize_ec_privkey := fun _ => some [1, 2, 3]
  malloc := fun _ => true
  _b64encode := fun _ _ => some [66, 54, 65, 61]
  _write_pem_data := fun _ _ => 0
  _read_pem_data := fun _ => some [66, 54, 65, 61]
  _b64decode := fun _ _ => none

/-- The file name `k.pem`. -/
def k_pem : List Byte := [107, 46, 112, 101, 109]

/-! ## Enumerations of `signet/general.h`

An enumerator without an initialiser is one more than the enumerator before it. -/

/-- The enumerators of `dime_number_t` (general.h 38-46), in the order of the
declaration. -/
def dime_number_t : List Nat :=
  [DIME_ORG_SIGNET, DIME_USER_SIGNET, DIME_SSR, DIME_ORG_KEYS, DIME_USER_KEYS, DIME_MSG_TRACING,
    DIME_ENCRYPTED_MSG]

def SIGNET_ORG_POK : Nat := 1
def SIGNET_ORG_SOK : Nat := SIGNET_ORG_POK + 1
def SIGNET_ORG_ENC_KEY : Nat := SIGNET_ORG_SOK + 1
def SIGNET_ORG_CRYPTO_SIG : Nat := SIGNET_ORG_ENC_KEY + 1
def SIGNET_ORG_NAME : Nat := 16
def SIGNET_ORG_ADDRESS : Nat := SIGNET_ORG_NAME + 1
def SIGNET_ORG_PROVINCE : Nat := SIGNET_ORG_ADDRESS + 1
def SIGNET_ORG_COUNTRY : Nat := SIGNET_ORG_PROVINCE + 1
def SIGNET_ORG_POSTAL : Nat := SIGNET_ORG_COUNTRY + 1
def SIGNET_ORG_PHONE : Nat := SIGNET_ORG_POSTAL + 1
def SIGNET_ORG_LANGUAGE : Nat := SIGNET_ORG_PHONE + 1
def SIGNET_ORG_CURRENCY : Nat := SIGNET_ORG_LANGUAGE + 1
def SIGNET_ORG_CRYPTOCURRENCY : Nat := SIGNET_ORG_CURRENCY + 1
def SIGNET_ORG_MOTTO : Nat := SIGNET_ORG_CRYPTOCURRENCY + 1
def SIGNET_ORG_EXTENSIONS : Nat := SIGNET_ORG_MOTTO + 1
def SIGNET_ORG_MSG_SIZE_LIM : Nat := SIGNET_ORG_EXTENSIONS + 1
def SIGNET_ORG_WEBSITE : Nat := 160
def SIGNET_ORG_ABUSE : Nat := 200
def SIGNET_ORG_ADMIN : Nat := SIGNET_ORG_ABUSE + 1
def SIGNET_ORG_SUPPORT : Nat := SIGNET_ORG_ADMIN + 1
def SIGNET_ORG_WEB_HOST : Nat := SIGNET_ORG_SUPPORT + 1
def SIGNET_ORG_WEB_LOCATION : Nat := SIGNET_ORG_WEB_HOST + 1
def SIGNET_ORG_WEB_CERT : Nat := SIGNET_ORG_WEB_LOCATION + 1
def SIGNET_ORG_MAIL_HOST : Nat := SIGNET_ORG_WEB_CERT + 1
def SIGNET_ORG_MAIL_CERT : Nat := SIGNET_ORG_MAIL_HOST + 1
def SIGNET_ORG_ONION_ACCESS_HOST : Nat := SIGNET_ORG_MAIL_CERT + 1
def SIGNET_ORG_ONION_ACCESS_CERT : Nat := SIGNET_ORG_ONION_ACCESS_HOST + 1
def SIGNET_ORG_ONION_DELIVERY_HOST : Nat := SIGNET_ORG_ONION_ACCESS_CERT + 1
def SIGNET_ORG_ONION_DELIVERY_CERT : Nat := SIGNET_ORG_ONION_DELIVERY_HOST + 1
def SIGNET_ORG_UNDEFINED : Nat := 251
def SIGNET_ORG_PHOTO : Nat := SIGNET_ORG_UNDEFINED + 1
def SIGNET_ORG_FULL_SIG : Nat := SIGNET_ORG_PHOTO + 1
def SIGNET_ORG_ID : Nat := SIGNET_ORG_FULL_SIG + 1
def SIGNET_ORG_ID_SIG : Nat := SIGNET_ORG_ID + 1

/-- The enumerators of `SIGNET_ORG_FIELD_T` (general.h 54-89), in the order of
the declaration. -/
def SIGNET_ORG_FIELD_T : List Nat :=
  [SIGNET_ORG_POK, SIGNET_ORG_SOK, SIGNET_ORG_ENC_KEY, SIGNET_ORG_CRYPTO_SIG, SIGNET_ORG_NAME,
    SIGNET_ORG_ADDRESS, SIGNET_ORG_PROVINCE, SIGNET_ORG_COUNTRY, SIGNET_ORG_POSTAL,
    SIGNET_ORG_PHONE, SIGNET_ORG_LANGUAGE, SIGNET_ORG_CURRENCY, SIGNET_ORG_CRYPTOCURRENCY,
    SIGNET_ORG_MOTTO, SIGNET_ORG_EXTENSIONS, SIGNET_ORG_MSG_SIZE_LIM, SIGNET_ORG_WEBSITE,
    SIGNET_ORG_ABUSE, SIGNET_ORG_ADMIN, SIGNET_ORG_SUPPORT, SIGNET_ORG_WEB_HOST,
    SIGNET_ORG_WEB_LOCATION, SIGNET_ORG_WEB_CERT, SIGNET_ORG_MAIL_HOST, SIGNET_ORG_MAIL_CERT,
    SIGNET_ORG_ONION_ACCESS_HOST, SIGNET_ORG_ONION_ACCESS_CERT, SIGNET_ORG_ONION_DELIVERY_HOST,
    SIGNET_ORG_ONION_DELIVERY_CERT, SIGNET_ORG_UNDEFINED, SIGNET_ORG_PHOTO, SIGNET_ORG_FULL_SIG,
    SIGNET_ORG_ID, SIGNET_ORG_ID_SIG]

def SIGNET_USER_SIGN_KEY : Nat := 1
def SIGNET_USER_ENC_KEY : Nat := SIGNET_USER_SIGN_KEY + 1
def SIGNET_USER_ALT_KEY : Nat := SIGNET_USER_ENC_KEY + 1
def SIGNET_USER_COC_SIG : Nat := SIGNET_USER_ALT_KEY + 1
def SIGNET_USER_SSR_SIG : Nat := SIGNET_USER_COC_SIG + 1
def SIGNET_USER_CRYPTO_SIG : Nat := SIGNET_USER_SSR_SIG + 1
def SIGNET_USER_NAME : Nat := 16
def SIGNET_USER_ADDRESS : Nat := SIGNET_USER_NAME + 1
def SIGNET_USER_PROVINCE : Nat := SIGNET_USER_ADDRESS + 1
def SIGNET_USER_COUNTRY : Nat := SIGNET_USER_PROVINCE + 1
def SIGNET_USER_POSTAL : Nat := SIGNET_USER_COUNTRY + 1
def SIGNET_USER_PHONE : Nat := SIGNET_USER_POSTAL + 1
def SIGNET_USER_LANGUAGE : Nat := SIGNET_USER_PHONE + 1
def SIGNET_USER_CURRENCY : Nat := SIGNET_USER_LANGUAGE + 1
def SIGNET_USER_CRYPTOCURRENCY : Nat := SIGNET_USER_CURRENCY + 1
def SIGNET_USER_MOTTO : Nat := SIGNET_USER_CRYPTOCURRENCY + 1
def SIGNET_USER_EXTENSIONS : Nat := SIGNET_USER_MOTTO + 1
def SIGNET_USER_MSG_SIZE_LIM : Nat := SIGNET_USER_EXTENSIONS + 1
def SIGNET_USER_CODECS : Nat := 93
def SIGNET_USER_TITLE : Nat := SIGNET_USER_CODECS + 1
def SIGNET_USER_EMPLOYER : Nat := SIGNET_USER_TITLE + 1
def SIGNET_USER_GENDER : Nat := SIGNET_USER_EMPLOYER + 1
def SIGNET_USER_ALMA_MATER : Nat := SIGNET_USER_GENDER + 1
def SIGNET_USER_SUPERVISOR : Nat := SIGNET_USER_ALMA_MATER + 1
def SIGNET_USER_POLITICAL_PARTY : Nat := SIGNET_USER_SUPERVISOR + 1
def SIGNET_USER_ALTERNATE_ADDRESS : Nat := 200
def SIGNET_USER_RESUME : Nat := SIGNET_USER_ALTERNATE_ADDRESS + 1
def SIGNET_USER_ENDORSEMENTS : Nat := SIGNET_USER_RESUME + 1
def SIGNET_USER_UNDEFINED : Nat := 251
def SIGNET_USER_PHOTO : Nat := SIGNET_USER_UNDEFINED + 1
def SIGNET_USER_FULL_SIG : Nat := SIGNET_USER_PHOTO + 1
def SIGNET_USER_ID : Nat := SIGNET_USER_FULL_SIG + 1
def SIGNET_USER_ID_SIG : Nat := SIGNET_USER_ID + 1

/-- The enumerators of `SIGNET_USER_FIELD_T` (general.h 91-125), in the order of
the declaration. -/
def SIGNET_USER_FIELD_T : List Nat :=
  [SIGNET_USER_SIGN_KEY, SIGNET_USER_ENC_KEY, SIGNET_USER_ALT_KEY, SIGNET_USER_COC_SIG,
    SIGNET_USER_SSR_SIG, SIGNET_USER_CRYPTO_SIG, SIGNET_USER_NAME, SIGNET_USER_ADDRESS,
    SIGNET_USER_PROVINCE, SIGNET_USER_COUNTRY, SIGNET_USER_POSTAL, SIGNET_USER_PHONE,
    SIGNET_USER_LANGUAGE, SIGNET_USER_CURRENCY, SIGNET_USER_CRYPTOCURRENCY, SIGNET_USER_MOTTO,
    SIGNET_USER_EXTENSIONS, SIGNET_USER_MSG_SIZE_LIM, SIGNET_USER_CODECS, SIGNET_USER_TITLE,
    SIGNET_USER_EMPLOYER, SIGNET_USER_GENDER, SIGNET_USER_ALMA_MATER, SIGNET_USER_SUPERVISOR,
    SIGNET_USER_POLITICAL_PARTY, SIGNET_USER_ALTERNATE_ADDRESS, SIGNET_USER_RESUME,
    SIGNET_USER_ENDORSEMENTS, SIGNET_USER_UNDEFINED, SIGNET_USER_PHOTO, SIGNET_USER_FULL_SIG,
    SIGNET_USER_ID, SIGNET_USER_ID_SIG]

/-- The ranges that the spec (section 6) gives the field identifiers of user
signets: 1-6, 16-95, 200-202 and 251-255. -/
def user_field_range (id : Nat) : Bool :=
  (1 ≤ id && id ≤ 6) || (16 ≤ id && id ≤ 95) || (200 ≤ id && id ≤ 202) ||
    (251 ≤ id && id ≤ 255)

/-- The ranges that hold every enumerator of `SIGNET_USER_FIELD_T`: 1-6, 16-99,
200-202 and 251-255. -/
def user_field_range_code (id : Nat) : Bool :=
  (1 ≤ id && id ≤ 6) || (16 ≤ id && id ≤ 99) || (200 ≤ id && id ≤ 202) ||
    (251 ≤ id && id ≤ 255)

/-- Modelled from the spec: the error kinds of section 7 (`BadParam`, `Format`,
`Incomplete`, `CryptoFail`, `Io`, `NoMem`, `Unspec`); the sources have the error
codes only. -/
inductive ErrorKind where
  | BadParam
  | Format
  | Incomplete
  | CryptoFail
  | Io
  | NoMem
  | Unspec
  deriving DecidableEq, Repr

/-- The kind of the spec that an error code of `keys.c` stands for, by its name. -/
def err_kind : err_t → ErrorKind
  | .ERR_BAD_PARAM => .BadParam
  | .ERR_UNSPEC => .Unspec
  | .ERR_NOMEM => .NoMem

/-- The kind of the error with which a call is rejected; `none` when the call is
not rejected through `RET_ERROR_*`. -/
def rejected_kind {α : Type} : Except Failure α → Option ErrorKind
  | .error (.err k) => some (err_kind k)
  | _ => none

/-- A buffer of 6 bytes whose header length is 2 where 1 byte follows the
header. -/
def keychain_length_mismatch : List Byte := [7, 160, 0, 0, 2, 9]

/-- A length-consistent buffer with the magic 1776 of an organizational signet. -/
def signet_magic_buffer : List Byte := [6, 240, 0, 0, 1, 9]

/-! ## `hash_fletcher32` (`src/libs/core/hash/fletcher.c`)

The buffer is the list of the 16-bit words that `const uint16_t *buf` points to;
`length` is the length in bytes. The `uint32_t` operations are written with
`% 2 ^ 32`. -/

/-- A `uint16_t`. -/
abbrev Word16 := Fin 65536

/-- The read `*buf++` of the word at index `i`, promoted to an integer. -/
def rd16 (buf : List Word16) (i : Nat) : Except Failure Nat :=
  match buf[i]? with
  | some w => .ok w.val
  | none => .error (.oob i)

/-- The number of times that the body of `do { ... } while (--input);` runs when
it is entered with `input`: `input` times, and `2 ^ 64` times when `input` is 0
and the decrement of the 64-bit `size_t` wraps. -/
def do_while_count (input : Nat) : Nat := if input = 0 then 2 ^ 64 else input

/-- The body `a += *buf++; b += a;` of the inner loop (fletcher.c 22-25), run
`count` times from the word index `pos`; the result is the index and the two
accumulators after the loop. -/
def hash_fletcher32_do_while (buf : List Word16) :
    Nat → Nat → Nat → Nat → Except Failure (Nat × Nat × Nat)
  | 0, pos, a, b => .ok (pos, a, b)
  | count + 1, pos, a, b => do
    let w ← rd16 buf pos
    let a := (a + w) % 2 ^ 32
    let b := (b + a) % 2 ^ 32
    hash_fletcher32_do_while buf count (pos + 1) a b

/-- The loop `while (blocks) { ... }` (fletcher.c 19-28). The first argument
bounds the number of loop tests. -/
def hash_fletcher32_while (buf : List Word16) :
    Nat → Nat → Nat → Nat → Nat → Except Failure (Nat × Nat)
  | 0, _, _, _, _ => .error .fuel
  | fuel + 1, blocks, pos, a, b =>
    if blocks = 0 then .ok (a, b)
    else do
      let input := if blocks > 360 then 360 else blocks
      let blocks := blocks - input
      let (pos, a, b) ← hash_fletcher32_do_while buf (do_while_count input) pos a b
      let a := ((a &&& 0xffff) + (a >>> 16)) % 2 ^ 32
      let b := ((b &&& 0xffff) + (b >>> 16)) % 2 ^ 32
      hash_fletcher32_while buf fuel blocks pos a b

/-- `hash_fletcher32` (fletcher.c 14-32). The loop is run with `blocks + 1` as
its bound, which it never uses up. -/
def hash_fletcher32 (buffer : List Word16) (length : Nat) : Except Failure Nat := do
  let blocks := length / 2
  let (a, b) ← hash_fletcher32_while buffer (blocks + 1) blocks 0 0xffff 0xffff
  let a := ((a &&& 0xffff) + (a >>> 16)) % 2 ^ 32
  let b := ((b &&& 0xffff) + (b >>> 16)) % 2 ^ 32
  pure (((b <<< 16) % 2 ^ 32) ||| a)

/-- The inner loop of `hash_fletcher32` over unbounded natural numbers. The last
argument and the last component of the result are the largest value that `a` or
`b` has taken so far. -/
def hash_fletcher32_nat_do_while (buf : List Word16) :
    Nat → Nat → Nat → Nat → Nat → Except Failure (Nat × Nat × Nat × Nat)
  | 0, pos, a, b, peak => .ok (pos, a, b, peak)
  | count + 1, pos, a, b, peak => do
    let w ← rd16 buf pos
    let a := a + w
    let b := b + a
    hash_fletcher32_nat_do_while buf count (pos + 1) a b (max peak (max a b))

/-- The outer loop of `hash_fletcher32` over unbounded natural numbers. -/
def hash_fletcher32_nat_while (buf : List Word16) :
    Nat → Nat → Nat → Nat → Nat → Nat → Except Failure (Nat × Nat × Nat)
  | 0, _, _, _, _, _ => .error .fuel
  | fuel + 1, blocks, pos, a, b, peak =>
    if blocks = 0 then .ok (a, b, peak)
    else do
      let input := if blocks > 360 then 360 else blocks
      let blocks := blocks - input
      let (pos, a, b, peak) ←
        hash_fletcher32_nat_do_while buf (do_while_count input) pos a b peak
      let a := (a &&& 0xffff) + (a >>> 16)
      let b := (b &&& 0xffff) + (b >>> 16)
      hash_fletcher32_nat_while buf fuel blocks pos a b peak

/-- The function `hash_fletcher32` computed over unbounded natural numbers: the
same statements without the reduction modulo `2 ^ 32`. The result is the value
and the largest value that an accumulator has taken before a fold. -/
def hash_fletcher32_nat (buffer : List Word16) (length : Nat) : Except Failure (Nat × Nat) := do
  let blocks := length / 2
  let (a, b, peak) ← hash_fletcher32_nat_while buffer (blocks + 1) blocks 0 0xffff 0xffff 0xffff
  let a := (a &&& 0xffff) + (a >>> 16)
  let b := (b &&& 0xffff) + (b >>> 16)
  pure ((b <<< 16) ||| a, peak)

/-- The sum `w_1 + ... + w_m` of the words. -/
def word_sum (ws : List Word16) : Nat := (ws.map Fin.val).sum

/-- The sum over `k = 1..m` of the prefix sums `w_1 + ... + w_k`. -/
def prefix_sum_sum (ws : List Word16) : Nat :=
  ((List.range ws.length).map (fun k => word_sum (ws.take (k + 1)))).sum

def SIGNET_SSR_SIGN_KEY : Nat := 1
def SIGNET_SSR_ENC_KEY : Nat := SIGNET_SSR_SIGN_KEY + 1
def SIGNET_SSR_ALT_KEY : Nat := SIGNET_SSR_ENC_KEY + 1
def SIGNET_SSR_COC_SIG : Nat := SIGNET_SSR_ALT_KEY + 1
def SIGNET_SSR_SSR_SIG : Nat := SIGNET_SSR_COC_SIG + 1

/-- The enumerators of `SIGNET_SSR_FIELD_T` (general.h 127-133), in the order of
the declaration. -/
def SIGNET_SSR_FIELD_T : List Nat :=
  [SIGNET_SSR_SIGN_KEY, SIGNET_SSR_ENC_KEY, SIGNET_SSR_ALT_KEY, SIGNET_SSR_COC_SIG,
    SIGNET_SSR_SSR_SIG]

/-- A field record with a 1-byte length, `fid || len || data[len]`, given as the
pair of its field id and its data. -/
def record_bytes (r : Byte × List Byte) : List Byte := r.1 :: byte r.2.length :: r.2

/-- The bytes of a sequence of field records with 1-byte lengths. -/
def records_bytes : List (Byte × List Byte) → List Byte
  | [] => []
  | r :: rs => record_bytes r ++ records_bytes rs

/-- The buffer `header || r_1 .. r_k || enc_fid || u2be(L) || d[L] || tail`. -/
def keychain_with_records (header : List Byte) (rs : List (Byte × List Byte)) (enc_fid : Nat)
    (d tail : List Byte) : List Byte :=
  header ++ records_bytes rs ++ [byte enc_fid] ++ u2be d.length ++ d ++ tail

/-- An ORG keychain with a POK record, two SOK records (field id 2) of 2 and 0
bytes, the second with the data `3, 3`, the encryption-key record `3 || 00 02 ||
AA BB`, and a tail of one byte. -/
def keychain_with_sok : List Byte :=
  keychain_with_records [7, 160, 0, 0, 46] [(1, List.replicate 32 9), (2, [3, 3]), (2, [])] 3
    [0xAA, 0xBB] [0]

/-- A serialized EC key of 65537 bytes. -/
def long_ec_key : List Byte := List.replicate 65537 7

/-! ## Logging (core/log/log.c) -/

/-- The values of the `M_LOG_OPTIONS` enumerators that `log_internal` tests. They are
declared in `core/magma.h`, which is not among the sources, so the model takes
them as a parameter. -/
structure M_LOG_OPTIONS where
  M_LOG_TIME : Nat
  M_LOG_TIME_DISABLE : Nat
  M_LOG_FILE : Nat
  M_LOG_FILE_DISABLE : Nat
  M_LOG_FUNCTION : Nat
  M_LOG_FUNCTION_DISABLE : Nat
  M_LOG_LINE : Nat
  M_LOG_LINE_DISABLE : Nat
  M_LOG_LINE_FEED_DISABLE : Nat
  M_LOG_STACK_TRACE : Nat
  M_LOG_STACK_TRACE_DISABLE : Nat
  deriving DecidableEq, Repr

/-- The members of the configuration `magma.log` that `log_internal` reads. -/
structure magma_log_t where
  time : Bool
  file : Bool
  function : Bool
  line : Bool
  stack : Bool
  deriving DecidableEq, Repr

/-- What `log_internal` takes from outside `log.c`: the enumerator values, the
configuration `magma.log`, the time given by `time(NULL)`, the text that
`print_backtrace` writes to standard output with the `int` that it returns, and
the `int` returned by `write(STDERR_FILENO, ...)`. -/
structure LogExtern where
  m : M_LOG_OPTIONS
  magma_log : magma_log_t
  now : Nat
  backtrace : List Byte
  print_backtrace : Int
  write : Int
  deriving DecidableEq, Repr

/-- One write to a stream. The first four are the `fprintf` calls of lines 128-143,
whose first argument is `" - "` when `output` is true and `"["` otherwise;
`bracket` is `"] = "`, `message` is the `vfprintf` of the format with its
arguments, `backtrace` is what `print_backtrace` writes, `errmsg` is the text
written to standard error, and `fflush` is the call of line 180. -/
inductive Output
  | time (output : Bool) (now : Nat)
  | file (output : Bool) (file : List Byte)
  | function (output : Bool) (function : List Byte)
  | line (output : Bool) (line : Int)
  | bracket
  | message (format : List Byte) (args : List Nat)
  | line_feed
  | backtrace (text : List Byte)
  | errmsg
  | fflush
  deriving DecidableEq, Repr

/-- The static variables of `log.c` (lines 8-10; `log_mutex` is true while the
mutex is held) and what has been written to the two streams, oldest first. -/
structure Log where
  log_date : Nat
  log_enabled : Bool
  log_mutex : Bool
  stdout : List Output
  stderr : List Output
  deriving DecidableEq, Repr

/-- The state when the program starts (log.c 8-10): `log_enabled = true`, the
mutex free, nothing written. -/
def log_static : Log where
  log_date := 0
  log_enabled := true
  log_mutex := false
  stdout := []
  stderr := []

/-- The state when `mutex_lock(&log_mutex)` has returned. -/
def mutex_lock (s : Log) : Log := { s with log_mutex := true }

/-- The state when `mutex_unlock(&log_mutex)` has returned. -/
def mutex_unlock (s : Log) : Log := { s with log_mutex := false }

/-- `log_disable` (log.c 15-19). -/
def log_disable (s : Log) : Log :=
  mutex_unlock { mutex_lock s with log_enabled := false }

/-- `log_enable` (log.c 24-28). -/
def log_enable (s : Log) : Log :=
  mutex_unlock { mutex_lock s with log_enabled := true }

/-- A write to standard output. -/
def fprintf (o : Output) (s : Log) : Log := { s with stdout := s.stdout ++ [o] }

/-- `log_internal` (log.c 104-182). The pairs hold the state and the local
variable `output`. -/
def log_internal (ext : LogExtern) (file function : List Byte) (line : Int) (options : Nat)
    (format : List Byte) (args : List Nat) (s : Log) : Log :=
  let s := mutex_lock s
  if !s.log_enabled then mutex_unlock s
  else
    let r : Log × Bool := (s, false)
    let r :=
      if (ext.magma_log.time || ext.m.M_LOG_TIME = options &&& ext.m.M_LOG_TIME)
          && !(ext.m.M_LOG_TIME_DISABLE = options &&& ext.m.M_LOG_TIME_DISABLE) then
        (fprintf (.time r.2 ext.now) r.1, true)
      else r
    let r :=
      if (ext.magma_log.file || ext.m.M_LOG_FILE = options &&& ext.m.M_LOG_FILE)
          && !(ext.m.M_LOG_FILE_DISABLE = options &&& ext.m.M_LOG_FILE_DISABLE) then
        (fprintf (.file r.2 file) r.1, true)
      else r
    let r :=
      if (ext.magma_log.function || ext.m.M_LOG_FUNCTION = options &&& ext.m.M_LOG_FUNCTION)
          && !(ext.m.M_LOG_FUNCTION_DISABLE = options &&& ext.m.M_LOG_FUNCTION_DISABLE) then
        (fprintf (.function r.2 function) r.1, true)
      else r
    let r :=
      if (ext.magma_log.line || ext.m.M_LOG_LINE = options &&& ext.m.M_LOG_LINE)
          && !(ext.m.M_LOG_LINE_DISABLE = options &&& ext.m.M_LOG_LINE_DISABLE) then
        (fprintf (.line r.2 line) r.1, true)
      else r
    let s := if r.2 then fprintf .bracket r.1 else r.1
    let s := fprintf (.message format args) s
    let s :=
      if !(ext.m.M_LOG_LINE_FEED_DISABLE = options &&& ext.m.M_LOG_LINE_FEED_DISABLE) then
        fprintf .line_feed s
      else s
    if (ext.magma_log.stack || ext.m.M_LOG_STACK_TRACE = options &&& ext.m.M_LOG_STACK_TRACE)
        && !(ext.m.M_LOG_STACK_TRACE_DISABLE = options &&& ext.m.M_LOG_STACK_TRACE_DISABLE) then
      let s := fprintf (.backtrace ext.backtrace) s
      if ext.print_backtrace < 0 then
        let s := { s with stderr := s.stderr ++ [Output.errmsg] }
        if ext.write < 0 then mutex_unlock s
        else mutex_unlock (fprintf .fflush s)
      else mutex_unlock (fprintf .fflush s)
    else mutex_unlock (fprintf .fflush s)

/-- A call of one of the three functions. -/
inductive LogCall
  | log_disable
  | log_enable
  | log_internal (ext : LogExtern) (file function : List Byte) (line : Int) (options : Nat)
      (format : List Byte) (args : List Nat)
  deriving DecidableEq, Repr

/-- The state after a call. -/
def LogCall.run : LogCall → Log → Log
  | .log_disable, s => Dime.log_disable s
  | .log_enable, s => Dime.log_enable s
  | .log_internal ext file function line options format args, s =>
    Dime.log_internal ext file function line options format args s

/-- The state after the calls of a list, made one after the other. -/
def log_calls : List LogCall → Log → Log
  | [], s => s
  | c :: cs, s => log_calls cs (c.run s)

/-- Enumerator values with one bit for each option. -/
def m_log_bits : M_LOG_OPTIONS where
  M_LOG_TIME := 1
  M_LOG_TIME_DISABLE := 2
  M_LOG_FILE := 4
  M_LOG_FILE_DISABLE := 8
  M_LOG_FUNCTION := 16
  M_LOG_FUNCTION_DISABLE := 32
  M_LOG_LINE := 64
  M_LOG_LINE_DISABLE := 128
  M_LOG_LINE_FEED_DISABLE := 256
  M_LOG_STACK_TRACE := 512
  M_LOG_STACK_TRACE_DISABLE := 1024

/-- A configuration that asks for the file and the line, with a backtrace that
succeeds. -/
def log_extern_sample : LogExtern where
  m := m_log_bits
  magma_log := ⟨false, true, false, true, false⟩
  now := 0
  backtrace := []
  print_backtrace := 0
  write := 0

/-! ## Lemmas on reading -/

theorem rd_eq_ok {buf : List Byte} {i : Nat} (h : i < buf.length) :
    rd buf i = .ok (buf.getD i 0).val := by
  simp [rd, List.getD, List.getElem?_eq_getElem h]

theorem rd_eq_oob {buf : List Byte} {i : Nat} (h : buf.length ≤ i) :
    rd buf i = .error (.oob i) := by
  simp [rd, List.getElem?_eq_none h]

theorem int_no_get_2b_eq_ok {buf : List Byte} {off : Nat} (h : off + 1 < buf.length) :
    _int_no_get_2b buf off = .ok ((buf.getD off 0).val * 256 + (buf.getD (off + 1) 0).val) := by
  have h0 : off < buf.length := by omega
  simp [_int_no_get_2b, rd_eq_ok h, rd_eq_ok h0, bind, Except.bind, pure, Except.pure]

theorem int_no_get_3b_eq_ok {buf : List Byte} {off : Nat} (h : off + 2 < buf.length) :
    _int_no_get_3b buf off = .ok ((buf.getD off 0).val * 65536 + (buf.getD (off + 1) 0).val * 256
      + (buf.getD (off + 2) 0).val) := by
  have h0 : off < buf.length := by omega
  have h1 : off + 1 < buf.length := by omega
  simp [_int_no_get_3b, rd_eq_ok h, rd_eq_ok h0, rd_eq_ok h1, bind, Except.bind, pure,
    Except.pure]

/-- The outcome of `keys_check_length` on a buffer with its own length. -/
theorem keys_check_length_eq (b : List Byte) :
    keys_check_length (some b) b.length =
      if b.length < 5 then .error (.err .ERR_BAD_PARAM)
      else if b.length - 5 ≠ header_length b then .error (.err .ERR_UNSPEC)
      else .ok () := by
  unfold keys_check_length
  by_cases h : b.length < 5
  · simp [SIGNET_HEADER_SIZE, h]
  · have h2 : 2 + 2 < b.length := by omega
    simp only [SIGNET_HEADER_SIZE, h, if_false, int_no_get_3b_eq_ok h2, header_length]
    rfl

theorem keys_check_length_ok_iff (b : List Byte) :
    keys_check_length (some b) b.length = .ok () ↔
      5 ≤ b.length ∧ b.length - 5 = header_length b := by
  rw [keys_check_length_eq]
  by_cases h : b.length < 5
  · simp [h]
  · by_cases h2 : b.length - 5 = header_length b
    · simp [h, h2]; omega
    · simp [h, h2]

theorem serial_size_eq (n : Nat) :
    KEYS_HEADER_SIZE + 1 + 1 + ED25519_KEY_SIZE + 1 + 2 + n = n + 42 := by
  simp [KEYS_HEADER_SIZE, ED25519_KEY_SIZE]; omega

theorem byte_mod_16 (n : Nat) : byte (n % 65536) = byte n := by
  apply Fin.ext; simp [byte]; omega

theorem byte_div_mod_16 (n : Nat) : byte (n % 65536 / 256) = byte (n / 256) := by
  apply Fin.ext; simp [byte]; omega

theorem byte_mod_32 (n : Nat) : byte (n % 4294967296) = byte n := by
  apply Fin.ext; simp [byte]; omega

theorem byte_div_mod_32 (n : Nat) : byte (n % 4294967296 / 256) = byte (n / 256) := by
  apply Fin.ext; simp [byte]; omega

theorem byte_div2_mod_32 (n : Nat) : byte (n % 4294967296 / 65536) = byte (n / 65536) := by
  apply Fin.ext; simp [byte]; omega

/-- The writes of `keys_file_create` (keys.c 260-283) produce the layout of the spec. -/
theorem keys_file_create_writes_eq (number sign_fid enc_fid : Nat) (s e : List Byte)
    (hs : s.length = 32) :
    (let serial_sign := memcpy (List.replicate ED25519_KEY_SIZE 0) 0 s ED25519_KEY_SIZE
  let enc_size := e.length
  let serial_size := KEYS_HEADER_SIZE + 1 + 1 + ED25519_KEY_SIZE + 1 + 2 + enc_size
  let serial_keys := List.replicate serial_size (0 : Byte)
  let serial_keys := _int_no_put_2b serial_keys 0 (number % 2 ^ 16)
  let serial_keys := _int_no_put_3b serial_keys 2 ((serial_size - KEYS_HEADER_SIZE) % 2 ^ 32)
  let at_ := KEYS_HEADER_SIZE
  let serial_keys := serial_keys.set at_ (byte sign_fid)
  let at_ := at_ + 1
  let serial_keys := serial_keys.set at_ (byte ED25519_KEY_SIZE)
  let at_ := at_ + 1
  let serial_keys := memcpy serial_keys at_ serial_sign ED25519_KEY_SIZE
  let at_ := at_ + ED25519_KEY_SIZE
  let serial_keys := serial_keys.set at_ (byte enc_fid)
  let at_ := at_ + 1
  let serial_keys := _int_no_put_2b serial_keys at_ (enc_size % 2 ^ 16)
  let at_ := at_ + 2
  let serial_keys := memcpy serial_keys at_ e enc_size
  (serial_keys, serial_size)) = (keychain_layout number sign_fid enc_fid s e, 42 + e.length) := by
  have h42 : 42 + e.length = e.length + 42 := by omega
  have h37 : 37 + e.length = e.length + 37 := by omega
  have hts : List.take 32 s = s := List.take_of_length_le (by omega)
  simp only [serial_size_eq, h42]
  simp [KEYS_HEADER_SIZE, ED25519_KEY_SIZE, memcpy, _int_no_put_2b, _int_no_put_3b,
    keychain_layout, u2be, u3be, h37, hts, List.replicate_succ, List.set_append, hs,
    List.take_append_eq_append_take, List.drop_append_eq_append_drop,
    byte_mod_16, byte_div_mod_16, byte_mod_32, byte_div_mod_32, byte_div2_mod_32]
  rw [List.take_of_length_le (by omega), List.drop_eq_nil_of_le (by simp [hs]; omega)]
  simp


theorem on_error_ok {α : Type} (kind : err_t) (v : α) :
    on_error kind (Except.ok v : Except Failure α) = .ok v := rfl

theorem on_error_err {α : Type} (kind k : err_t) :
    on_error kind (Except.error (.err k) : Except Failure α) = .error (.err kind) := rfl

/-- The outcome of `keys_type_get` on a buffer with its own length. -/
theorem keys_type_get_eq (b : List Byte) :
    keys_type_get (some b) b.length =
      if keys_check_length (some b) b.length = .ok () then
        if header_magic b = 1952 then .ok .KEYS_TYPE_ORG
        else if header_magic b = 2013 then .ok .KEYS_TYPE_USER
        else .error (.err .ERR_UNSPEC)
      else .error (.err .ERR_BAD_PARAM) := by
  by_cases hc : keys_check_length (some b) b.length = .ok ()
  · have h5 := ((keys_check_length_ok_iff b).1 hc).1
    have h2 : 0 + 1 < b.length := by omega
    simp only [keys_type_get, hc, on_error_ok, if_true, int_no_get_2b_eq_ok h2, header_magic,
      DIME_ORG_KEYS, DIME_USER_KEYS]
    rfl
  · rw [keys_check_length_eq] at hc
    simp only [keys_type_get, keys_check_length_eq]
    by_cases h : b.length < 5
    · simp [h, on_error, bind, Except.bind]
    · by_cases h2 : b.length - 5 = header_length b
      · simp [h, h2] at hc
      · simp [h, h2, on_error, bind, Except.bind]

theorem keys_type_get_ok_magic {b : List Byte} {t : keys_type_t}
    (ht : keys_type_get (some b) b.length = .ok t) :
    keys_check_length (some b) b.length = .ok () ∧ t ≠ .KEYS_TYPE_ERROR ∧
      header_magic b = keys_magic t := by
  rw [keys_type_get_eq] at ht
  by_cases hc : keys_check_length (some b) b.length = .ok ()
  · refine ⟨hc, ?_⟩
    rw [if_pos hc] at ht
    by_cases h1 : header_magic b = 1952
    · rw [if_pos h1] at ht
      cases ht
      exact ⟨by decide, h1⟩
    · rw [if_neg h1] at ht
      by_cases h2 : header_magic b = 2013
      · rw [if_pos h2] at ht
        cases ht
        exact ⟨by decide, h2⟩
      · rw [if_neg h2] at ht
        cases ht
  · rw [if_neg hc] at ht
    cases ht

/-- The outcome of `keys_serial_get_sign_key` on a keychain buffer. -/
theorem keys_serial_get_sign_key_eq {K : Type} (deser : List Byte → Option K) (b : List Byte)
    (t : keys_type_t) (ht : keys_type_get (some b) b.length = .ok t) :
    keys_serial_get_sign_key deser (some b) b.length =
      if b.length < 39 then .error (.err .ERR_BAD_PARAM)
      else if (b.getD 5 0).val ≠ 1 then .error (.err .ERR_UNSPEC)
      else if (b.getD 6 0).val ≠ 32 then .error (.err .ERR_UNSPEC)
      else deserialized (deser ((b.drop 7).take 32)) := by
  obtain ⟨hc, hne, -⟩ := keys_type_get_ok_magic ht
  simp only [keys_serial_get_sign_key, hc, ht, on_error_ok, KEYS_HEADER_SIZE, ED25519_KEY_SIZE]
  by_cases h : b.length < 39
  · simp [h, bind, Except.bind]
  · have h5 : 5 < b.length := by omega
    have h6 : 5 + 1 < b.length := by omega
    cases t with
    | KEYS_TYPE_ERROR => exact absurd rfl hne
    | KEYS_TYPE_ORG =>
      simp only [bind, Except.bind, pure, Except.pure, rd_eq_ok h5, rd_eq_ok h6,
        KEYS_ORG_PRIVATE_POK, h, if_false]
    | KEYS_TYPE_USER =>
      simp only [bind, Except.bind, pure, Except.pure, rd_eq_ok h5, rd_eq_ok h6,
        KEYS_USER_PRIVATE_SIGN, h, if_false]

/-- The outcome of `keys_serial_get_enc_key` on a keychain buffer, in terms of
the record search. -/
theorem keys_serial_get_enc_key_eq {K : Type} (deser : List Byte → Option K) (b : List Byte)
    (t : keys_type_t) (ht : keys_type_get (some b) b.length = .ok t) :
    keys_serial_get_enc_key deser (some b) b.length = (do
      let p ← keys_serial_get_enc_key_loop b b.length (keys_enc_fid t) b.length 5
      let l ← _int_no_get_2b b p
      if p + 2 + l > b.length then .error (.err .ERR_UNSPEC)
      else deserialized (deser ((b.drop (p + 2)).take l))) := by
  obtain ⟨hc, hne, -⟩ := keys_type_get_ok_magic ht
  simp only [keys_serial_get_enc_key, hc, ht, on_error_ok, KEYS_HEADER_SIZE]
  cases t with
  | KEYS_TYPE_ERROR => exact absurd rfl hne
  | KEYS_TYPE_ORG => rfl
  | KEYS_TYPE_USER => rfl

/-! ## Lemmas on the record search -/

theorem keys_serial_get_enc_key_loop_found {b : List Byte} {len enc_fid fuel p : Nat}
    (h : rd b p = .ok enc_fid) :
    keys_serial_get_enc_key_loop b len enc_fid (fuel + 1) p = .ok (p + 1) := by
  simp [keys_serial_get_enc_key_loop, h, bind, Except.bind, pure, Except.pure]

theorem keys_serial_get_enc_key_loop_skip {b : List Byte} {len enc_fid fuel p fid skip : Nat}
    (h : rd b p = .ok fid) (hne : fid ≠ enc_fid) (hs : rd b (p + 1) = .ok skip)
    (hlen : p + 1 + (skip + 1) < len) :
    keys_serial_get_enc_key_loop b len enc_fid (fuel + 1) p =
      keys_serial_get_enc_key_loop b len enc_fid fuel (p + 1 + (skip + 1)) := by
  have hlen2 : ¬ len ≤ p + 1 + (skip + 1) := by omega
  simp [keys_serial_get_enc_key_loop, h, hs, hne, hlen2, bind, Except.bind]

/-- The bound that `keys_serial_get_enc_key` gives the record search is never
used up: with `len ≤ at + fuel` and `0 < fuel` the search does not end in
`Failure.fuel`. -/
theorem keys_serial_get_enc_key_loop_fuel (b : List Byte) (len enc_fid : Nat) :
    ∀ (fuel p : Nat), 0 < fuel → len ≤ p + fuel →
      keys_serial_get_enc_key_loop b len enc_fid fuel p ≠ .error .fuel := by
  intro fuel
  induction fuel with
  | zero => intro p h; omega
  | succ n ih =>
    intro p _ hlen
    unfold keys_serial_get_enc_key_loop
    by_cases hp : p < b.length
    · obtain ⟨fid, h1⟩ : ∃ fid, rd b p = .ok fid := ⟨_, rd_eq_ok hp⟩
      by_cases hf : fid = enc_fid
      · simp [h1, hf, bind, Except.bind, pure, Except.pure]
      · by_cases hp1 : p + 1 < b.length
        · obtain ⟨skip, h2⟩ : ∃ skip, rd b (p + 1) = .ok skip := ⟨_, rd_eq_ok hp1⟩
          by_cases hl : len ≤ p + 1 + (skip + 1)
          · simp [h1, h2, hf, hl, bind, Except.bind]
          · simp only [h1, h2, bind, Except.bind, hf, hl, ne_eq, not_false_eq_true, if_true,
              if_false]
            exact ih _ (by omega) (by omega)
        · simp [h1, rd_eq_oob (Nat.le_of_not_lt hp1), hf, bind, Except.bind]
    · simp [rd_eq_oob (Nat.le_of_not_lt hp), bind, Except.bind]

/-! ## The loop bound is never used up -/

theorem rd_cases (buf : List Byte) (i : Nat) :
    (∃ v, rd buf i = .ok v) ∨ rd buf i = .error (.oob i) := by
  unfold rd
  cases buf[i]? with
  | none => exact Or.inr rfl
  | some v => exact Or.inl ⟨_, rfl⟩

theorem int_no_get_2b_ne_fuel (buf : List Byte) (off : Nat) :
    _int_no_get_2b buf off ≠ .error .fuel := by
  unfold _int_no_get_2b
  rcases rd_cases buf off with ⟨v, h⟩ | h <;>
    rcases rd_cases buf (off + 1) with ⟨w, h'⟩ | h' <;>
      simp [h, h', bind, Except.bind, pure, Except.pure]

theorem int_no_get_3b_ne_fuel (buf : List Byte) (off : Nat) :
    _int_no_get_3b buf off ≠ .error .fuel := by
  unfold _int_no_get_3b
  rcases rd_cases buf off with ⟨v, h⟩ | h <;>
    rcases rd_cases buf (off + 1) with ⟨w, h'⟩ | h' <;>
      rcases rd_cases buf (off + 2) with ⟨x, h''⟩ | h'' <;>
        simp [h, h', h'', bind, Except.bind, pure, Except.pure]

theorem on_error_ne_fuel {α : Type} (kind : err_t) (r : Except Failure α)
    (h : r ≠ .error .fuel) : on_error kind r ≠ .error .fuel := by
  unfold on_error
  split
  · simp
  · exact h

theorem keys_check_length_ne_fuel (in_ : Option (List Byte)) (in_len : Nat) :
    keys_check_length in_ in_len ≠ .error .fuel := by
  unfold keys_check_length
  cases in_ with
  | none => simp
  | some buf =>
    by_cases h : in_len < SIGNET_HEADER_SIZE
    · simp [h]
    · have h3 := int_no_get_3b_ne_fuel buf 2
      cases h' : _int_no_get_3b buf 2 with
      | error f =>
        rw [h'] at h3
        simpa [h, h', bind, Except.bind] using h3
      | ok v =>
        by_cases hv : in_len - SIGNET_HEADER_SIZE = v <;>
          simp [h, h', hv, bind, Except.bind, pure, Except.pure]

theorem keys_check_length_ok_len {in_ : Option (List Byte)} {in_len : Nat}
    (h : keys_check_length in_ in_len = .ok ()) : 5 ≤ in_len := by
  unfold keys_check_length at h
  cases in_ with
  | none => simp at h
  | some buf =>
    by_cases h5 : in_len < SIGNET_HEADER_SIZE
    · simp [h5] at h
    · simp only [SIGNET_HEADER_SIZE] at h5
      omega

theorem keys_type_get_ne_fuel (bin_keys : Option (List Byte)) (len : Nat) :
    keys_type_get bin_keys len ≠ .error .fuel := by
  unfold keys_type_get
  cases bin_keys with
  | none => simp
  | some buf =>
    have h1 := on_error_ne_fuel .ERR_BAD_PARAM _ (keys_check_length_ne_fuel (some buf) len)
    have h2 := int_no_get_2b_ne_fuel buf 0
    cases hc : on_error .ERR_BAD_PARAM (keys_check_length (some buf) len) with
    | error f =>
      rw [hc] at h1
      simpa [hc, bind, Except.bind] using h1
    | ok u =>
      cases hn : _int_no_get_2b buf 0 with
      | error f =>
        rw [hn] at h2
        simpa [hc, hn, bind, Except.bind] using h2
      | ok number =>
        by_cases ho : number = DIME_ORG_KEYS
        · simp [hc, hn, ho, bind, Except.bind, pure, Except.pure]
        · by_cases hu : number = DIME_USER_KEYS
          · simp [hc, hn, hu, DIME_USER_KEYS, DIME_ORG_KEYS, bind, Except.bind, pure,
              Except.pure]
          · simp [hc, hn, ho, hu, bind, Except.bind, pure, Except.pure]

/-- `keys_serial_get_enc_key` never ends in `Failure.fuel`: the bound `len` that it
gives the record search is enough on every input. -/
theorem keys_serial_get_enc_key_ne_fuel {K : Type} (deser : List Byte → Option K)
    (bin_keys : Option (List Byte)) (len : Nat) :
    keys_serial_get_enc_key deser bin_keys len ≠ .error .fuel := by
  unfold keys_serial_get_enc_key
  cases bin_keys with
  | none => simp
  | some buf =>
    have h1 := keys_check_length_ne_fuel (some buf) len
    cases hc : keys_check_length (some buf) len with
    | error f =>
      cases f with
      | err k => simp [hc, on_error, bind, Except.bind]
      | oob i => simp [hc, on_error, bind, Except.bind]
      | fuel => exact absurd hc h1
    | ok u =>
      have h5 := keys_check_length_ok_len hc
      have h2 := keys_type_get_ne_fuel (some buf) len
      have hloop : ∀ enc_fid, keys_serial_get_enc_key_loop buf len enc_fid len KEYS_HEADER_SIZE
          ≠ .error .fuel := fun enc_fid =>
        keys_serial_get_enc_key_loop_fuel buf len enc_fid len KEYS_HEADER_SIZE (by omega)
          (by omega)
      have hrest : ∀ enc_fid, (do
          let at_ ← keys_serial_get_enc_key_loop buf len enc_fid len KEYS_HEADER_SIZE
          let privkeylen ← _int_no_get_2b buf at_
          if at_ + 2 + privkeylen > len then (.error (.err .ERR_UNSPEC) : Except Failure K)
          else deserialized (deser ((buf.drop (at_ + 2)).take privkeylen)))
            ≠ .error .fuel := by
        intro enc_fid
        have hl := hloop enc_fid
        cases hp : keys_serial_get_enc_key_loop buf len enc_fid len KEYS_HEADER_SIZE with
        | error f =>
          rw [hp] at hl
          simpa [hp, bind, Except.bind] using hl
        | ok p =>
          have hg := int_no_get_2b_ne_fuel buf p
          cases hn : _int_no_get_2b buf p with
          | error f =>
            rw [hn] at hg
            simpa [hp, hn, bind, Except.bind] using hg
          | ok l =>
            by_cases hlen : p + 2 + l > len
            · simp [hp, hn, hlen, bind, Except.bind]
            · cases hd : deser ((buf.drop (p + 2)).take l) <;>
                simp [hp, hn, hlen, hd, deserialized, bind, Except.bind]
      cases ht : keys_type_get (some buf) len with
      | error f =>
        cases f with
        | err k => simp [hc, ht, on_error, bind, Except.bind]
        | oob i => simp [hc, ht, on_error, bind, Except.bind]
        | fuel => exact absurd ht h2
      | ok t =>
        cases t with
        | KEYS_TYPE_ERROR => simp [hc, ht, on_error, bind, Except.bind]
        | KEYS_TYPE_ORG =>
          simpa [hc, ht, on_error, bind, Except.bind, pure, Except.pure] using
            hrest KEYS_ORG_PRIVATE_ENC
        | KEYS_TYPE_USER =>
          simpa [hc, ht, on_error, bind, Except.bind, pure, Except.pure] using
            hrest KEYS_USER_PRIVATE_ENC

/-! ## Lemmas on the layout -/

theorem keychain_layout_cons (m sf ef : Nat) (s e : List Byte) :
    keychain_layout m sf ef s e =
      byte (m / 256) :: byte m :: byte ((37 + e.length) / 65536) :: byte ((37 + e.length) / 256) ::
        byte (37 + e.length) :: byte sf :: byte 32 ::
          (s ++ byte ef :: byte (e.length / 256) :: byte e.length :: e) := by
  simp [keychain_layout, u2be, u3be]

theorem keychain_layout_length (m sf ef : Nat) (s e : List Byte) (hs : s.length = 32) :
    (keychain_layout m sf ef s e).length = 42 + e.length := by
  simp [keychain_layout_cons, hs]
  omega

theorem keychain_layout_header_length (m sf ef : Nat) (s e : List Byte)
    (he : e.length ≤ 65535) :
    header_length (keychain_layout m sf ef s e) = 37 + e.length := by
  simp [keychain_layout_cons, header_length, byte]
  omega

theorem keychain_layout_header_magic (m sf ef : Nat) (s e : List Byte) (hm : m < 65536) :
    header_magic (keychain_layout m sf ef s e) = m := by
  simp [keychain_layout_cons, header_magic, byte]
  omega

theorem keychain_layout_check_length (m sf ef : Nat) (s e : List Byte) (hs : s.length = 32)
    (he : e.length ≤ 65535) :
    keys_check_length (some (keychain_layout m sf ef s e)) (keychain_layout m sf ef s e).length
      = .ok () := by
  rw [keys_check_length_ok_iff, keychain_layout_header_length m sf ef s e he,
    keychain_layout_length m sf ef s e hs]
  omega

theorem keychain_layout_type_get (t : keys_type_t) (sf ef : Nat) (s e : List Byte)
    (ht : t ≠ .KEYS_TYPE_ERROR) (hs : s.length = 32) (he : e.length ≤ 65535) :
    keys_type_get (some (keychain_layout (keys_magic t) sf ef s e))
      (keychain_layout (keys_magic t) sf ef s e).length = .ok t := by
  rw [keys_type_get_eq, if_pos (keychain_layout_check_length _ sf ef s e hs he)]
  cases t with
  | KEYS_TYPE_ERROR => exact absurd rfl ht
  | KEYS_TYPE_ORG =>
    rw [keychain_layout_header_magic _ sf ef s e (by decide)]
    rfl
  | KEYS_TYPE_USER =>
    rw [keychain_layout_header_magic _ sf ef s e (by decide)]
    rfl

theorem keychain_layout_rd_5 (m sf ef : Nat) (s e : List Byte) :
    rd (keychain_layout m sf ef s e) 5 = .ok (sf % 256) := by
  simp [keychain_layout_cons, rd, byte]

theorem keychain_layout_rd_6 (m sf ef : Nat) (s e : List Byte) :
    rd (keychain_layout m sf ef s e) 6 = .ok 32 := by
  simp [keychain_layout_cons, rd, byte]
  rfl

theorem keychain_layout_drop_39 (m sf ef : Nat) (s e : List Byte) (hs : s.length = 32) :
    (keychain_layout m sf ef s e).drop 39 =
      byte ef :: byte (e.length / 256) :: byte e.length :: e := by
  simp [keychain_layout_cons, List.drop_append_eq_append_drop, hs]

theorem rd_drop_ok {b : List Byte} {n i : Nat} {x : Byte} (h : (b.drop n)[i]? = some x) :
    rd b (n + i) = .ok x.val := by
  rw [List.getElem?_drop] at h
  simp [rd, h]

theorem keychain_layout_rd_39 (m sf ef : Nat) (s e : List Byte) (hs : s.length = 32) :
    rd (keychain_layout m sf ef s e) 39 = .ok (ef % 256) :=
  rd_drop_ok (n := 39) (i := 0) (x := byte ef)
    (by rw [keychain_layout_drop_39 m sf ef s e hs]; rfl)

theorem keychain_layout_get_2b_40 (m sf ef : Nat) (s e : List Byte) (hs : s.length = 32)
    (he : e.length ≤ 65535) :
    _int_no_get_2b (keychain_layout m sf ef s e) 40 = .ok e.length := by
  have h0 : rd (keychain_layout m sf ef s e) 40 = .ok (e.length / 256 % 256) :=
    rd_drop_ok (n := 39) (i := 1) (x := byte (e.length / 256))
      (by rw [keychain_layout_drop_39 m sf ef s e hs]; rfl)
  have h1 : rd (keychain_layout m sf ef s e) (40 + 1) = .ok (e.length % 256) :=
    rd_drop_ok (n := 39) (i := 2) (x := byte e.length)
      (by rw [keychain_layout_drop_39 m sf ef s e hs]; simp)
  simp only [_int_no_get_2b, h0, h1, bind, Except.bind, pure, Except.pure]
  congr 1
  omega

theorem keychain_layout_sign_bytes (m sf ef : Nat) (s e : List Byte) (hs : s.length = 32) :
    ((keychain_layout m sf ef s e).drop 7).take 32 = s := by
  simp [keychain_layout_cons, List.take_append_eq_append_take, hs]

theorem keychain_layout_enc_bytes (m sf ef : Nat) (s e : List Byte) (hs : s.length = 32) :
    ((keychain_layout m sf ef s e).drop 42).take e.length = e := by
  have h : (keychain_layout m sf ef s e).drop 42 = e := by
    have h3 := congrArg (List.drop 3) (keychain_layout_drop_39 m sf ef s e hs)
    simpa using h3
  rw [h, List.take_of_length_le (Nat.le_refl _)]

/-- The buffer of `keys_file_create` for a keychain kind, as a layout. -/
theorem keys_file_create_serial_keys_eq (t : keys_type_t) (s e : List Byte)
    (ht : t = .KEYS_TYPE_ORG ∨ t = .KEYS_TYPE_USER) (hs : s.length = 32) :
    keys_file_create_serial_keys t s e =
      .ok (keychain_layout (keys_magic t) (keys_sign_fid t) (keys_enc_fid t) s e,
        42 + e.length) := by
  rcases ht with rfl | rfl
  · exact congrArg Except.ok (keys_file_create_writes_eq DIME_ORG_KEYS KEYS_ORG_PRIVATE_POK
      KEYS_ORG_PRIVATE_ENC s e hs)
  · exact congrArg Except.ok (keys_file_create_writes_eq DIME_USER_KEYS KEYS_USER_PRIVATE_SIGN
      KEYS_USER_PRIVATE_ENC s e hs)

theorem keys_type_ne_error {t : keys_type_t} (ht : t = .KEYS_TYPE_ORG ∨ t = .KEYS_TYPE_USER) :
    t ≠ .KEYS_TYPE_ERROR := by
  rcases ht with rfl | rfl <;> decide

theorem keys_sign_fid_eq {t : keys_type_t} (ht : t = .KEYS_TYPE_ORG ∨ t = .KEYS_TYPE_USER) :
    keys_sign_fid t = 1 := by
  rcases ht with rfl | rfl <;> rfl

theorem keys_enc_fid_bounds {t : keys_type_t} (ht : t = .KEYS_TYPE_ORG ∨ t = .KEYS_TYPE_USER) :
    keys_enc_fid t ≠ 1 ∧ keys_enc_fid t < 256 := by
  rcases ht with rfl | rfl <;> decide

/-- The record search on the buffer of `keys_file_create`: the signing record is
skipped by its length byte and the encryption field id is found at offset 39. -/
theorem keychain_layout_loop (t : keys_type_t) (m : Nat) (s e : List Byte)
    (ht : t = .KEYS_TYPE_ORG ∨ t = .KEYS_TYPE_USER) (hs : s.length = 32) :
    keys_serial_get_enc_key_loop (keychain_layout m (keys_sign_fid t) (keys_enc_fid t) s e)
      (keychain_layout m (keys_sign_fid t) (keys_enc_fid t) s e).length (keys_enc_fid t)
      (keychain_layout m (keys_sign_fid t) (keys_enc_fid t) s e).length 5 = .ok 40 := by
  obtain ⟨hne, hlt⟩ := keys_enc_fid_bounds ht
  rw [keys_sign_fid_eq ht]
  have hlen := keychain_layout_length m 1 (keys_enc_fid t) s e hs
  have h5 := keychain_layout_rd_5 m 1 (keys_enc_fid t) s e
  have h6 := keychain_layout_rd_6 m 1 (keys_enc_fid t) s e
  have h39 := keychain_layout_rd_39 m 1 (keys_enc_fid t) s e hs
  rw [Nat.mod_eq_of_lt hlt] at h39
  generalize keychain_layout m 1 (keys_enc_fid t) s e = b at *
  have hfuel : b.length = (40 + e.length) + 1 + 1 := by omega
  conv => lhs; arg 4; rw [hfuel]
  rw [keys_serial_get_enc_key_loop_skip h5 (by simpa using hne.symm) h6 (by omega)]
  exact keys_serial_get_enc_key_loop_found h39

/-- The buffer of `keys_file_create` comes with its own length. -/
theorem keys_file_create_serial_keys_length (t : keys_type_t) (s e : List Byte)
    (ht : t = .KEYS_TYPE_ORG ∨ t = .KEYS_TYPE_USER) (hs : s.length = 32) :
    keys_file_create_serial_keys t s e =
      .ok (keychain_layout (keys_magic t) (keys_sign_fid t) (keys_enc_fid t) s e,
        (keychain_layout (keys_magic t) (keys_sign_fid t) (keys_enc_fid t) s e).length) := by
  rw [keychain_layout_length _ _ _ s e hs]
  exact keys_file_create_serial_keys_eq t s e ht hs

/-- The signing key is read back from the buffer of `keys_file_create`. -/
theorem keychain_layout_sign_key {K : Type} (deser : List Byte → Option K) (t : keys_type_t)
    (s e : List Byte) (ht : t = .KEYS_TYPE_ORG ∨ t = .KEYS_TYPE_USER) (hs : s.length = 32)
    (he : e.length ≤ 65535) :
    keys_serial_get_sign_key deser
      (some (keychain_layout (keys_magic t) (keys_sign_fid t) (keys_enc_fid t) s e))
      (keychain_layout (keys_magic t) (keys_sign_fid t) (keys_enc_fid t) s e).length
      = deserialized (deser s) := by
  have htype := keychain_layout_type_get t (keys_sign_fid t) (keys_enc_fid t) s e
    (keys_type_ne_error ht) hs he
  rw [keys_serial_get_sign_key_eq deser _ t htype]
  have hlen := keychain_layout_length (keys_magic t) (keys_sign_fid t) (keys_enc_fid t) s e hs
  have h5 : ((keychain_layout (keys_magic t) (keys_sign_fid t) (keys_enc_fid t) s e).getD 5 0).val
      = 1 := by
    rw [keys_sign_fid_eq ht]
    simp [keychain_layout_cons, byte]
  have h6 : ((keychain_layout (keys_magic t) (keys_sign_fid t) (keys_enc_fid t) s e).getD 6 0).val
      = 32 := by
    simp [keychain_layout_cons, byte]
    rfl
  rw [if_neg (by omega), if_neg (fun h => h h5), if_neg (fun h => h h6),
    keychain_layout_sign_bytes _ _ _ s e hs]

/-- The encryption key is read back from the buffer of `keys_file_create`. -/
theorem keychain_layout_enc_key {K : Type} (deser : List Byte → Option K) (t : keys_type_t)
    (s e : List Byte) (ht : t = .KEYS_TYPE_ORG ∨ t = .KEYS_TYPE_USER) (hs : s.length = 32)
    (he : e.length ≤ 65535) :
    keys_serial_get_enc_key deser
      (some (keychain_layout (keys_magic t) (keys_sign_fid t) (keys_enc_fid t) s e))
      (keychain_layout (keys_magic t) (keys_sign_fid t) (keys_enc_fid t) s e).length
      = deserialized (deser e) := by
  have htype := keychain_layout_type_get t (keys_sign_fid t) (keys_enc_fid t) s e
    (keys_type_ne_error ht) hs he
  rw [keys_serial_get_enc_key_eq deser _ t htype, keychain_layout_loop t _ s e ht hs]
  have hlen := keychain_layout_length (keys_magic t) (keys_sign_fid t) (keys_enc_fid t) s e hs
  have h2 := keychain_layout_get_2b_40 (keys_magic t) (keys_sign_fid t) (keys_enc_fid t) s e hs he
  have hb := keychain_layout_enc_bytes (keys_magic t) (keys_sign_fid t) (keys_enc_fid t) s e hs
  simp only [bind, Except.bind, h2]
  rw [if_neg (by omega), hb]

/-- The checks of `keys_serial_get_sign_key` on a length-consistent keychain buffer,
one by one. -/
theorem keys_serial_get_sign_key_cases {K : Type} (deser : List Byte → Option K)
    (b : List Byte) (t : keys_type_t) (ht : keys_type_get (some b) b.length = .ok t) :
    (b.length < 39 → ret_ptr (keys_serial_get_sign_key deser (some b) b.length) = some none) ∧
    (b[5]? ≠ some 1 → ret_ptr (keys_serial_get_sign_key deser (some b) b.length) = some none) ∧
    (b[6]? ≠ some 32 → ret_ptr (keys_serial_get_sign_key deser (some b) b.length) = some none) ∧
    (39 ≤ b.length → b[5]? = some 1 → b[6]? = some 32 →
      keys_serial_get_sign_key deser (some b) b.length
          = deserialized (deser ((b.drop 7).take 32)) ∧
        ((b.drop 7).take 32).length = 32 ∧
        ∀ i, i < 32 → ((b.drop 7).take 32)[i]? = b[7 + i]?) := by
  rw [keys_serial_get_sign_key_eq deser b t ht]
  have key : ∀ i, i < b.length → ∀ v : Byte, (b[i]? ≠ some v ↔ (b.getD i 0) ≠ v) := by
    intro i hi v
    simp [List.getD, List.getElem?_eq_getElem hi]
  by_cases hlen : b.length < 39
  · rw [if_pos hlen]
    exact ⟨fun _ => rfl, fun _ => rfl, fun _ => rfl, fun h => absurd hlen (by omega)⟩
  · rw [if_neg hlen]
    have h5 := key 5 (by omega) 1
    have h6 := key 6 (by omega) 32
    refine ⟨fun h => absurd h hlen, ?_, ?_, ?_⟩
    · intro h
      have h' : (b.getD 5 0).val ≠ 1 := fun hv => (h5.1 h) (Fin.ext hv)
      rw [if_pos h']
      rfl
    · intro h
      have h' : (b.getD 6 0).val ≠ 32 := fun hv => (h6.1 h) (Fin.ext hv)
      by_cases h5' : (b.getD 5 0).val ≠ 1
      · rw [if_pos h5']
        rfl
      · rw [if_neg h5', if_pos h']
        rfl
    · intro _ h5eq h6eq
      have h5' : (b.getD 5 0) = 1 := by
        by_contra hne
        exact (h5.2 hne) h5eq
      have h6' : (b.getD 6 0) = 32 := by
        by_contra hne
        exact (h6.2 hne) h6eq
      refine ⟨?_, ?_, ?_⟩
      · rw [if_neg (by rw [h5']; decide), if_neg (by rw [h6']; decide)]
      · simp
        omega
      · intro i hi
        rw [List.getElem?_take_of_lt hi, List.getElem?_drop]

/-! ## Lemmas on the effects of the file functions -/

/-- For a keychain kind the buffer of `keys_file_create` exists and comes with the
size computed in line 260. -/
theorem keys_file_create_serial_keys_size (type : keys_type_t) (private_key serial_enc : List Byte)
    (ht : type ≠ .KEYS_TYPE_ERROR) :
    ∃ serial_keys, keys_file_create_serial_keys type private_key serial_enc =
      .ok (serial_keys,
        KEYS_HEADER_SIZE + 1 + 1 + ED25519_KEY_SIZE + 1 + 2 + serial_enc.length) := by
  cases type with
  | KEYS_TYPE_ERROR => exact absurd rfl ht
  | KEYS_TYPE_ORG => exact ⟨_, rfl⟩
  | KEYS_TYPE_USER => exact ⟨_, rfl⟩

/-- The effects of `keys_file_create`, path by path. -/
theorem keys_file_create_trace_cases {EC_KEY : Type} (ext : Extern EC_KEY) (type : keys_type_t)
    (sign_key : Option (List Byte)) (enc_key : Option EC_KEY) (filename : Option (List Byte)) :
    (keys_file_create ext type sign_key enc_key filename).1 = [] ∨
    (keys_file_create ext type sign_key enc_key filename).1 =
      [.secret .serial_sign 32, .call .serialize_ec_privkey, .wipe .serial_sign 32] ∨
    (∃ n, (keys_file_create ext type sign_key enc_key filename).1 =
      [.secret .serial_sign 32, .call .serialize_ec_privkey, .secret .serial_enc n,
        .call .malloc, .wipe .serial_sign 32, .wipe .serial_enc n, .free .serial_enc]) ∨
    (∃ n m, (keys_file_create ext type sign_key enc_key filename).1 =
      [.secret .serial_sign 32, .call .serialize_ec_privkey, .secret .serial_enc n,
        .call .malloc, .secret .serial_keys m, .wipe .serial_sign 32, .wipe .serial_enc n,
        .free .serial_enc, .call .b64encode, .wipe .serial_keys m, .free .serial_keys]) ∨
    (∃ n m k, (keys_file_create ext type sign_key enc_key filename).1 =
      [.secret .serial_sign 32, .call .serialize_ec_privkey, .secret .serial_enc n,
        .call .malloc, .secret .serial_keys m, .wipe .serial_sign 32, .wipe .serial_enc n,
        .free .serial_enc, .call .b64encode, .secret .b64_keys k, .wipe .serial_keys m,
        .free .serial_keys, .call .write_pem_data, .wipe .b64_keys k, .free .b64_keys]) := by
  unfold keys_file_create
  cases sign_key with
  | none => exact Or.inl rfl
  | some private_key =>
    cases enc_key with
    | none => exact Or.inl rfl
    | some ek =>
      cases filename with
      | none => exact Or.inl rfl
      | some fname =>
        by_cases ht : type = .KEYS_TYPE_ERROR
        · exact Or.inl (by simp [ht])
        · cases hs : ext._serialize_ec_privkey ek with
          | none => exact Or.inr (Or.inl (by simp [ht, hs, ED25519_KEY_SIZE]))
          | some serial_enc =>
            obtain ⟨serial_keys, hk⟩ :=
              keys_file_create_serial_keys_size type private_key serial_enc ht
            simp only [ED25519_KEY_SIZE] at hk
            cases hm : ext.malloc (KEYS_HEADER_SIZE + 1 + 1 + 32 + 1 + 2 + serial_enc.length) with
            | false =>
              exact Or.inr (Or.inr (Or.inl ⟨serial_enc.length,
                by simp [ht, hs, hm, ED25519_KEY_SIZE]⟩))
            | true =>
              cases hb : ext._b64encode serial_keys
                  (KEYS_HEADER_SIZE + 1 + 1 + 32 + 1 + 2 + serial_enc.length) with
              | none =>
                exact Or.inr (Or.inr (Or.inr (Or.inl ⟨serial_enc.length,
                  KEYS_HEADER_SIZE + 1 + 1 + 32 + 1 + 2 + serial_enc.length,
                  by simp [ht, hs, hm, hk, hb, ED25519_KEY_SIZE]⟩)))
              | some b64_keys =>
                refine Or.inr (Or.inr (Or.inr (Or.inr ⟨serial_enc.length,
                  KEYS_HEADER_SIZE + 1 + 1 + 32 + 1 + 2 + serial_enc.length, b64_keys.length,
                  ?_⟩)))
                by_cases hw : ext._write_pem_data b64_keys fname < 0 <;>
                  simp [ht, hs, hm, hk, hb, hw, ED25519_KEY_SIZE]

/-- In every list of effects of `keys_file_create` every buffer is wiped before it
is released, and is wiped at the length at which it came to hold key material. -/
theorem keys_file_create_trace_wiped {EC_KEY : Type} (ext : Extern EC_KEY) (type : keys_type_t)
    (sign_key : Option (List Byte)) (enc_key : Option EC_KEY) (filename : Option (List Byte))
    (buf : Buf) :
    wiped_before_release buf (keys_file_create ext type sign_key enc_key filename).1 = true ∧
      ∀ n, Event.secret buf n ∈ (keys_file_create ext type sign_key enc_key filename).1 →
        Event.wipe buf n ∈ (keys_file_create ext type sign_key enc_key filename).1 := by
  rcases keys_file_create_trace_cases ext type sign_key enc_key filename with
    h | h | ⟨n, h⟩ | ⟨n, m, h⟩ | ⟨n, m, k, h⟩ <;>
    rw [h] <;> cases buf <;> simp [wiped_before_release, Held.step]

/-- The effects of `keys_file_serialize`, path by path. -/
theorem keys_file_serialize_cases {EC_KEY : Type} (ext : Extern EC_KEY)
    (filename : Option (List Byte)) (len : Option Unit) :
    (keys_file_serialize ext filename len = ([], .error (.err .ERR_BAD_PARAM))) ∨
    (keys_file_serialize ext filename len
      = ([.call .read_pem_data], .error (.err .ERR_UNSPEC))) ∨
    (∃ k, keys_file_serialize ext filename len
      = ([.call .read_pem_data, .secret .b64_keys k, .call .b64decode, .free .b64_keys],
        .error (.err .ERR_UNSPEC))) ∨
    (∃ k keys_bin, keys_file_serialize ext filename len
      = ([.call .read_pem_data, .secret .b64_keys k, .call .b64decode,
          .secret .keys_bin keys_bin.length, .free .b64_keys],
        .ok (keys_bin, keys_bin.length))) := by
  unfold keys_file_serialize
  cases filename with
  | none => exact Or.inl rfl
  | some fname =>
    cases len with
    | none => exact Or.inl rfl
    | some u =>
      cases hr : ext._read_pem_data fname with
      | none => exact Or.inr (Or.inl (by simp [hr]))
      | some b64_keys =>
        cases hd : ext._b64decode b64_keys b64_keys.length with
        | none => exact Or.inr (Or.inr (Or.inl ⟨b64_keys.length, by simp [hr, hd]⟩))
        | some keys_bin =>
          exact Or.inr (Or.inr (Or.inr ⟨b64_keys.length, keys_bin, by simp [hr, hd]⟩))

/-- The effects of `keys_fetch_sign_key` after a successful `keys_file_serialize`:
the decoded keychain is wiped over its length and freed, whatever the extraction of
the key gives. -/
theorem keys_fetch_sign_key_trace {EC_KEY K : Type} (ext : Extern EC_KEY)
    (deser : List Byte → Option K) (fname : List Byte) (tr : List Event) (keys_bin : List Byte)
    (keys_len : Nat) (hne : fname ≠ [])
    (hser : keys_file_serialize ext (some fname) (some ()) = (tr, .ok (keys_bin, keys_len))) :
    keys_fetch_sign_key ext deser (some fname) =
      (tr ++ [.wipe .keys_bin keys_len, .free .keys_bin],
        on_error .ERR_UNSPEC (keys_serial_get_sign_key deser (some keys_bin) keys_len)) := by
  have h0 : fname.length ≠ 0 := fun h => hne (List.length_eq_zero.mp h)
  simp [keys_fetch_sign_key, h0, hser]

/-- The effects of `keys_fetch_enc_key` after a successful `keys_file_serialize`. -/
theorem keys_fetch_enc_key_trace {EC_KEY : Type} (ext : Extern EC_KEY)
    (deser : List Byte → Option EC_KEY) (fname : List Byte) (tr : List Event)
    (keys_bin : List Byte) (keys_len : Nat) (hne : fname ≠ [])
    (hser : keys_file_serialize ext (some fname) (some ()) = (tr, .ok (keys_bin, keys_len))) :
    keys_fetch_enc_key ext deser (some fname) =
      (tr ++ [.wipe .keys_bin keys_len, .free .keys_bin],
        on_error .ERR_UNSPEC (keys_serial_get_enc_key deser (some keys_bin) keys_len)) := by
  have h0 : fname.length ≠ 0 := fun h => hne (List.length_eq_zero.mp h)
  simp [keys_fetch_enc_key, h0, hser]

/-- The effects of `keys_fetch_sign_key` when `keys_file_serialize` fails. -/
theorem keys_fetch_sign_key_trace_error {EC_KEY K : Type} (ext : Extern EC_KEY)
    (deser : List Byte → Option K) (fname : List Byte) (tr : List Event) (f : Failure)
    (hne : fname ≠ [])
    (hser : keys_file_serialize ext (some fname) (some ()) = (tr, .error f)) :
    keys_fetch_sign_key ext deser (some fname) = (tr, .error (.err .ERR_UNSPEC)) := by
  have h0 : fname.length ≠ 0 := fun h => hne (List.length_eq_zero.mp h)
  simp [keys_fetch_sign_key, h0, hser]

/-- The effects of `keys_fetch_enc_key` when `keys_file_serialize` fails. -/
theorem keys_fetch_enc_key_trace_error {EC_KEY : Type} (ext : Extern EC_KEY)
    (deser : List Byte → Option EC_KEY) (fname : List Byte) (tr : List Event) (f : Failure)
    (hne : fname ≠ [])
    (hser : keys_file_serialize ext (some fname) (some ()) = (tr, .error f)) :
    keys_fetch_enc_key ext deser (some fname) = (tr, .error (.err .ERR_UNSPEC)) := by
  have h0 : fname.length ≠ 0 := fun h => hne (List.length_eq_zero.mp h)
  simp [keys_fetch_enc_key, h0, hser]

/-- The file functions with a null or empty file name. -/
theorem keys_fetch_bad_filename {EC_KEY K : Type} (ext : Extern EC_KEY)
    (deser_sign : List Byte → Option K) (deser_enc : List Byte → Option EC_KEY)
    (filename : Option (List Byte)) (h : filename = none ∨ filename = some []) :
    keys_fetch_sign_key ext deser_sign filename = ([], .error (.err .ERR_BAD_PARAM)) ∧
      keys_fetch_enc_key ext deser_enc filename = ([], .error (.err .ERR_BAD_PARAM)) := by
  rcases h with rfl | rfl <;> exact ⟨rfl, rfl⟩

/-- The decoded keychain is wiped before it is freed in `keys_fetch_sign_key`. -/
theorem keys_fetch_sign_key_wiped {EC_KEY K : Type} (ext : Extern EC_KEY)
    (deser : List Byte → Option K) (filename : Option (List Byte)) :
    wiped_before_release .keys_bin (keys_fetch_sign_key ext deser filename).1 = true := by
  cases filename with
  | none => rfl
  | some fname =>
    by_cases hne : fname = []
    · subst hne
      rfl
    · rcases keys_file_serialize_cases ext (some fname) (some ()) with
        h | h | ⟨k, h⟩ | ⟨k, keys_bin, h⟩
      · rw [keys_fetch_sign_key_trace_error ext deser fname _ _ hne h]
        rfl
      · rw [keys_fetch_sign_key_trace_error ext deser fname _ _ hne h]
        rfl
      · rw [keys_fetch_sign_key_trace_error ext deser fname _ _ hne h]
        rfl
      · rw [keys_fetch_sign_key_trace ext deser fname _ _ _ hne h]
        simp [wiped_before_release, Held.step]

/-- The decoded keychain is wiped before it is freed in `keys_fetch_enc_key`. -/
theorem keys_fetch_enc_key_wiped {EC_KEY : Type} (ext : Extern EC_KEY)
    (deser : List Byte → Option EC_KEY) (filename : Option (List Byte)) :
    wiped_before_release .keys_bin (keys_fetch_enc_key ext deser filename).1 = true := by
  cases filename with
  | none => rfl
  | some fname =>
    by_cases hne : fname = []
    · subst hne
      rfl
    · rcases keys_file_serialize_cases ext (some fname) (some ()) with
        h | h | ⟨k, h⟩ | ⟨k, keys_bin, h⟩
      · rw [keys_fetch_enc_key_trace_error ext deser fname _ _ hne h]
        rfl
      · rw [keys_fetch_enc_key_trace_error ext deser fname _ _ hne h]
        rfl
      · rw [keys_fetch_enc_key_trace_error ext deser fname _ _ hne h]
        rfl
      · rw [keys_fetch_enc_key_trace ext deser fname _ _ _ hne h]
        simp [wiped_before_release, Held.step]

/-! ## Lemmas on `hash_fletcher32` -/

theorem and_ffff (x : Nat) : x &&& 0xffff = x % 65536 :=
  Nat.and_pow_two_sub_one_eq_mod x 16

theorem shr_16 (x : Nat) : x >>> 16 = x / 65536 :=
  Nat.shiftRight_eq_div_pow x 16

theorem shl_16_or (b a : Nat) (ha : a < 65536) : (b <<< 16) ||| a = b * 65536 + a := by
  have h := Nat.mul_add_lt_is_or (i := 16) ha b
  rw [Nat.shiftLeft_eq, Nat.mul_comm, ← h]

theorem rd16_cases (buf : List Word16) (i : Nat) :
    (∃ x : Word16, buf[i]? = some x ∧ i < buf.length ∧ rd16 buf i = .ok x.val) ∨
      (buf.length ≤ i ∧ rd16 buf i = .error (.oob i)) := by
  unfold rd16
  by_cases h : i < buf.length
  · exact Or.inl ⟨buf[i], List.getElem?_eq_getElem h, h, by rw [List.getElem?_eq_getElem h]⟩
  · exact Or.inr ⟨Nat.le_of_not_lt h, by rw [List.getElem?_eq_none (Nat.le_of_not_lt h)]⟩

/-- The inner loop with `uint32_t` arithmetic is the inner loop over the natural
numbers, as long as the accumulators at the start leave room for `count` words. -/
theorem hash_fletcher32_do_while_eq_nat (buf : List Word16) :
    ∀ (count pos a b peak : Nat), a + 65535 * count < 2 ^ 32 →
      2 * b + 2 * count * a + 65535 * count * (count + 1) < 2 ^ 33 →
      hash_fletcher32_do_while buf count pos a b =
        (hash_fletcher32_nat_do_while buf count pos a b peak).map
          (fun r => (r.1, r.2.1, r.2.2.1)) := by
  intro count
  induction count with
  | zero =>
    intro pos a b peak _ _
    rfl
  | succ n ih =>
    intro pos a b peak hA hB
    unfold hash_fletcher32_do_while hash_fletcher32_nat_do_while
    rcases rd16_cases buf pos with ⟨x, -, -, hx⟩ | ⟨-, hx⟩
    · have hw : x.val ≤ 65535 := by have := x.isLt; omega
      have hnw : n * x.val ≤ n * 65535 := Nat.mul_le_mul_left n hw
      have ha : (a + x.val) % 2 ^ 32 = a + x.val := Nat.mod_eq_of_lt (by omega)
      have hb : (b + (a + x.val)) % 2 ^ 32 = b + (a + x.val) :=
        Nat.mod_eq_of_lt (by nlinarith)
      simp only [hx, bind, Except.bind, ha, hb]
      exact ih (pos + 1) (a + x.val) (b + (a + x.val)) _ (by omega) (by nlinarith)
    · simp only [hx, bind, Except.bind]
      rfl

theorem word_sum_append (ws : List Word16) (w : Word16) :
    word_sum (ws ++ [w]) = word_sum ws + w.val := by
  simp [word_sum]

theorem prefix_sum_sum_append (ws : List Word16) (w : Word16) :
    prefix_sum_sum (ws ++ [w]) = prefix_sum_sum ws + word_sum (ws ++ [w]) := by
  unfold prefix_sum_sum
  rw [List.length_append, List.length_singleton, List.range_succ, List.map_append,
    List.sum_append]
  congr 1
  · congr 1
    apply List.map_congr_left
    intro k hk
    rw [List.mem_range] at hk
    rw [List.take_append_of_le_length (by omega)]
  · simp only [List.map_cons, List.map_nil, List.sum_cons, List.sum_nil, Nat.add_zero]
    rw [List.take_of_length_le (by simp)]

theorem take_succ_eq_append {buf : List Word16} {i : Nat} {x : Word16}
    (h : buf[i]? = some x) : buf.take (i + 1) = buf.take i ++ [x] := by
  rw [List.take_succ, h]
  rfl

/-- What the inner loop over the natural numbers gives: it stops after `count`
words, the accumulators grow, by no more than with words `0xffff`, and they keep
their relation to the sums of the words read so far. -/
theorem hash_fletcher32_nat_do_while_ok (buf : List Word16) :
    ∀ (count pos a b peak p' a' b' peak' : Nat),
      hash_fletcher32_nat_do_while buf count pos a b peak = .ok (p', a', b', peak') →
      p' = pos + count ∧
      a ≤ a' ∧ a' ≤ a + 65535 * count ∧ b ≤ b' ∧
      2 * b' ≤ 2 * b + 2 * count * a + 65535 * count * (count + 1) ∧
      peak' ≤ max peak (max a' b') ∧
      (pos ≤ buf.length → a ≡ word_sum (buf.take pos) [MOD 65535] →
        b ≡ prefix_sum_sum (buf.take pos) [MOD 65535] →
        p' ≤ buf.length ∧ a' ≡ word_sum (buf.take p') [MOD 65535] ∧
        b' ≡ prefix_sum_sum (buf.take p') [MOD 65535]) := by
  intro count
  induction count with
  | zero =>
    intro pos a b peak p' a' b' peak' h
    simp only [hash_fletcher32_nat_do_while, Except.ok.injEq, Prod.mk.injEq] at h
    obtain ⟨rfl, rfl, rfl, rfl⟩ := h
    refine ⟨rfl, Nat.le_refl _, by omega, Nat.le_refl _, by omega, by omega, ?_⟩
    intro hp ha hb
    exact ⟨hp, ha, hb⟩
  | succ n ih =>
    intro pos a b peak p' a' b' peak' h
    unfold hash_fletcher32_nat_do_while at h
    rcases rd16_cases buf pos with ⟨x, hget, hlt, hx⟩ | ⟨-, hx⟩
    · have hw : x.val ≤ 65535 := by have := x.isLt; omega
      have hnw : n * x.val ≤ n * 65535 := Nat.mul_le_mul_left n hw
      simp only [hx, bind, Except.bind] at h
      obtain ⟨h1, h2, h3, h4, h5, h6, h7⟩ := ih _ _ _ _ _ _ _ _ h
      refine ⟨by omega, by omega, by omega, by omega, by nlinarith, by omega, ?_⟩
      intro _ ha hb
      have ha' : a + x.val ≡ word_sum (buf.take (pos + 1)) [MOD 65535] := by
        rw [take_succ_eq_append hget, word_sum_append]
        exact ha.add_right _
      have hb' : b + (a + x.val) ≡ prefix_sum_sum (buf.take (pos + 1)) [MOD 65535] := by
        rw [take_succ_eq_append hget, prefix_sum_sum_append, ← take_succ_eq_append hget]
        exact hb.add ha'
      exact h7 (by omega) ha' hb'
    · simp only [hx, bind, Except.bind] at h
      cases h

/-- The inner loop reads no word outside a buffer that holds `count` more words. -/
theorem hash_fletcher32_nat_do_while_total (buf : List Word16) :
    ∀ (count pos a b peak : Nat), pos + count ≤ buf.length →
      ∃ r, hash_fletcher32_nat_do_while buf count pos a b peak = .ok r := by
  intro count
  induction count with
  | zero =>
    intro pos a b peak _
    exact ⟨_, rfl⟩
  | succ n ih =>
    intro pos a b peak h
    unfold hash_fletcher32_nat_do_while
    rcases rd16_cases buf pos with ⟨x, -, -, hx⟩ | ⟨hle, -⟩
    · simp only [hx, bind, Except.bind]
      exact ih _ _ _ _ (by omega)
    · omega

theorem fold_modEq (x : Nat) : x % 65536 + x / 65536 ≡ x [MOD 65535] := by
  unfold Nat.ModEq
  omega

theorem do_while_count_block (blocks : Nat) (h : blocks ≠ 0) :
    do_while_count (if blocks > 360 then 360 else blocks)
      = (if blocks > 360 then 360 else blocks) ∧
    (if blocks > 360 then 360 else blocks) ≤ 360 ∧
    (if blocks > 360 then 360 else blocks) ≤ blocks ∧
    0 < (if blocks > 360 then 360 else blocks) := by
  unfold do_while_count
  by_cases h360 : blocks > 360
  · simp [h360]
    omega
  · simp [h360]
    omega

/-- Room for a block: accumulators within the bounds that hold at the start of a
block do not reach `2 ^ 32` in `input <= 360` steps. -/
theorem block_room {input a b : Nat} (hin : input ≤ 360) (ha : a ≤ 65896) (hb : b ≤ 131070) :
    a + 65535 * input < 2 ^ 32 ∧
      2 * b + 2 * input * a + 65535 * input * (input + 1) < 2 ^ 33 := by
  have h1 : 2 * input * a ≤ 2 * 360 * 65896 :=
    Nat.mul_le_mul (Nat.mul_le_mul_left 2 hin) ha
  have h2 : 65535 * input * (input + 1) ≤ 65535 * 360 * 361 :=
    Nat.mul_le_mul (Nat.mul_le_mul_left 65535 hin) (by omega)
  constructor <;> omega

/-- What the outer loop over the natural numbers gives: the accumulators stay
within the bounds of a block start, no accumulator has exceeded `2 ^ 32 - 1`, and
the accumulators keep their relation to the sums of the words. -/
theorem hash_fletcher32_nat_while_ok (buf : List Word16) :
    ∀ (fuel blocks pos a b peak a' b' peak' : Nat), a ≤ 65896 → b ≤ 131070 →
      peak ≤ 2 ^ 32 - 1 →
      hash_fletcher32_nat_while buf fuel blocks pos a b peak = .ok (a', b', peak') →
      a' ≤ 65896 ∧ b' ≤ 131070 ∧ peak' ≤ 2 ^ 32 - 1 ∧
      (pos ≤ buf.length → a ≡ word_sum (buf.take pos) [MOD 65535] →
        b ≡ prefix_sum_sum (buf.take pos) [MOD 65535] →
        pos + blocks ≤ buf.length ∧
        a' ≡ word_sum (buf.take (pos + blocks)) [MOD 65535] ∧
        b' ≡ prefix_sum_sum (buf.take (pos + blocks)) [MOD 65535]) := by
  intro fuel
  induction fuel with
  | zero =>
    intro blocks pos a b peak a' b' peak' _ _ _ h
    simp [hash_fletcher32_nat_while] at h
  | succ n ih =>
    intro blocks pos a b peak a' b' peak' ha hb hpk h
    unfold hash_fletcher32_nat_while at h
    by_cases h0 : blocks = 0
    · simp only [h0, if_true, Except.ok.injEq, Prod.mk.injEq] at h
      obtain ⟨rfl, rfl, rfl⟩ := h
      subst h0
      exact ⟨ha, hb, hpk, fun hp hma hmb => ⟨hp, hma, hmb⟩⟩
    · obtain ⟨hcount, hin, hle, hpos⟩ := do_while_count_block blocks h0
      simp only [h0, if_false, hcount] at h
      generalize (if blocks > 360 then 360 else blocks) = input at h hin hle hpos
      cases hd : hash_fletcher32_nat_do_while buf input pos a b peak with
      | error f =>
        simp [hd, bind, Except.bind] at h
      | ok r =>
        obtain ⟨p1, a1, b1, pk1⟩ := r
        simp only [hd, bind, Except.bind, and_ffff, shr_16] at h
        obtain ⟨e1, e2, e3, e4, e5, e6, e7⟩ :=
          hash_fletcher32_nat_do_while_ok buf _ _ _ _ _ _ _ _ _ hd
        obtain ⟨r1, r2⟩ := block_room hin ha hb
        have ha1 : a1 ≤ 23658496 := by omega
        have hb1 : b1 ≤ 2 ^ 32 - 1 := by omega
        obtain ⟨i1, i2, i3, i4⟩ := ih _ _ _ _ _ _ _ _ (by omega) (by omega) (by omega) h
        refine ⟨i1, i2, i3, ?_⟩
        intro hp hma hmb
        obtain ⟨m1, m2, m3⟩ := e7 hp hma hmb
        obtain ⟨j1, j2, j3⟩ := i4 m1 ((fold_modEq a1).trans m2) ((fold_modEq b1).trans m3)
        have hsum : p1 + (blocks - input) = pos + blocks := by omega
        rw [hsum] at j1 j2 j3
        exact ⟨j1, j2, j3⟩

/-- The outer loop with `uint32_t` arithmetic is the outer loop over the natural
numbers, from accumulators within the bounds of a block start. -/
theorem hash_fletcher32_while_eq_nat (buf : List Word16) :
    ∀ (fuel blocks pos a b peak : Nat), a ≤ 65896 → b ≤ 131070 →
      hash_fletcher32_while buf fuel blocks pos a b =
        (hash_fletcher32_nat_while buf fuel blocks pos a b peak).map
          (fun r => (r.1, r.2.1)) := by
  intro fuel
  induction fuel with
  | zero =>
    intro blocks pos a b peak _ _
    rfl
  | succ n ih =>
    intro blocks pos a b peak ha hb
    unfold hash_fletcher32_while hash_fletcher32_nat_while
    by_cases h0 : blocks = 0
    · simp only [h0, if_true]
      rfl
    · obtain ⟨hcount, hin, hle, hpos⟩ := do_while_count_block blocks h0
      simp only [h0, if_false, hcount]
      generalize (if blocks > 360 then 360 else blocks) = input at hin hle hpos
      obtain ⟨r1, r2⟩ := block_room hin ha hb
      rw [hash_fletcher32_do_while_eq_nat buf input pos a b peak r1 r2]
      cases hd : hash_fletcher32_nat_do_while buf input pos a b peak with
      | error f => rfl
      | ok r =>
        obtain ⟨p1, a1, b1, pk1⟩ := r
        obtain ⟨e1, e2, e3, e4, e5, e6, e7⟩ :=
          hash_fletcher32_nat_do_while_ok buf _ _ _ _ _ _ _ _ _ hd
        have ha1 : a1 ≤ 23658496 := by omega
        have hb1 : b1 ≤ 2 ^ 32 - 1 := by omega
        have hfa : (a1 % 65536 + a1 / 65536) % 2 ^ 32 = a1 % 65536 + a1 / 65536 :=
          Nat.mod_eq_of_lt (by omega)
        have hfb : (b1 % 65536 + b1 / 65536) % 2 ^ 32 = b1 % 65536 + b1 / 65536 :=
          Nat.mod_eq_of_lt (by omega)
        simp only [Except.map, bind, Except.bind, and_ffff, shr_16, hfa, hfb]
        exact ih _ _ _ _ pk1 (by omega) (by omega)

/-- The outer loop over the natural numbers ends, without a read outside the
buffer, when the buffer holds `blocks` more words. -/
theorem hash_fletcher32_nat_while_total (buf : List Word16) :
    ∀ (fuel blocks pos a b peak : Nat), blocks < fuel → pos + blocks ≤ buf.length →
      ∃ r, hash_fletcher32_nat_while buf fuel blocks pos a b peak = .ok r := by
  intro fuel
  induction fuel with
  | zero =>
    intro blocks pos a b peak h _
    omega
  | succ n ih =>
    intro blocks pos a b peak hf hlen
    unfold hash_fletcher32_nat_while
    by_cases h0 : blocks = 0
    · simp only [h0, if_true]
      exact ⟨_, rfl⟩
    · obtain ⟨hcount, hin, hle, hpos⟩ := do_while_count_block blocks h0
      simp only [h0, if_false, hcount]
      generalize (if blocks > 360 then 360 else blocks) = input at hin hle hpos
      obtain ⟨r, hd⟩ := hash_fletcher32_nat_do_while_total buf input pos a b peak (by omega)
      obtain ⟨p1, a1, b1, pk1⟩ := r
      obtain ⟨e1, -⟩ := hash_fletcher32_nat_do_while_ok buf _ _ _ _ _ _ _ _ _ hd
      simp only [hd, bind, Except.bind]
      exact ih _ _ _ _ _ (by omega) (by omega)

/-- The function with `uint32_t` arithmetic is the function over the natural
numbers. -/
theorem hash_fletcher32_eq_nat (buf : List Word16) (length : Nat) :
    hash_fletcher32 buf length = (hash_fletcher32_nat buf length).map Prod.fst := by
  unfold hash_fletcher32 hash_fletcher32_nat
  dsimp only
  rw [hash_fletcher32_while_eq_nat buf _ _ 0 0xffff 0xffff 0xffff (by omega) (by omega)]
  cases hw : hash_fletcher32_nat_while buf (length / 2 + 1) (length / 2) 0 0xffff 0xffff
      0xffff with
  | error f => rfl
  | ok r =>
    obtain ⟨a, b, pk⟩ := r
    obtain ⟨ha, hb, -, -⟩ := hash_fletcher32_nat_while_ok buf _ _ _ _ _ _ _ _ _
      (by omega) (by omega) (by omega) hw
    have hfa : (a % 65536 + a / 65536) % 2 ^ 32 = a % 65536 + a / 65536 :=
      Nat.mod_eq_of_lt (by omega)
    have hfb : (b % 65536 + b / 65536) % 2 ^ 32 = b % 65536 + b / 65536 :=
      Nat.mod_eq_of_lt (by omega)
    have hb16 : b % 65536 + b / 65536 ≤ 65535 := by omega
    have hsh : ((b % 65536 + b / 65536) <<< 16) % 2 ^ 32 = (b % 65536 + b / 65536) <<< 16 := by
      rw [Nat.shiftLeft_eq]
      exact Nat.mod_eq_of_lt (by omega)
    simp only [Except.map, bind, Except.bind, pure, Except.pure, and_ffff, shr_16, hfa, hfb,
      hsh]

/-- The value and the largest accumulator of the function over the natural
numbers, for a buffer that holds the `length / 2` words. -/
theorem hash_fletcher32_nat_ok (buf : List Word16) (length : Nat)
    (hlen : length / 2 ≤ buf.length) :
    ∃ a b peak, hash_fletcher32_nat buf length = .ok (b * 65536 + a, peak) ∧
      a ≤ 65535 ∧ b ≤ 65535 ∧ peak ≤ 2 ^ 32 - 1 ∧
      a ≡ word_sum (buf.take (length / 2)) [MOD 65535] ∧
      b ≡ prefix_sum_sum (buf.take (length / 2)) [MOD 65535] := by
  obtain ⟨r, hw⟩ := hash_fletcher32_nat_while_total buf (length / 2 + 1) (length / 2) 0 0xffff
    0xffff 0xffff (by omega) (by omega)
  obtain ⟨a, b, pk⟩ := r
  obtain ⟨ha, hb, hpk, hm⟩ := hash_fletcher32_nat_while_ok buf _ _ _ _ _ _ _ _ _
    (by omega) (by omega) (by omega) hw
  have hS0 : (0xffff : Nat) ≡ word_sum (buf.take 0) [MOD 65535] := by
    simp [word_sum, Nat.ModEq]
  have hP0 : (0xffff : Nat) ≡ prefix_sum_sum (buf.take 0) [MOD 65535] := by
    simp [prefix_sum_sum, Nat.ModEq]
  obtain ⟨-, m2, m3⟩ := hm (Nat.zero_le _) hS0 hP0
  rw [Nat.zero_add] at m2 m3
  refine ⟨a % 65536 + a / 65536, b % 65536 + b / 65536, pk, ?_, by omega, by omega, hpk,
    (fold_modEq a).trans m2, (fold_modEq b).trans m3⟩
  unfold hash_fletcher32_nat
  simp only [hw, bind, Except.bind, pure, Except.pure, and_ffff, shr_16]
  rw [shl_16_or _ _ (by omega)]

theorem hash_fletcher32_nat_do_while_error (buf : List Word16) :
    ∀ (count pos a b peak : Nat) (f : Failure),
      hash_fletcher32_nat_do_while buf count pos a b peak = .error f → ∃ i, f = .oob i := by
  intro count
  induction count with
  | zero =>
    intro pos a b peak f h
    simp [hash_fletcher32_nat_do_while] at h
  | succ n ih =>
    intro pos a b peak f h
    unfold hash_fletcher32_nat_do_while at h
    rcases rd16_cases buf pos with ⟨x, -, -, hx⟩ | ⟨-, hx⟩
    · simp only [hx, bind, Except.bind] at h
      exact ih _ _ _ _ _ h
    · simp only [hx, bind, Except.bind, Except.error.injEq] at h
      exact ⟨pos, h.symm⟩

/-- The bound of the outer loop is never used up. -/
theorem hash_fletcher32_nat_while_ne_fuel (buf : List Word16) :
    ∀ (fuel blocks pos a b peak : Nat), blocks < fuel →
      hash_fletcher32_nat_while buf fuel blocks pos a b peak ≠ .error .fuel := by
  intro fuel
  induction fuel with
  | zero =>
    intro blocks pos a b peak h
    omega
  | succ n ih =>
    intro blocks pos a b peak hf
    unfold hash_fletcher32_nat_while
    by_cases h0 : blocks = 0
    · simp [h0]
    · obtain ⟨hcount, hin, hle, hpos⟩ := do_while_count_block blocks h0
      simp only [h0, if_false, hcount]
      generalize (if blocks > 360 then 360 else blocks) = input at hin hle hpos
      cases hd : hash_fletcher32_nat_do_while buf input pos a b peak with
      | error f =>
        obtain ⟨i, rfl⟩ := hash_fletcher32_nat_do_while_error buf _ _ _ _ _ _ hd
        simp [bind, Except.bind]
      | ok r =>
        obtain ⟨p1, a1, b1, pk1⟩ := r
        simp only [bind, Except.bind]
        exact ih _ _ _ _ _ (by omega)

/-- `hash_fletcher32` never ends in `Failure.fuel`. -/
theorem hash_fletcher32_ne_fuel (buf : List Word16) (length : Nat) :
    hash_fletcher32 buf length ≠ .error .fuel := by
  rw [hash_fletcher32_eq_nat]
  unfold hash_fletcher32_nat
  dsimp only
  have h := hash_fletcher32_nat_while_ne_fuel buf (length / 2 + 1) (length / 2) 0 0xffff 0xffff
    0xffff (by omega)
  cases hw : hash_fletcher32_nat_while buf (length / 2 + 1) (length / 2) 0 0xffff 0xffff
      0xffff with
  | error f =>
    rw [hw] at h
    simpa [Except.map, bind, Except.bind] using h
  | ok r =>
    simp [Except.map, bind, Except.bind, pure, Except.pure]

/-- No accumulator of the function over the natural numbers exceeds
`2 ^ 32 - 1`. -/
theorem hash_fletcher32_nat_peak (buf : List Word16) (length v peak : Nat)
    (h : hash_fletcher32_nat buf length = .ok (v, peak)) : peak ≤ 2 ^ 32 - 1 := by
  unfold hash_fletcher32_nat at h
  dsimp only at h
  cases hw : hash_fletcher32_nat_while buf (length / 2 + 1) (length / 2) 0 0xffff 0xffff
      0xffff with
  | error f =>
    simp [hw, bind, Except.bind] at h
  | ok r =>
    obtain ⟨a, b, pk⟩ := r
    obtain ⟨-, -, hpk, -⟩ := hash_fletcher32_nat_while_ok buf _ _ _ _ _ _ _ _ _
      (by omega) (by omega) (by omega) hw
    simp only [hw, bind, Except.bind, pure, Except.pure, Except.ok.injEq, Prod.mk.injEq] at h
    omega

/-! ## Lemmas on keychains with several records -/

theorem rd_append_length (pre rest : List Byte) (x : Byte) :
    rd (pre ++ x :: rest) pre.length = .ok x.val := by
  unfold rd
  rw [List.getElem?_append_right (Nat.le_refl _)]
  simp

/-- The record search skips records with other field ids by their length bytes
and stops after the encryption field id. -/
theorem keys_serial_get_enc_key_loop_records (enc_fid : Nat) (henc : enc_fid < 256)
    (rest : List Byte) :
    ∀ (rs : List (Byte × List Byte)) (pre : List Byte) (fuel : Nat),
      (∀ r ∈ rs, r.1.val ≠ enc_fid ∧ r.2.length ≤ 255) → rs.length < fuel →
      keys_serial_get_enc_key_loop (pre ++ records_bytes rs ++ byte enc_fid :: rest)
        (pre ++ records_bytes rs ++ byte enc_fid :: rest).length enc_fid fuel pre.length
        = .ok (pre.length + (records_bytes rs).length + 1) := by
  intro rs
  induction rs with
  | nil =>
    intro pre fuel _ hf
    obtain ⟨n, rfl⟩ : ∃ n, fuel = n + 1 := ⟨fuel - 1, by simp at hf; omega⟩
    simp only [records_bytes, List.append_nil, List.length_nil, Nat.add_zero]
    apply keys_serial_get_enc_key_loop_found
    rw [rd_append_length]
    simp [byte, Nat.mod_eq_of_lt henc]
  | cons r rs ih =>
    intro pre fuel hrs hf
    obtain ⟨n, rfl⟩ : ∃ n, fuel = n + 1 := ⟨fuel - 1, by simp at hf; omega⟩
    obtain ⟨hfid, hlen⟩ := hrs r (List.mem_cons_self _ _)
    have hb : pre ++ records_bytes (r :: rs) ++ byte enc_fid :: rest
        = (pre ++ record_bytes r) ++ records_bytes rs ++ byte enc_fid :: rest := by
      simp [records_bytes, List.append_assoc]
    have h1 : rd (pre ++ records_bytes (r :: rs) ++ byte enc_fid :: rest) pre.length
        = .ok r.1.val := by
      have : pre ++ records_bytes (r :: rs) ++ byte enc_fid :: rest
          = pre ++ r.1 :: (byte r.2.length :: r.2 ++ records_bytes rs ++ byte enc_fid :: rest) := by
        simp [records_bytes, record_bytes, List.append_assoc]
      rw [this, rd_append_length]
    have h2 : rd (pre ++ records_bytes (r :: rs) ++ byte enc_fid :: rest) (pre.length + 1)
        = .ok r.2.length := by
      have : pre ++ records_bytes (r :: rs) ++ byte enc_fid :: rest
          = (pre ++ [r.1]) ++ byte r.2.length :: (r.2 ++ records_bytes rs ++ byte enc_fid :: rest) := by
        simp [records_bytes, record_bytes, List.append_assoc]
      have hl : pre.length + 1 = (pre ++ [r.1]).length := by simp
      rw [this, hl, rd_append_length]
      simp [byte]
      omega
    have hpos : pre.length + 1 + (r.2.length + 1) = (pre ++ record_bytes r).length := by
      simp [record_bytes]
      omega
    rw [keys_serial_get_enc_key_loop_skip h1 hfid h2 (by simp [records_bytes, record_bytes]; omega),
      hpos, hb, ih (pre ++ record_bytes r) n (fun r' hr' => hrs r' (List.mem_cons_of_mem _ hr'))
        (by simp at hf; omega)]
    simp [records_bytes, record_bytes]
    omega

theorem records_bytes_length (rs : List (Byte × List Byte)) :
    rs.length ≤ (records_bytes rs).length := by
  induction rs with
  | nil => simp [records_bytes]
  | cons r rs ih =>
    simp [records_bytes, record_bytes]
    omega

/-- On the buffer `header || r_1 .. r_k || enc_fid || u2be(L) || d[L] || tail` the
record search ends after the encryption field id, and the function returns what
the deserializer gives on `d`. -/
theorem keys_serial_get_enc_key_with_records {K : Type} (deser : List Byte → Option K)
    (t : keys_type_t) (header : List Byte) (rs : List (Byte × List Byte)) (d tail : List Byte)
    (hh : header.length = 5)
    (ht : keys_type_get (some (keychain_with_records header rs (keys_enc_fid t) d tail))
      (keychain_with_records header rs (keys_enc_fid t) d tail).length = .ok t)
    (hrs : ∀ r ∈ rs, r.1.val ≠ keys_enc_fid t ∧ r.2.length ≤ 255)
    (hd : d.length ≤ 65535) :
    keys_serial_get_enc_key_loop (keychain_with_records header rs (keys_enc_fid t) d tail)
        (keychain_with_records header rs (keys_enc_fid t) d tail).length (keys_enc_fid t)
        (keychain_with_records header rs (keys_enc_fid t) d tail).length 5
        = .ok (5 + (records_bytes rs).length + 1) ∧
      keys_serial_get_enc_key deser
        (some (keychain_with_records header rs (keys_enc_fid t) d tail))
        (keychain_with_records header rs (keys_enc_fid t) d tail).length
        = deserialized (deser d) := by
  obtain ⟨-, hne, -⟩ := keys_type_get_ok_magic ht
  have hkind : t = .KEYS_TYPE_ORG ∨ t = .KEYS_TYPE_USER := by
    cases t with
    | KEYS_TYPE_ERROR => exact absurd rfl hne
    | KEYS_TYPE_ORG => exact Or.inl rfl
    | KEYS_TYPE_USER => exact Or.inr rfl
  obtain ⟨-, hlt⟩ := keys_enc_fid_bounds hkind
  rw [keys_serial_get_enc_key_eq deser _ t ht]
  generalize keys_enc_fid t = fid at *
  have hform : keychain_with_records header rs fid d tail
      = header ++ records_bytes rs ++ byte fid :: (u2be d.length ++ d ++ tail) := by
    simp [keychain_with_records, List.append_assoc]
  have hrl := records_bytes_length rs
  have hlen : (keychain_with_records header rs fid d tail).length
      = 5 + (records_bytes rs).length + 1 + 2 + d.length + tail.length := by
    simp [keychain_with_records, u2be, hh]
    omega
  have hloop : keys_serial_get_enc_key_loop (keychain_with_records header rs fid d tail)
      (keychain_with_records header rs fid d tail).length fid
      (keychain_with_records header rs fid d tail).length 5
      = .ok (5 + (records_bytes rs).length + 1) := by
    have h := keys_serial_get_enc_key_loop_records fid hlt (u2be d.length ++ d ++ tail) rs header
      (keychain_with_records header rs fid d tail).length hrs (by omega)
    rw [← hform, hh] at h
    exact h
  refine ⟨hloop, ?_⟩
  rw [hloop]
  have hform2 : keychain_with_records header rs fid d tail
      = (header ++ records_bytes rs ++ [byte fid]) ++ byte (d.length / 256)
          :: (byte d.length :: (d ++ tail)) := by
    simp [keychain_with_records, u2be, List.append_assoc]
  have hform3 : keychain_with_records header rs fid d tail
      = (header ++ records_bytes rs ++ [byte fid, byte (d.length / 256)]) ++ byte d.length
          :: (d ++ tail) := by
    simp [keychain_with_records, u2be, List.append_assoc]
  have hform4 : keychain_with_records header rs fid d tail
      = (header ++ records_bytes rs ++ [byte fid, byte (d.length / 256), byte d.length])
          ++ (d ++ tail) := by
    simp [keychain_with_records, u2be, List.append_assoc]
  have hp0 : 5 + (records_bytes rs).length + 1
      = (header ++ records_bytes rs ++ [byte fid]).length := by
    simp [hh]
    omega
  have hp1 : 5 + (records_bytes rs).length + 1 + 1
      = (header ++ records_bytes rs ++ [byte fid, byte (d.length / 256)]).length := by
    simp [hh]
    omega
  have hp2 : 5 + (records_bytes rs).length + 1 + 2
      = (header ++ records_bytes rs ++ [byte fid, byte (d.length / 256), byte d.length]).length := by
    simp [hh]
    omega
  have r0 : rd (keychain_with_records header rs fid d tail) (5 + (records_bytes rs).length + 1)
      = .ok (d.length / 256 % 256) := by
    rw [hp0]
    conv => lhs; arg 1; rw [hform2]
    rw [rd_append_length]
    rfl
  have r1 : rd (keychain_with_records header rs fid d tail)
      (5 + (records_bytes rs).length + 1 + 1) = .ok (d.length % 256) := by
    rw [hp1]
    conv => lhs; arg 1; rw [hform3]
    rw [rd_append_length]
    rfl
  have h2 : _int_no_get_2b (keychain_with_records header rs fid d tail)
      (5 + (records_bytes rs).length + 1) = .ok d.length := by
    simp only [_int_no_get_2b, r0, r1, bind, Except.bind, pure, Except.pure]
    congr 1
    omega
  have hdrop : ((keychain_with_records header rs fid d tail).drop
      (5 + (records_bytes rs).length + 1 + 2)).take d.length = d := by
    rw [hp2]
    conv => lhs; arg 2; arg 2; rw [hform4]
    rw [List.drop_left, List.take_left]
  simp only [bind, Except.bind, h2]
  rw [if_neg (by omega), hdrop]

/-! ## Lemmas on keychains with a long encryption key -/

theorem keychain_layout_header_length_lt (m sf ef : Nat) (s e : List Byte)
    (he : 37 + e.length < 16777216) :
    header_length (keychain_layout m sf ef s e) = 37 + e.length := by
  simp [keychain_layout_cons, header_length, byte]
  omega

theorem keychain_layout_type_get_lt (t : keys_type_t) (sf ef : Nat) (s e : List Byte)
    (ht : t ≠ .KEYS_TYPE_ERROR) (hs : s.length = 32) (he : 37 + e.length < 16777216) :
    keys_type_get (some (keychain_layout (keys_magic t) sf ef s e))
      (keychain_layout (keys_magic t) sf ef s e).length = .ok t := by
  have hc : keys_check_length (some (keychain_layout (keys_magic t) sf ef s e))
      (keychain_layout (keys_magic t) sf ef s e).length = .ok () := by
    rw [keys_check_length_ok_iff, keychain_layout_header_length_lt _ sf ef s e he,
      keychain_layout_length _ sf ef s e hs]
    omega
  rw [keys_type_get_eq, if_pos hc]
  cases t with
  | KEYS_TYPE_ERROR => exact absurd rfl ht
  | KEYS_TYPE_ORG =>
    rw [keychain_layout_header_magic _ sf ef s e (by decide)]
    rfl
  | KEYS_TYPE_USER =>
    rw [keychain_layout_header_magic _ sf ef s e (by decide)]
    rfl

theorem keychain_layout_get_2b_40_mod (m sf ef : Nat) (s e : List Byte) (hs : s.length = 32) :
    _int_no_get_2b (keychain_layout m sf ef s e) 40 = .ok (e.length % 65536) := by
  have h0 : rd (keychain_layout m sf ef s e) 40 = .ok (e.length / 256 % 256) :=
    rd_drop_ok (n := 39) (i := 1) (x := byte (e.length / 256))
      (by rw [keychain_layout_drop_39 m sf ef s e hs]; rfl)
  have h1 : rd (keychain_layout m sf ef s e) (40 + 1) = .ok (e.length % 256) :=
    rd_drop_ok (n := 39) (i := 2) (x := byte e.length)
      (by rw [keychain_layout_drop_39 m sf ef s e hs]; simp)
  simp only [_int_no_get_2b, h0, h1, bind, Except.bind, pure, Except.pure]
  congr 1
  omega

theorem keychain_layout_drop_42 (m sf ef : Nat) (s e : List Byte) (hs : s.length = 32) :
    (keychain_layout m sf ef s e).drop 42 = e := by
  have h3 := congrArg (List.drop 3) (keychain_layout_drop_39 m sf ef s e hs)
  simpa using h3

/-- On the buffer of `keys_file_create` whose 3-byte header length holds, the
deserializer is given the first `|e| mod 65536` bytes of `e`. -/
theorem keychain_layout_enc_key_mod {K : Type} (deser : List Byte → Option K) (t : keys_type_t)
    (s e : List Byte) (ht : t = .KEYS_TYPE_ORG ∨ t = .KEYS_TYPE_USER) (hs : s.length = 32)
    (he : 37 + e.length < 16777216) :
    keys_serial_get_enc_key deser
      (some (keychain_layout (keys_magic t) (keys_sign_fid t) (keys_enc_fid t) s e))
      (keychain_layout (keys_magic t) (keys_sign_fid t) (keys_enc_fid t) s e).length
      = deserialized (deser (e.take (e.length % 65536))) := by
  have htype := keychain_layout_type_get_lt t (keys_sign_fid t) (keys_enc_fid t) s e
    (keys_type_ne_error ht) hs he
  rw [keys_serial_get_enc_key_eq deser _ t htype, keychain_layout_loop t _ s e ht hs]
  have hlen := keychain_layout_length (keys_magic t) (keys_sign_fid t) (keys_enc_fid t) s e hs
  have h2 := keychain_layout_get_2b_40_mod (keys_magic t) (keys_sign_fid t) (keys_enc_fid t) s e hs
  have hb := keychain_layout_drop_42 (keys_magic t) (keys_sign_fid t) (keys_enc_fid t) s e hs
  have hmod : e.length % 65536 ≤ e.length := Nat.mod_le _ _
  simp only [bind, Except.bind, h2]
  rw [if_neg (by omega), hb]

theorem header_length_lt (b : List Byte) : header_length b < 16777216 := by
  unfold header_length
  have h2 := (b.getD 2 0).isLt
  have h3 := (b.getD 3 0).isLt
  have h4 := (b.getD 4 0).isLt
  omega

/-- A buffer that is longer than a 3-byte header length can state is rejected. -/
theorem keys_serial_get_enc_key_too_long {K : Type} (deser : List Byte → Option K)
    (b : List Byte) (h : 16777221 ≤ b.length) :
    keys_serial_get_enc_key deser (some b) b.length = .error (.err .ERR_BAD_PARAM) := by
  have hl := header_length_lt b
  have hc : keys_check_length (some b) b.length = .error (.err .ERR_UNSPEC) := by
    rw [keys_check_length_eq, if_neg (by omega), if_pos (by omega)]
  simp [keys_serial_get_enc_key, hc, on_error, bind, Except.bind]

theorem take_ne_self_of_lt {e : List Byte} {n : Nat} (h : n < e.length) : e.take n ≠ e := by
  intro heq
  have := congrArg List.length heq
  simp at this
  omega

/-! ## Termination of the record search -/

/-- One iteration of the record search, whatever the bound: it finds the encryption
field id, or it fails, or it goes on at least two bytes further and inside `len`. -/
theorem keys_serial_get_enc_key_loop_step (b : List Byte) (len enc_fid p : Nat) :
    (∀ n, keys_serial_get_enc_key_loop b len enc_fid (n + 1) p = .ok (p + 1)) ∨
      (∀ n, keys_serial_get_enc_key_loop b len enc_fid (n + 1) p = .error (.oob p)) ∨
      (∀ n, keys_serial_get_enc_key_loop b len enc_fid (n + 1) p = .error (.oob (p + 1))) ∨
      (∀ n, keys_serial_get_enc_key_loop b len enc_fid (n + 1) p
        = .error (.err .ERR_UNSPEC)) ∨
      ∃ p', p + 2 ≤ p' ∧ p' < len ∧
        ∀ n, keys_serial_get_enc_key_loop b len enc_fid (n + 1) p
          = keys_serial_get_enc_key_loop b len enc_fid n p' := by
  by_cases hp : p < b.length
  · obtain ⟨fid, h1⟩ : ∃ fid, rd b p = .ok fid := ⟨_, rd_eq_ok hp⟩
    by_cases hf : fid = enc_fid
    · exact Or.inl (fun n => keys_serial_get_enc_key_loop_found (hf ▸ h1))
    · by_cases hp1 : p + 1 < b.length
      · obtain ⟨skip, h2⟩ : ∃ skip, rd b (p + 1) = .ok skip := ⟨_, rd_eq_ok hp1⟩
        by_cases hl : len ≤ p + 1 + (skip + 1)
        · refine Or.inr (Or.inr (Or.inr (Or.inl ?_)))
          intro n
          simp [keys_serial_get_enc_key_loop, h1, h2, hf, hl, bind, Except.bind]
        · refine Or.inr (Or.inr (Or.inr (Or.inr ⟨p + 1 + (skip + 1), by omega, by omega, ?_⟩)))
          intro n
          exact keys_serial_get_enc_key_loop_skip h1 hf h2 (by omega)
      · refine Or.inr (Or.inr (Or.inl ?_))
        intro n
        simp [keys_serial_get_enc_key_loop, h1, rd_eq_oob (Nat.le_of_not_lt hp1), hf, bind,
          Except.bind]
  · refine Or.inr (Or.inl ?_)
    intro n
    simp [keys_serial_get_enc_key_loop, rd_eq_oob (Nat.le_of_not_lt hp), bind, Except.bind]

/-- The record search does not use up a bound of `fuel` loop tests when fewer
than `2 * fuel` bytes are left. -/
theorem keys_serial_get_enc_key_loop_fuel_half (b : List Byte) (len enc_fid : Nat) :
    ∀ (fuel p : Nat), 0 < fuel → len < p + 2 * fuel →
      keys_serial_get_enc_key_loop b len enc_fid fuel p ≠ .error .fuel := by
  intro fuel
  induction fuel with
  | zero => intro p h; omega
  | succ n ih =>
    intro p _ hlen
    rcases keys_serial_get_enc_key_loop_step b len enc_fid p with
      h | h | h | h | ⟨p', h1, h2, h3⟩
    · rw [h n]; simp
    · rw [h n]; simp
    · rw [h n]; simp
    · rw [h n]; simp
    · rw [h3 n]
      exact ih p' (by omega) (by omega)

/-- A larger bound does not change the result of a record search that does not use
up its bound. -/
theorem keys_serial_get_enc_key_loop_mono (b : List Byte) (len enc_fid : Nat) :
    ∀ (fuel p k : Nat), keys_serial_get_enc_key_loop b len enc_fid fuel p ≠ .error .fuel →
      keys_serial_get_enc_key_loop b len enc_fid (fuel + k) p
        = keys_serial_get_enc_key_loop b len enc_fid fuel p := by
  intro fuel
  induction fuel with
  | zero =>
    intro p k h
    exact absurd rfl h
  | succ n ih =>
    intro p k h
    have hk : n + 1 + k = (n + k) + 1 := by omega
    rw [hk]
    rcases keys_serial_get_enc_key_loop_step b len enc_fid p with
      h1 | h1 | h1 | h1 | ⟨p', -, -, h3⟩
    · rw [h1 n, h1 (n + k)]
    · rw [h1 n, h1 (n + k)]
    · rw [h1 n, h1 (n + k)]
    · rw [h1 n, h1 (n + k)]
    · rw [h3 n] at h ⊢
      rw [h3 (n + k)]
      exact ih p' k h

/-! ## Further lemmas on `hash_fletcher32` -/

/-- The accumulators of the outer loop over the natural numbers stay positive. -/
theorem hash_fletcher32_nat_while_pos (buf : List Word16) :
    ∀ (fuel blocks pos a b peak a' b' peak' : Nat), 1 ≤ a → 1 ≤ b →
      hash_fletcher32_nat_while buf fuel blocks pos a b peak = .ok (a', b', peak') →
      1 ≤ a' ∧ 1 ≤ b' := by
  intro fuel
  induction fuel with
  | zero =>
    intro blocks pos a b peak a' b' peak' _ _ h
    simp [hash_fletcher32_nat_while] at h
  | succ n ih =>
    intro blocks pos a b peak a' b' peak' ha hb h
    unfold hash_fletcher32_nat_while at h
    by_cases h0 : blocks = 0
    · simp only [h0, if_true, Except.ok.injEq, Prod.mk.injEq] at h
      obtain ⟨rfl, rfl, rfl⟩ := h
      exact ⟨ha, hb⟩
    · obtain ⟨hcount, hin, hle, hpos⟩ := do_while_count_block blocks h0
      simp only [h0, if_false, hcount] at h
      generalize (if blocks > 360 then 360 else blocks) = input at h hin hle hpos
      cases hd : hash_fletcher32_nat_do_while buf input pos a b peak with
      | error f =>
        simp [hd, bind, Except.bind] at h
      | ok r =>
        obtain ⟨p1, a1, b1, pk1⟩ := r
        simp only [hd, bind, Except.bind, and_ffff, shr_16] at h
        obtain ⟨-, e2, -, e4, -⟩ :=
          hash_fletcher32_nat_do_while_ok buf _ _ _ _ _ _ _ _ _ hd
        exact ih _ _ _ _ _ _ _ _ (by omega) (by omega) h

/-- The value of the function over the natural numbers, for a buffer that holds the
`length / 2` words: both halves lie in `1..0xFFFF` and are congruent to the sums. -/
theorem hash_fletcher32_nat_ok_pos (buf : List Word16) (length : Nat)
    (hlen : length / 2 ≤ buf.length) :
    ∃ a b peak, hash_fletcher32_nat buf length = .ok (b * 65536 + a, peak) ∧
      1 ≤ a ∧ a ≤ 65535 ∧ 1 ≤ b ∧ b ≤ 65535 ∧
      a ≡ word_sum (buf.take (length / 2)) [MOD 65535] ∧
      b ≡ prefix_sum_sum (buf.take (length / 2)) [MOD 65535] := by
  obtain ⟨r, hw⟩ := hash_fletcher32_nat_while_total buf (length / 2 + 1) (length / 2) 0 0xffff
    0xffff 0xffff (by omega) (by omega)
  obtain ⟨a, b, pk⟩ := r
  obtain ⟨ha, hb, hpk, hm⟩ := hash_fletcher32_nat_while_ok buf _ _ _ _ _ _ _ _ _
    (by omega) (by omega) (by omega) hw
  obtain ⟨ha1, hb1⟩ := hash_fletcher32_nat_while_pos buf _ _ _ _ _ _ _ _ _
    (by omega) (by omega) hw
  have hS0 : (0xffff : Nat) ≡ word_sum (buf.take 0) [MOD 65535] := by
    simp [word_sum, Nat.ModEq]
  have hP0 : (0xffff : Nat) ≡ prefix_sum_sum (buf.take 0) [MOD 65535] := by
    simp [prefix_sum_sum, Nat.ModEq]
  obtain ⟨-, m2, m3⟩ := hm (Nat.zero_le _) hS0 hP0
  rw [Nat.zero_add] at m2 m3
  refine ⟨a % 65536 + a / 65536, b % 65536 + b / 65536, pk, ?_, by omega, by omega, by omega,
    by omega, (fold_modEq a).trans m2, (fold_modEq b).trans m3⟩
  unfold hash_fletcher32_nat
  simp only [hw, bind, Except.bind, pure, Except.pure, and_ffff, shr_16]
  rw [shl_16_or _ _ (by omega)]

theorem rd16_take (buf : List Word16) (m i : Nat) (h : i < m) :
    rd16 (buf.take m) i = rd16 buf i := by
  unfold rd16
  rw [List.getElem?_take_of_lt h]

theorem rd16_oob (buf : List Word16) : rd16 buf buf.length = .error (.oob buf.length) := by
  unfold rd16
  rw [List.getElem?_eq_none (Nat.le_refl _)]

/-- The inner loop stops `count` words further. -/
theorem hash_fletcher32_do_while_pos (buf : List Word16) :
    ∀ (count pos a b p' a' b' : Nat),
      hash_fletcher32_do_while buf count pos a b = .ok (p', a', b') → p' = pos + count := by
  intro count
  induction count with
  | zero =>
    intro pos a b p' a' b' h
    simp only [hash_fletcher32_do_while, Except.ok.injEq, Prod.mk.injEq] at h
    omega
  | succ n ih =>
    intro pos a b p' a' b' h
    unfold hash_fletcher32_do_while at h
    rcases rd16_cases buf pos with ⟨x, -, -, hx⟩ | ⟨-, hx⟩
    · simp only [hx, bind, Except.bind] at h
      have := ih _ _ _ _ _ _ h
      omega
    · simp [hx, bind, Except.bind] at h

/-- The inner loop reads the words `pos .. pos + count - 1` only. -/
theorem hash_fletcher32_do_while_take (buf : List Word16) (m : Nat) :
    ∀ (count pos a b : Nat), pos + count ≤ m →
      hash_fletcher32_do_while (buf.take m) count pos a b
        = hash_fletcher32_do_while buf count pos a b := by
  intro count
  induction count with
  | zero =>
    intro pos a b _
    rfl
  | succ n ih =>
    intro pos a b h
    unfold hash_fletcher32_do_while
    rw [rd16_take buf m pos (by omega)]
    rcases rd16_cases buf pos with ⟨x, -, -, hx⟩ | ⟨-, hx⟩
    · simp only [hx, bind, Except.bind]
      exact ih _ _ _ (by omega)
    · simp only [hx, bind, Except.bind]

/-- The inner loop reads the word after the end of a buffer that holds fewer than
`count` more words. -/
theorem hash_fletcher32_do_while_short (buf : List Word16) :
    ∀ (count pos a b : Nat), pos ≤ buf.length → buf.length < pos + count →
      hash_fletcher32_do_while buf count pos a b = .error (.oob buf.length) := by
  intro count
  induction count with
  | zero =>
    intro pos a b h1 h2
    omega
  | succ n ih =>
    intro pos a b h1 h2
    unfold hash_fletcher32_do_while
    rcases rd16_cases buf pos with ⟨x, -, hlt, hx⟩ | ⟨hle, hx⟩
    · simp only [hx, bind, Except.bind]
      exact ih _ _ _ (by omega) (by omega)
    · have hp : pos = buf.length := by omega
      rw [hp] at hx
      simp only [hp, hx, bind, Except.bind]

theorem hash_fletcher32_do_while_total (buf : List Word16) :
    ∀ (count pos a b : Nat), pos + count ≤ buf.length →
      ∃ r, hash_fletcher32_do_while buf count pos a b = .ok r := by
  intro count
  induction count with
  | zero =>
    intro pos a b _
    exact ⟨_, rfl⟩
  | succ n ih =>
    intro pos a b h
    unfold hash_fletcher32_do_while
    rcases rd16_cases buf pos with ⟨x, -, -, hx⟩ | ⟨hle, -⟩
    · simp only [hx, bind, Except.bind]
      exact ih _ _ _ (by omega)
    · omega

/-- The outer loop reads the words `pos .. pos + blocks - 1` only. -/
theorem hash_fletcher32_while_take (buf : List Word16) (m : Nat) :
    ∀ (fuel blocks pos a b : Nat), pos + blocks ≤ m →
      hash_fletcher32_while (buf.take m) fuel blocks pos a b
        = hash_fletcher32_while buf fuel blocks pos a b := by
  intro fuel
  induction fuel with
  | zero =>
    intro blocks pos a b _
    rfl
  | succ n ih =>
    intro blocks pos a b h
    unfold hash_fletcher32_while
    by_cases h0 : blocks = 0
    · simp only [h0, if_true]
    · obtain ⟨hcount, hin, hle, hpos⟩ := do_while_count_block blocks h0
      simp only [h0, if_false, hcount]
      generalize (if blocks > 360 then 360 else blocks) = input at hin hle hpos
      rw [hash_fletcher32_do_while_take buf m input pos a b (by omega)]
      cases hd : hash_fletcher32_do_while buf input pos a b with
      | error f => rfl
      | ok r =>
        obtain ⟨p1, a1, b1⟩ := r
        have hp := hash_fletcher32_do_while_pos buf _ _ _ _ _ _ _ hd
        simp only [bind, Except.bind]
        exact ih _ _ _ _ (by omega)

/-- The outer loop reads the word after the end of a buffer that holds fewer than
`blocks` more words. -/
theorem hash_fletcher32_while_short (buf : List Word16) :
    ∀ (fuel blocks pos a b : Nat), blocks < fuel → pos ≤ buf.length →
      buf.length < pos + blocks →
      hash_fletcher32_while buf fuel blocks pos a b = .error (.oob buf.length) := by
  intro fuel
  induction fuel with
  | zero =>
    intro blocks pos a b h
    omega
  | succ n ih =>
    intro blocks pos a b hf h1 h2
    unfold hash_fletcher32_while
    have h0 : blocks ≠ 0 := by omega
    obtain ⟨hcount, hin, hle, hpos⟩ := do_while_count_block blocks h0
    simp only [h0, if_false, hcount]
    generalize (if blocks > 360 then 360 else blocks) = input at hin hle hpos
    by_cases hfit : pos + input ≤ buf.length
    · obtain ⟨r, hd⟩ := hash_fletcher32_do_while_total buf input pos a b hfit
      obtain ⟨p1, a1, b1⟩ := r
      have hp := hash_fletcher32_do_while_pos buf _ _ _ _ _ _ _ hd
      simp only [hd, bind, Except.bind]
      exact ih _ _ _ _ (by omega) (by omega) (by omega)
    · rw [hash_fletcher32_do_while_short buf input pos a b h1 (by omega)]
      rfl

/-- The function reads the word after the end of a buffer that holds fewer than
`length / 2` words. -/
theorem hash_fletcher32_short (buf : List Word16) (length : Nat)
    (h : buf.length < length / 2) :
    hash_fletcher32 buf length = .error (.oob buf.length) := by
  unfold hash_fletcher32
  dsimp only
  rw [hash_fletcher32_while_short buf _ _ 0 0xffff 0xffff (by omega) (by omega) (by omega)]
  rfl

/-- The function reads the first `length / 2` words only. -/
theorem hash_fletcher32_take (buf : List Word16) (length : Nat) :
    hash_fletcher32 (buf.take (length / 2)) length = hash_fletcher32 buf length := by
  unfold hash_fletcher32
  dsimp only
  rw [hash_fletcher32_while_take buf _ _ _ 0 0xffff 0xffff (by omega)]

/-- The value of the function for a buffer that holds the `length / 2` words. -/
theorem hash_fletcher32_ok_pos (buf : List Word16) (length : Nat)
    (hlen : length / 2 ≤ buf.length) :
    ∃ a b, hash_fletcher32 buf length = .ok (b * 65536 + a) ∧
      1 ≤ a ∧ a ≤ 65535 ∧ 1 ≤ b ∧ b ≤ 65535 ∧
      a ≡ word_sum (buf.take (length / 2)) [MOD 65535] ∧
      b ≡ prefix_sum_sum (buf.take (length / 2)) [MOD 65535] := by
  obtain ⟨a, b, peak, h, r⟩ := hash_fletcher32_nat_ok_pos buf length hlen
  refine ⟨a, b, ?_, r⟩
  rw [hash_fletcher32_eq_nat, h]
  rfl

/-- A number in `1..65535` that is a multiple of 65535 is 65535. -/
theorem eq_ffff_of_modEq {a s : Nat} (h1 : 1 ≤ a) (h2 : a ≤ 65535)
    (ha : a ≡ s [MOD 65535]) (hs : s ≡ 0 [MOD 65535]) : a = 0xFFFF := by
  have h := ha.trans hs
  unfold Nat.ModEq at h
  omega

/-- One round of the outer loop, for a number of blocks that is not zero. -/
theorem hash_fletcher32_while_succ (buf : List Word16) (fuel blocks pos a b : Nat)
    (h0 : blocks ≠ 0) :
    hash_fletcher32_while buf (fuel + 1) blocks pos a b
      = (hash_fletcher32_do_while buf (if blocks > 360 then 360 else blocks) pos a b).bind
          (fun r => hash_fletcher32_while buf fuel
            (blocks - (if blocks > 360 then 360 else blocks)) r.1
            (((r.2.1 &&& 0xffff) + (r.2.1 >>> 16)) % 2 ^ 32)
            (((r.2.2 &&& 0xffff) + (r.2.2 >>> 16)) % 2 ^ 32)) := by
  obtain ⟨hcount, -⟩ := do_while_count_block blocks h0
  rw [hash_fletcher32_while]
  simp only [h0, if_false, hcount]
  cases hash_fletcher32_do_while buf (if blocks > 360 then 360 else blocks) pos a b with
  | error f => rfl
  | ok r => rfl

/-! ## Lemmas on logging -/

theorem log_enable_eq (s : Log) :
    log_enable s = { s with log_enabled := true, log_mutex := false } := rfl

theorem log_disable_eq (s : Log) :
    log_disable s = { s with log_enabled := false, log_mutex := false } := rfl

/-- With logging disabled `log_internal` takes and releases the mutex, and nothing else. -/
theorem log_internal_disabled (ext : LogExtern) (file function : List Byte) (line : Int)
    (options : Nat) (format : List Byte) (args : List Nat) (s : Log)
    (h : s.log_enabled = false) :
    log_internal ext file function line options format args s
      = { s with log_mutex := false } := by
  simp [log_internal, mutex_lock, mutex_unlock, h]

/-- With logging enabled `log_internal` appends to standard output, the text of the
message is among what it appends, and of the static variables none has changed when it
returns. -/
theorem log_internal_enabled (ext : LogExtern) (file function : List Byte) (line : Int)
    (options : Nat) (format : List Byte) (args : List Nat) (s : Log)
    (h : s.log_enabled = true) :
    (log_internal ext file function line options format args s).log_date = s.log_date ∧
      (log_internal ext file function line options format args s).log_enabled = true ∧
      (log_internal ext file function line options format args s).log_mutex = false ∧
      (∃ w, (log_internal ext file function line options format args s).stdout
          = s.stdout ++ w ∧ Output.message format args ∈ w) ∧
      ∃ e, (log_internal ext file function line options format args s).stderr
        = s.stderr ++ e := by
  unfold log_internal
  generalize ((ext.magma_log.time || decide (ext.m.M_LOG_TIME = options &&& ext.m.M_LOG_TIME))
    && !decide (ext.m.M_LOG_TIME_DISABLE = options &&& ext.m.M_LOG_TIME_DISABLE)) = c1
  generalize ((ext.magma_log.file || decide (ext.m.M_LOG_FILE = options &&& ext.m.M_LOG_FILE))
    && !decide (ext.m.M_LOG_FILE_DISABLE = options &&& ext.m.M_LOG_FILE_DISABLE)) = c2
  generalize ((ext.magma_log.function
      || decide (ext.m.M_LOG_FUNCTION = options &&& ext.m.M_LOG_FUNCTION))
    && !decide (ext.m.M_LOG_FUNCTION_DISABLE = options &&& ext.m.M_LOG_FUNCTION_DISABLE)) = c3
  generalize ((ext.magma_log.line || decide (ext.m.M_LOG_LINE = options &&& ext.m.M_LOG_LINE))
    && !decide (ext.m.M_LOG_LINE_DISABLE = options &&& ext.m.M_LOG_LINE_DISABLE)) = c4
  generalize (!decide (ext.m.M_LOG_LINE_FEED_DISABLE
    = options &&& ext.m.M_LOG_LINE_FEED_DISABLE)) = c5
  generalize ((ext.magma_log.stack
      || decide (ext.m.M_LOG_STACK_TRACE = options &&& ext.m.M_LOG_STACK_TRACE))
    && !decide (ext.m.M_LOG_STACK_TRACE_DISABLE
      = options &&& ext.m.M_LOG_STACK_TRACE_DISABLE)) = c6
  cases c1 <;> cases c2 <;> cases c3 <;> cases c4 <;> cases c5 <;> cases c6 <;>
    simp only [mutex_lock, mutex_unlock, fprintf, h, Bool.not_true, Bool.false_eq_true,
      if_false, if_true, List.append_assoc] <;>
    (try split_ifs) <;>
    exact ⟨by trivial, by trivial, by trivial, ⟨_, rfl, by simp⟩, by first | exact ⟨[], (List.append_nil _).symm⟩ | exact ⟨_, rfl⟩⟩

/-- While logging is disabled, calls other than `log_enable` leave the streams, the date
and the flag as they are. -/
theorem log_calls_disabled :
    ∀ (calls : List LogCall) (s : Log), s.log_enabled = false →
      (∀ c ∈ calls, c ≠ LogCall.log_enable) →
      (log_calls calls s).stdout = s.stdout ∧ (log_calls calls s).stderr = s.stderr ∧
        (log_calls calls s).log_date = s.log_date ∧ (log_calls calls s).log_enabled = false := by
  intro calls
  induction calls with
  | nil =>
    intro s h _
    exact ⟨rfl, rfl, rfl, h⟩
  | cons c cs ih =>
    intro s h hc
    have hcs : ∀ c ∈ cs, c ≠ LogCall.log_enable :=
      fun c hm => hc c (List.mem_cons_of_mem _ hm)
    have hne : c ≠ LogCall.log_enable := hc c (List.mem_cons_self _ _)
    cases c with
    | log_disable => exact ih (log_disable s) rfl hcs
    | log_enable => exact absurd rfl hne
    | log_internal ext file function line options format args =>
      have e : (LogCall.log_internal ext file function line options format args).run s
          = { s with log_mutex := false } :=
        log_internal_disabled ext file function line options format args s h
      unfold log_calls
      rw [e]
      exact ih _ h hcs

/-- C1: for every (non-null) byte buffer `b` of length `n`, `keys_check_length(b, n)`
returns 0 if and only if `n >= 5` and `n - 5` equals the 3-byte big-endian integer
stored in `b[2]`, `b[3]`, `b[4]`; in every other case it returns -1. -/
theorem keys_check_length_contract (b : List Byte) :
    ret_int (keys_check_length (some b) b.length) =
      some (if 5 ≤ b.length ∧ b.length - 5 = header_length b then 0 else -1) := by
  rw [keys_check_length_eq]
  by_cases h : b.length < 5
  · have h5 : ¬ 5 ≤ b.length := by omega
    simp [h, h5, ret_int]
  · have h5 : 5 ≤ b.length := by omega
    by_cases h2 : b.length - 5 = header_length b
    · simp [h, h2, h5, ret_int]
    · simp [h, h2, h5, ret_int]

/-- C2: for a keychain kind `t` (ORG or USER), a 32-byte signing private key `s`
and a serialized EC private key `e` with `|e| <= 65535`, the binary buffer that
`keys_file_create` builds is exactly
`u2be(magic) || u3be(37 + |e|) || sign_fid || 0x20 || s || enc_fid || u2be(|e|) || e`,
of total length `42 + |e|`, where `(magic, sign_fid, enc_fid)` is `(1952, 1, 3)` for
ORG and `(2013, 1, 2)` for USER; the two length fields decode to `37 + |e|` and `|e|`. -/
theorem keys_file_create_layout (t : keys_type_t) (s e : List Byte)
    (ht : t = .KEYS_TYPE_ORG ∨ t = .KEYS_TYPE_USER) (hs : s.length = 32)
    (he : e.length ≤ 65535) :
    keys_file_create_serial_keys t s e =
        .ok (u2be (keys_magic t) ++ u3be (37 + e.length) ++ [byte (keys_sign_fid t)] ++
          [byte 32] ++ s ++ [byte (keys_enc_fid t)] ++ u2be e.length ++ e, 42 + e.length) ∧
      (u2be (keys_magic t) ++ u3be (37 + e.length) ++ [byte (keys_sign_fid t)] ++
          [byte 32] ++ s ++ [byte (keys_enc_fid t)] ++ u2be e.length ++ e).length
        = 42 + e.length ∧
      (keys_magic .KEYS_TYPE_ORG, keys_sign_fid .KEYS_TYPE_ORG, keys_enc_fid .KEYS_TYPE_ORG)
        = (1952, 1, 3) ∧
      (keys_magic .KEYS_TYPE_USER, keys_sign_fid .KEYS_TYPE_USER, keys_enc_fid .KEYS_TYPE_USER)
        = (2013, 1, 2) ∧
      _int_no_get_3b (u3be (37 + e.length)) 0 = .ok (37 + e.length) ∧
      _int_no_get_2b (u2be e.length) 0 = .ok e.length := by
  refine ⟨keys_file_create_serial_keys_eq t s e ht hs,
    keychain_layout_length _ _ _ s e hs, rfl, rfl, ?_, ?_⟩
  · simp only [_int_no_get_3b, u3be, rd, byte, bind, Except.bind, pure, Except.pure]
    simp only [List.getElem?_cons_zero, List.getElem?_cons_succ]
    congr 1
    omega
  · simp only [_int_no_get_2b, u2be, rd, byte, bind, Except.bind, pure, Except.pure]
    simp only [List.getElem?_cons_zero, List.getElem?_cons_succ]
    congr 1
    omega

/-- Witness of C2: an ORG keychain with the signing key `9, ..., 9` and a 3-byte
EC key. -/
theorem keys_file_create_layout_witness :
    keys_file_create_serial_keys .KEYS_TYPE_ORG (List.replicate 32 9) [1, 2, 3] =
      .ok ([7, 160, 0, 0, 40, 1, 32] ++ List.replicate 32 9 ++ [3, 0, 3, 1, 2, 3], 45) :=
  (keys_file_create_layout .KEYS_TYPE_ORG (List.replicate 32 9) [1, 2, 3] (Or.inl rfl)
    (by decide) (by decide)).1

/-- C3: keychain round trip, signing key: for a keychain kind `t`, a 32-byte signing
private key `s` and a serialized EC key `e` with `|e| <= 65535`,
`keys_serial_get_sign_key` applied to the binary buffer built by `keys_file_create`
passes all its checks and hands the deserializer exactly the 32 bytes `s`: its result
is the deserializer's result on `s`, and with the identity deserializer the key read
back is `s`. -/
theorem keys_sign_key_round_trip {K : Type} (deser : List Byte → Option K) (t : keys_type_t)
    (s e : List Byte) (ht : t = .KEYS_TYPE_ORG ∨ t = .KEYS_TYPE_USER) (hs : s.length = 32)
    (he : e.length ≤ 65535) :
    ∃ b : List Byte, keys_file_create_serial_keys t s e = .ok (b, b.length) ∧
      keys_serial_get_sign_key deser (some b) b.length = deserialized (deser s) ∧
      keys_serial_get_sign_key some (some b) b.length = .ok s :=
  ⟨_, keys_file_create_serial_keys_length t s e ht hs,
    keychain_layout_sign_key deser t s e ht hs he, keychain_layout_sign_key some t s e ht hs he⟩

/-- Witness of C3: a USER keychain with the signing key `5, ..., 5` and a 2-byte
EC key. -/
theorem keys_sign_key_round_trip_witness :
    ∃ b : List Byte,
      keys_file_create_serial_keys .KEYS_TYPE_USER (List.replicate 32 5) [8, 9]
        = .ok (b, b.length) ∧
      keys_serial_get_sign_key some (some b) b.length
        = deserialized (some (List.replicate 32 5)) ∧
      keys_serial_get_sign_key some (some b) b.length = .ok (List.replicate 32 5) :=
  keys_sign_key_round_trip some .KEYS_TYPE_USER (List.replicate 32 5) [8, 9] (Or.inr rfl)
    (by decide) (by decide)

/-- C4: keychain round trip, encryption key: for a keychain kind `t`, a 32-byte signing
private key `s` of any byte values and a serialized EC key `e` with `|e| <= 65535`,
`keys_serial_get_enc_key` applied to the binary buffer built by `keys_file_create`
finds the encryption record and hands the deserializer exactly the bytes `e`: its
result is the deserializer's result on `e`, and with the identity deserializer the
key read back is `e`. -/
theorem keys_enc_key_round_trip {K : Type} (deser : List Byte → Option K) (t : keys_type_t)
    (s e : List Byte) (ht : t = .KEYS_TYPE_ORG ∨ t = .KEYS_TYPE_USER) (hs : s.length = 32)
    (he : e.length ≤ 65535) :
    ∃ b : List Byte, keys_file_create_serial_keys t s e = .ok (b, b.length) ∧
      keys_serial_get_enc_key deser (some b) b.length = deserialized (deser e) ∧
      keys_serial_get_enc_key some (some b) b.length = .ok e :=
  ⟨_, keys_file_create_serial_keys_length t s e ht hs,
    keychain_layout_enc_key deser t s e ht hs he, keychain_layout_enc_key some t s e ht hs he⟩

/-- Witness of C4: an ORG keychain whose signing key consists of the bytes `3`, the
ORG encryption field id, and a 2-byte EC key. -/
theorem keys_enc_key_round_trip_witness :
    ∃ b : List Byte,
      keys_file_create_serial_keys .KEYS_TYPE_ORG (List.replicate 32 3) [8, 9]
        = .ok (b, b.length) ∧
      keys_serial_get_enc_key some (some b) b.length = deserialized (some [8, 9]) ∧
      keys_serial_get_enc_key some (some b) b.length = .ok [8, 9] :=
  keys_enc_key_round_trip some .KEYS_TYPE_ORG (List.replicate 32 3) [8, 9] (Or.inl rfl)
    (by decide) (by decide)

/-- C5: for every buffer `b` of length `n` that passes `keys_check_length`,
`keys_type_get(b, n)` returns `KEYS_TYPE_ORG` exactly when the 2-byte big-endian value of
`b[0..2)` is 1952, `KEYS_TYPE_USER` exactly when it is 2013, and `KEYS_TYPE_ERROR` for
every other value; for every buffer that fails `keys_check_length` it returns
`KEYS_TYPE_ERROR` whatever the magic. -/
theorem keys_type_get_contract (b : List Byte) :
    ret_keys_type (keys_type_get (some b) b.length) =
      some (if keys_check_length (some b) b.length = .ok () then
          if header_magic b = 1952 then .KEYS_TYPE_ORG
          else if header_magic b = 2013 then .KEYS_TYPE_USER
          else .KEYS_TYPE_ERROR
        else .KEYS_TYPE_ERROR) := by
  rw [keys_type_get_eq]
  by_cases hc : keys_check_length (some b) b.length = .ok ()
  · simp only [hc, if_true]
    by_cases h1 : header_magic b = 1952
    · simp [h1, ret_keys_type]
    · by_cases h2 : header_magic b = 2013
      · simp [h2, ret_keys_type]
      · simp [h1, h2, ret_keys_type]
  · simp [hc, ret_keys_type]

/-- C6: for every keychain buffer `b` that passes `keys_check_length` and has a keychain
magic, `keys_serial_get_sign_key` returns NULL whenever the buffer is shorter than 39
bytes, whenever the byte at offset 5 is not the signing-key field id 1, and whenever the
byte at offset 6 is not 32; in the remaining case it calls the deserializer with the 32
bytes at offsets 7..38 and returns its result. -/
theorem keys_serial_get_sign_key_checks {K : Type} (deser : List Byte → Option K)
    (b : List Byte) (hc : keys_check_length (some b) b.length = .ok ())
    (hm : header_magic b = 1952 ∨ header_magic b = 2013) :
    (b.length < 39 → ret_ptr (keys_serial_get_sign_key deser (some b) b.length) = some none) ∧
    (b[5]? ≠ some 1 → ret_ptr (keys_serial_get_sign_key deser (some b) b.length) = some none) ∧
    (b[6]? ≠ some 32 → ret_ptr (keys_serial_get_sign_key deser (some b) b.length) = some none) ∧
    (39 ≤ b.length → b[5]? = some 1 → b[6]? = some 32 →
      keys_serial_get_sign_key deser (some b) b.length
          = deserialized (deser ((b.drop 7).take 32)) ∧
        ((b.drop 7).take 32).length = 32 ∧
        ∀ i, i < 32 → ((b.drop 7).take 32)[i]? = b[7 + i]?) := by
  obtain ⟨t, ht⟩ : ∃ t, keys_type_get (some b) b.length = .ok t := by
    rw [keys_type_get_eq, if_pos hc]
    rcases hm with h | h
    · exact ⟨_, by rw [if_pos h]⟩
    · by_cases h1 : header_magic b = 1952
      · exact ⟨_, by rw [if_pos h1]⟩
      · exact ⟨_, by rw [if_neg h1, if_pos h]⟩
  exact keys_serial_get_sign_key_cases deser b t ht

/-- Witness of C6: on a USER keychain holding the signing-key record only, the
deserializer is called with the 32 bytes at offsets 7..38. -/
theorem keys_serial_get_sign_key_checks_witness :
    keys_serial_get_sign_key some (some keychain_sign_only) keychain_sign_only.length
        = deserialized (some ((keychain_sign_only.drop 7).take 32)) ∧
      ((keychain_sign_only.drop 7).take 32).length = 32 ∧
      ∀ i, i < 32 → ((keychain_sign_only.drop 7).take 32)[i]? = keychain_sign_only[7 + i]? :=
  (keys_serial_get_sign_key_checks some keychain_sign_only (by decide) (by decide)).2.2.2
    (by decide) (by decide) (by decide)

/-- Counterexample to C7: on a length-consistent USER keychain whose first record is
not the signing-key record but a well-formed encryption-key record,
`keys_serial_get_sign_key` returns NULL while `keys_serial_get_enc_key` does not: it
returns the key made from the record's bytes. -/
theorem keys_serial_get_enc_key_without_sign_record :
    keys_check_length (some keychain_enc_only) keychain_enc_only.length = .ok () ∧
      keys_type_get (some keychain_enc_only) keychain_enc_only.length = .ok .KEYS_TYPE_USER ∧
      keychain_enc_only[5]? ≠ some (byte KEYS_USER_PRIVATE_SIGN) ∧
      ret_ptr (keys_serial_get_sign_key some (some keychain_enc_only) keychain_enc_only.length)
        = some none ∧
      ret_ptr (keys_serial_get_enc_key some (some keychain_enc_only) keychain_enc_only.length)
        ≠ some none ∧
      keys_serial_get_enc_key some (some keychain_enc_only) keychain_enc_only.length
        = .ok [0xAA] := by
  decide

/-- C7, amended: for every length-consistent keychain buffer whose first field record
(at offset 5) is not the signing-key record, `keys_serial_get_sign_key` returns NULL;
`keys_serial_get_enc_key` does not look for the signing-key record: when the record at
offset 5 is a well-formed encryption-key record (the kind's encryption field id, a
2-byte length `L`, and `8 + L <= n`), it calls the deserializer with the `L` bytes at
offset 8 and returns its result. -/
theorem keys_first_record_not_sign {K : Type} (deser : List Byte → Option K) (b : List Byte)
    (t : keys_type_t) (ht : keys_type_get (some b) b.length = .ok t)
    (hfirst : b[5]? ≠ some (byte (keys_sign_fid t))) :
    ret_ptr (keys_serial_get_sign_key deser (some b) b.length) = some none ∧
      ∀ hi lo : Byte, b[5]? = some (byte (keys_enc_fid t)) → b[6]? = some hi →
        b[7]? = some lo → 8 + (hi.val * 256 + lo.val) ≤ b.length →
        keys_serial_get_enc_key deser (some b) b.length
          = deserialized (deser ((b.drop 8).take (hi.val * 256 + lo.val))) := by
  obtain ⟨-, hne, -⟩ := keys_type_get_ok_magic ht
  have hsf : byte (keys_sign_fid t) = 1 := by
    cases t with
    | KEYS_TYPE_ERROR => exact absurd rfl hne
    | KEYS_TYPE_ORG => rfl
    | KEYS_TYPE_USER => rfl
  rw [hsf] at hfirst
  refine ⟨(keys_serial_get_sign_key_cases deser b t ht).2.1 hfirst, ?_⟩
  intro hi lo h5 h6 h7 hlen
  have hef : (byte (keys_enc_fid t)).val = keys_enc_fid t := by
    cases t with
    | KEYS_TYPE_ERROR => exact absurd rfl hne
    | KEYS_TYPE_ORG => rfl
    | KEYS_TYPE_USER => rfl
  have hfuel : b.length = (b.length - 1) + 1 := by omega
  have hloop : keys_serial_get_enc_key_loop b b.length (keys_enc_fid t) b.length 5 = .ok 6 := by
    conv => lhs; arg 4; rw [hfuel]
    exact keys_serial_get_enc_key_loop_found (by simp [rd, h5, hef])
  have h2 : _int_no_get_2b b 6 = .ok (hi.val * 256 + lo.val) := by
    simp [_int_no_get_2b, rd, h6, h7, bind, Except.bind, pure, Except.pure]
  rw [keys_serial_get_enc_key_eq deser b t ht, hloop]
  simp only [bind, Except.bind, h2]
  rw [if_neg (by omega)]

/-- Witness of C7, amended: the USER keychain whose only record is an encryption-key
record. -/
theorem keys_first_record_not_sign_witness :
    ret_ptr (keys_serial_get_sign_key some (some keychain_enc_only) keychain_enc_only.length)
        = some none ∧
      keys_serial_get_enc_key some (some keychain_enc_only) keychain_enc_only.length
        = deserialized (some ((keychain_enc_only.drop 8).take 1)) :=
  have h := keys_first_record_not_sign some keychain_enc_only .KEYS_TYPE_USER (by decide)
    (by decide)
  ⟨h.1, h.2 0 1 (by decide) (by decide) (by decide) (by decide)⟩

/-- C8, the code at the failing inputs: on a length-consistent keychain with an empty
payload (`n = 5`) `keys_serial_get_enc_key` reads `bin_keys[5]`; on one whose last byte
is a field id other than the encryption field id it reads the skip length at
`bin_keys[6]` with `n = 6`; on one whose last byte is the encryption field id it reads
the 2-byte length prefix at `bin_keys[6]` with `n = 6`. Each index is outside the
buffer. -/
theorem keys_serial_get_enc_key_reads_past_end :
    (keys_check_length (some keychain_empty) keychain_empty.length = .ok () ∧
      keys_type_get (some keychain_empty) keychain_empty.length = .ok .KEYS_TYPE_ORG ∧
      keychain_empty.length = 5 ∧
      keys_serial_get_enc_key some (some keychain_empty) keychain_empty.length
        = .error (.oob 5)) ∧
    (keys_check_length (some keychain_ends_in_fid) keychain_ends_in_fid.length = .ok () ∧
      keys_type_get (some keychain_ends_in_fid) keychain_ends_in_fid.length
        = .ok .KEYS_TYPE_ORG ∧
      keychain_ends_in_fid.length = 6 ∧
      keys_serial_get_enc_key some (some keychain_ends_in_fid) keychain_ends_in_fid.length
        = .error (.oob 6)) ∧
    (keys_check_length (some keychain_ends_in_enc_fid) keychain_ends_in_enc_fid.length
        = .ok () ∧
      keys_type_get (some keychain_ends_in_enc_fid) keychain_ends_in_enc_fid.length
        = .ok .KEYS_TYPE_ORG ∧
      keychain_ends_in_enc_fid.length = 6 ∧
      keys_serial_get_enc_key some (some keychain_ends_in_enc_fid)
        keychain_ends_in_enc_fid.length = .error (.oob 6)) := by
  decide

/-- C9: in `keys_serial_get_enc_key`, once the record search has found the encryption
record at position `p` (the index after its field id), with the declared length
`L = u2be(b[p..p+2))`: if `p + 2 + L > n` the function fails, whatever the deserializer
is; if `p + 2 + L <= n` the deserializer is called with exactly the `L` bytes
`b[p+2 .. p+2+L)` and its result is returned. -/
theorem keys_serial_get_enc_key_record {K : Type} (deser : List Byte → Option K)
    (b : List Byte) (t : keys_type_t) (p : Nat) (hi lo : Byte)
    (ht : keys_type_get (some b) b.length = .ok t)
    (hfound : keys_serial_get_enc_key_loop b b.length (keys_enc_fid t) b.length 5 = .ok p)
    (hhi : b[p]? = some hi) (hlo : b[p + 1]? = some lo) :
    (p + 2 + (hi.val * 256 + lo.val) > b.length →
      keys_serial_get_enc_key deser (some b) b.length = .error (.err .ERR_UNSPEC)) ∧
    (p + 2 + (hi.val * 256 + lo.val) ≤ b.length →
      keys_serial_get_enc_key deser (some b) b.length
          = deserialized (deser ((b.drop (p + 2)).take (hi.val * 256 + lo.val))) ∧
        ((b.drop (p + 2)).take (hi.val * 256 + lo.val)).length = hi.val * 256 + lo.val ∧
        ∀ i, i < hi.val * 256 + lo.val →
          ((b.drop (p + 2)).take (hi.val * 256 + lo.val))[i]? = b[p + 2 + i]?) := by
  have h2 : _int_no_get_2b b p = .ok (hi.val * 256 + lo.val) := by
    simp [_int_no_get_2b, rd, hhi, hlo, bind, Except.bind, pure, Except.pure]
  rw [keys_serial_get_enc_key_eq deser b t ht, hfound]
  simp only [bind, Except.bind, h2]
  constructor
  · intro h
    rw [if_pos h]
  · intro h
    refine ⟨by rw [if_neg (by omega)], ?_, ?_⟩
    · simp
      omega
    · intro i hi'
      rw [List.getElem?_take_of_lt hi', List.getElem?_drop]

/-- Witness of C9: a USER keychain whose only record is an encryption-key record
found at `p = 6`; with the declared length 1 the record fits and its byte goes to the
deserializer, with the declared length 9 it does not fit and the call fails. -/
theorem keys_serial_get_enc_key_record_witness :
    keys_serial_get_enc_key some (some keychain_enc_only) keychain_enc_only.length
        = deserialized (some ((keychain_enc_only.drop (6 + 2)).take ((0 : Byte).val * 256
          + (1 : Byte).val))) ∧
      keys_serial_get_enc_key some (some keychain_enc_overlong) keychain_enc_overlong.length
        = .error (.err .ERR_UNSPEC) :=
  ⟨((keys_serial_get_enc_key_record some keychain_enc_only .KEYS_TYPE_USER 6 0 1 (by decide)
      (by decide) (by decide) (by decide)).2 (by decide)).1,
    (keys_serial_get_enc_key_record some keychain_enc_overlong .KEYS_TYPE_USER 6 0 9
      (by decide) (by decide) (by decide) (by decide)).1 (by decide)⟩

/-- C10: for a keychain kind `t` and every key pair with `|e| <= 65535`, the binary
buffer built by `keys_file_create` passes `keys_check_length` and `keys_type_get`
returns `t` on it: the 3-byte header length equals the number of bytes that follow the
header and the magic identifies the kind passed in. -/
theorem keys_file_create_header (t : keys_type_t) (s e : List Byte)
    (ht : t = .KEYS_TYPE_ORG ∨ t = .KEYS_TYPE_USER) (hs : s.length = 32)
    (he : e.length ≤ 65535) :
    ∃ b : List Byte, keys_file_create_serial_keys t s e = .ok (b, b.length) ∧
      keys_check_length (some b) b.length = .ok () ∧
      keys_type_get (some b) b.length = .ok t ∧
      header_length b = b.length - 5 ∧
      header_magic b = keys_magic t := by
  refine ⟨_, keys_file_create_serial_keys_length t s e ht hs,
    keychain_layout_check_length _ _ _ s e hs he,
    keychain_layout_type_get t _ _ s e (keys_type_ne_error ht) hs he, ?_, ?_⟩
  · rw [keychain_layout_header_length _ _ _ s e he, keychain_layout_length _ _ _ s e hs]
    omega
  · apply keychain_layout_header_magic
    rcases ht with rfl | rfl <;> decide

/-- Witness of C10: a USER keychain with the signing key `5, ..., 5` and a 2-byte
EC key. -/
theorem keys_file_create_header_witness :
    ∃ b : List Byte,
      keys_file_create_serial_keys .KEYS_TYPE_USER (List.replicate 32 5) [8, 9]
        = .ok (b, b.length) ∧
      keys_check_length (some b) b.length = .ok () ∧
      keys_type_get (some b) b.length = .ok .KEYS_TYPE_USER ∧
      header_length b = b.length - 5 ∧
      header_magic b = keys_magic .KEYS_TYPE_USER :=
  keys_file_create_header .KEYS_TYPE_USER (List.replicate 32 5) [8, 9] (Or.inr rfl)
    (by decide) (by decide)

/-- C11, the code at the failing inputs: when the PEM body `B6A=` of `k.pem` is read,
`keys_file_serialize` frees `b64_keys` without a wipe, both when the body decodes and
when the decoding fails; neither list of effects holds a wipe of `b64_keys`. -/
theorem keys_file_serialize_frees_unwiped :
    (keys_file_serialize extern_ok (some k_pem) (some ())).1 =
        [.call .read_pem_data, .secret .b64_keys 4, .call .b64decode, .secret .keys_bin 39,
          .free .b64_keys] ∧
      wiped_before_release .b64_keys (keys_file_serialize extern_ok (some k_pem) (some ())).1
        = false ∧
      (keys_file_serialize extern_bad_b64 (some k_pem) (some ())).1 =
        [.call .read_pem_data, .secret .b64_keys 4, .call .b64decode, .free .b64_keys] ∧
      wiped_before_release .b64_keys
        (keys_file_serialize extern_bad_b64 (some k_pem) (some ())).1 = false := by
  decide

/-- C12: on every exit path of `keys_file_create`, each buffer that holds key material on
that path (the stack copy `serial_sign`, the DER buffer `serial_enc`, the assembled
binary `serial_keys`, the base64 text `b64_keys`) is passed to `_secure_wipe` over its
full length before it is freed and before the function returns. -/
theorem keys_file_create_wipes {EC_KEY : Type} (ext : Extern EC_KEY) (type : keys_type_t)
    (sign_key : Option (List Byte)) (enc_key : Option EC_KEY) (filename : Option (List Byte))
    (buf : Buf) :
    wiped_before_release buf (keys_file_create ext type sign_key enc_key filename).1 = true ∧
      ∀ n, Event.secret buf n ∈ (keys_file_create ext type sign_key enc_key filename).1 →
        Event.wipe buf n ∈ (keys_file_create ext type sign_key enc_key filename).1 :=
  keys_file_create_trace_wiped ext type sign_key enc_key filename buf

/-- Witness of C12: the run in which everything succeeds, with a 3-byte EC key and the
base64 text `B6A=`; each of the four buffers comes to hold key material and is wiped at
that length. -/
theorem keys_file_create_wipes_witness :
    Event.wipe .serial_sign 32 ∈ (keys_file_create extern_ok .KEYS_TYPE_ORG
        (some (List.replicate 32 9)) (some ()) (some k_pem)).1 ∧
      Event.wipe .serial_enc 3 ∈ (keys_file_create extern_ok .KEYS_TYPE_ORG
        (some (List.replicate 32 9)) (some ()) (some k_pem)).1 ∧
      Event.wipe .serial_keys 45 ∈ (keys_file_create extern_ok .KEYS_TYPE_ORG
        (some (List.replicate 32 9)) (some ()) (some k_pem)).1 ∧
      Event.wipe .b64_keys 4 ∈ (keys_file_create extern_ok .KEYS_TYPE_ORG
        (some (List.replicate 32 9)) (some ()) (some k_pem)).1 :=
  ⟨(keys_file_create_wipes extern_ok .KEYS_TYPE_ORG (some (List.replicate 32 9)) (some ())
      (some k_pem) .serial_sign).2 32 (by decide),
    (keys_file_create_wipes extern_ok .KEYS_TYPE_ORG (some (List.replicate 32 9)) (some ())
      (some k_pem) .serial_enc).2 3 (by decide),
    (keys_file_create_wipes extern_ok .KEYS_TYPE_ORG (some (List.replicate 32 9)) (some ())
      (some k_pem) .serial_keys).2 45 (by decide),
    (keys_file_create_wipes extern_ok .KEYS_TYPE_ORG (some (List.replicate 32 9)) (some ())
      (some k_pem) .b64_keys).2 4 (by decide)⟩

/-- C13: `keys_fetch_sign_key` and `keys_fetch_enc_key` wipe the decoded keychain binary
over its full decoded length before freeing it: the buffer is wiped before release in
every run, and after a successful `keys_file_serialize` the effects end with the wipe
over the decoded length followed by the `free`, whatever the deserializer is, that is
both when the key extraction succeeds and when it fails. -/
theorem keys_fetch_wipes {EC_KEY K : Type} (ext : Extern EC_KEY)
    (deser_sign : List Byte → Option K) (deser_enc : List Byte → Option EC_KEY)
    (filename : Option (List Byte)) :
    wiped_before_release .keys_bin (keys_fetch_sign_key ext deser_sign filename).1 = true ∧
    wiped_before_release .keys_bin (keys_fetch_enc_key ext deser_enc filename).1 = true ∧
    ∀ fname tr keys_bin keys_len, filename = some fname → fname ≠ [] →
      keys_file_serialize ext filename (some ()) = (tr, .ok (keys_bin, keys_len)) →
      keys_len = keys_bin.length ∧
      (keys_fetch_sign_key ext deser_sign filename).1
        = tr ++ [.wipe .keys_bin keys_bin.length, .free .keys_bin] ∧
      (keys_fetch_enc_key ext deser_enc filename).1
        = tr ++ [.wipe .keys_bin keys_bin.length, .free .keys_bin] := by
  refine ⟨keys_fetch_sign_key_wiped ext deser_sign filename,
    keys_fetch_enc_key_wiped ext deser_enc filename, ?_⟩
  intro fname tr keys_bin keys_len hf hne hser
  subst hf
  have hlen : keys_len = keys_bin.length := by
    rcases keys_file_serialize_cases ext (some fname) (some ()) with
      h | h | ⟨k, h⟩ | ⟨k, kb, h⟩
    · rw [h] at hser
      cases hser
    · rw [h] at hser
      cases hser
    · rw [h] at hser
      cases hser
    · rw [h] at hser
      cases hser
      rfl
  subst hlen
  rw [keys_fetch_sign_key_trace ext deser_sign fname tr keys_bin _ hne hser,
    keys_fetch_enc_key_trace ext deser_enc fname tr keys_bin _ hne hser]
  exact ⟨rfl, rfl, rfl⟩

/-- Witness of C13: `k.pem` decodes to a 39-byte keychain without an encryption-key
record; the signing key is extracted, the extraction of the encryption key fails, and
both runs end with the wipe of the 39 bytes and the `free`. -/
theorem keys_fetch_wipes_witness :
    (39 : Nat) = keychain_sign_only.length ∧
      (keys_fetch_sign_key extern_ok some (some k_pem)).1
        = (keys_file_serialize extern_ok (some k_pem) (some ())).1
            ++ [.wipe .keys_bin keychain_sign_only.length, .free .keys_bin] ∧
      (keys_fetch_enc_key extern_ok (fun _ => some ()) (some k_pem)).1
        = (keys_file_serialize extern_ok (some k_pem) (some ())).1
            ++ [.wipe .keys_bin keychain_sign_only.length, .free .keys_bin] :=
  (keys_fetch_wipes extern_ok some (fun _ => some ()) (some k_pem)).2.2 k_pem
    (keys_file_serialize extern_ok (some k_pem) (some ())).1 keychain_sign_only 39 rfl
    (by decide) (by decide)

/-- C14: the magic values of `dime_number_t` are ORG_SIGNET=1776, USER_SIGNET=1789,
SSR=1216, ORG_KEYS=1952, USER_KEYS=2013, MSG_TRACING=1837, ENCRYPTED_MSG=1847; they are
pairwise distinct, each is below 65536, and their 2-byte big-endian encodings are
pairwise distinct and decode to the values; 1776 encodes as `06 F0` and 1216 as
`04 C0`. -/
theorem dime_number_values :
    dime_number_t = [1776, 1789, 1216, 1952, 2013, 1837, 1847] ∧
      dime_number_t.Nodup ∧
      dime_number_t.all (fun n => decide (n < 65536)) = true ∧
      (dime_number_t.map u2be).Nodup ∧
      dime_number_t.map (fun n => _int_no_get_2b (u2be n) 0) = dime_number_t.map Except.ok ∧
      u2be DIME_ORG_SIGNET = [0x06, 0xF0] ∧
      u2be DIME_SSR = [0x04, 0xC0] := by
  decide

/-- Counterexample to C15: `SIGNET_USER_GENDER` is an enumerator of
`SIGNET_USER_FIELD_T`, its value is 96, and 96 lies in none of the ranges 1-6, 16-95,
200-202, 251-255. -/
theorem user_field_outside_ranges :
    SIGNET_USER_GENDER ∈ SIGNET_USER_FIELD_T ∧ SIGNET_USER_GENDER = 96 ∧
      user_field_range SIGNET_USER_GENDER = false := by
  decide

/-- C15, amended: every enumerator of `SIGNET_USER_FIELD_T` lies in one of the ranges
1-6, 16-99, 200-202 or 251-255; the enumerators outside the ranges 1-6, 16-95, 200-202,
251-255 are GENDER (96), ALMA_MATER (97), SUPERVISOR (98) and POLITICAL_PARTY (99). -/
theorem user_field_ranges :
    SIGNET_USER_FIELD_T.all user_field_range_code = true ∧
      SIGNET_USER_FIELD_T.filter (fun id => !user_field_range id) =
        [SIGNET_USER_GENDER, SIGNET_USER_ALMA_MATER, SIGNET_USER_SUPERVISOR,
          SIGNET_USER_POLITICAL_PARTY] ∧
      [SIGNET_USER_GENDER, SIGNET_USER_ALMA_MATER, SIGNET_USER_SUPERVISOR,
          SIGNET_USER_POLITICAL_PARTY] = [96, 97, 98, 99] := by
  decide

/-- C16: `keys_file_create` returns -1 with the error code `ERR_BAD_PARAM` and has no
effect (no call of an external function, no buffer) whenever `sign_key`, `enc_key` or
`filename` is null or the type is `KEYS_TYPE_ERROR`; `keys_fetch_sign_key` and
`keys_fetch_enc_key` fail with `ERR_BAD_PARAM` and without effect (no file is read) for a
null or empty file name. -/
theorem keys_bad_param {EC_KEY K : Type} (ext : Extern EC_KEY) (type : keys_type_t)
    (sign_key : Option (List Byte)) (enc_key : Option EC_KEY) (filename : Option (List Byte))
    (deser_sign : List Byte → Option K) (deser_enc : List Byte → Option EC_KEY) :
    ((sign_key = none ∨ enc_key = none ∨ filename = none ∨ type = .KEYS_TYPE_ERROR) →
        keys_file_create ext type sign_key enc_key filename
          = ([], .error (.err .ERR_BAD_PARAM)) ∧
        ret_int (keys_file_create ext type sign_key enc_key filename).2 = some (-1)) ∧
    ((filename = none ∨ filename = some []) →
        keys_fetch_sign_key ext deser_sign filename = ([], .error (.err .ERR_BAD_PARAM)) ∧
        keys_fetch_enc_key ext deser_enc filename = ([], .error (.err .ERR_BAD_PARAM))) := by
  refine ⟨?_, keys_fetch_bad_filename ext deser_sign deser_enc filename⟩
  intro h
  have hc : keys_file_create ext type sign_key enc_key filename
      = ([], .error (.err .ERR_BAD_PARAM)) := by
    unfold keys_file_create
    cases sign_key with
    | none => rfl
    | some private_key =>
      cases enc_key with
      | none => rfl
      | some ek =>
        cases filename with
        | none => rfl
        | some fname =>
          rcases h with h | h | h | h
          · cases h
          · cases h
          · cases h
          · simp [h]
  rw [hc]
  exact ⟨rfl, rfl⟩

/-- Witness of C16: a null `sign_key`, the type `KEYS_TYPE_ERROR`, and the empty file
name. -/
theorem keys_bad_param_witness :
    keys_file_create extern_ok .KEYS_TYPE_ORG none (some ()) (some []) =
        ([], .error (.err .ERR_BAD_PARAM)) ∧
      keys_file_create extern_ok .KEYS_TYPE_ERROR (some (List.replicate 32 9)) (some ())
        (some k_pem) = ([], .error (.err .ERR_BAD_PARAM)) ∧
      keys_fetch_sign_key extern_ok (some : List Byte → Option (List Byte)) (some [])
        = ([], .error (.err .ERR_BAD_PARAM)) ∧
      keys_fetch_enc_key extern_ok (fun _ => some ()) (some [])
        = ([], .error (.err .ERR_BAD_PARAM)) :=
  ⟨((keys_bad_param extern_ok .KEYS_TYPE_ORG none (some ()) (some [])
      (some : List Byte → Option (List Byte)) (fun _ => some ())).1 (Or.inl rfl)).1,
    ((keys_bad_param extern_ok .KEYS_TYPE_ERROR (some (List.replicate 32 9)) (some ())
      (some k_pem) (some : List Byte → Option (List Byte)) (fun _ => some ())).1
        (Or.inr (Or.inr (Or.inr rfl)))).1,
    (keys_bad_param extern_ok .KEYS_TYPE_ORG none (some ()) (some [])
      (some : List Byte → Option (List Byte)) (fun _ => some ())).2 (Or.inr rfl)⟩

/-- Counterexample to C17: a 6-byte buffer whose header length is 2 is rejected by
`keys_check_length` with `ERR_UNSPEC`, and a length-consistent buffer with the signet
magic 1776 is rejected by `keys_type_get` with `ERR_UNSPEC`; the kind of both errors is
`Unspec`, not `Format`. -/
theorem keys_reject_not_format :
    5 ≤ keychain_length_mismatch.length ∧
      keychain_length_mismatch.length - 5 ≠ header_length keychain_length_mismatch ∧
      rejected_kind (keys_check_length (some keychain_length_mismatch)
        keychain_length_mismatch.length) = some .Unspec ∧
      rejected_kind (keys_check_length (some keychain_length_mismatch)
        keychain_length_mismatch.length) ≠ some .Format ∧
      keys_check_length (some signet_magic_buffer) signet_magic_buffer.length = .ok () ∧
      header_magic signet_magic_buffer = DIME_ORG_SIGNET ∧
      rejected_kind (keys_type_get (some signet_magic_buffer) signet_magic_buffer.length)
        = some .Unspec ∧
      rejected_kind (keys_type_get (some signet_magic_buffer) signet_magic_buffer.length)
        ≠ some .Format := by
  decide

/-- C17, amended: a keychain buffer of at least 5 bytes whose 3-byte header length
differs from the number of bytes following the header is rejected by `keys_check_length`
with `ERR_UNSPEC`, and a length-consistent buffer whose magic is not a keychain magic is
rejected by `keys_type_get` with `ERR_UNSPEC`: both errors are of the kind `Unspec`. -/
theorem keys_reject_unspec (b : List Byte) :
    (5 ≤ b.length → b.length - 5 ≠ header_length b →
      keys_check_length (some b) b.length = .error (.err .ERR_UNSPEC) ∧
      rejected_kind (keys_check_length (some b) b.length) = some .Unspec) ∧
    (keys_check_length (some b) b.length = .ok () → header_magic b ≠ 1952 →
      header_magic b ≠ 2013 →
      keys_type_get (some b) b.length = .error (.err .ERR_UNSPEC) ∧
      rejected_kind (keys_type_get (some b) b.length) = some .Unspec) := by
  constructor
  · intro h5 hne
    have h : keys_check_length (some b) b.length = .error (.err .ERR_UNSPEC) := by
      rw [keys_check_length_eq, if_neg (by omega), if_pos hne]
    rw [h]
    exact ⟨rfl, rfl⟩
  · intro hc h1 h2
    have h : keys_type_get (some b) b.length = .error (.err .ERR_UNSPEC) := by
      rw [keys_type_get_eq, if_pos hc, if_neg h1, if_neg h2]
    rw [h]
    exact ⟨rfl, rfl⟩

/-- Witness of C17, amended: the buffer with the header length 2 and the buffer with the
signet magic 1776. -/
theorem keys_reject_unspec_witness :
    rejected_kind (keys_check_length (some keychain_length_mismatch)
        keychain_length_mismatch.length) = some .Unspec ∧
      rejected_kind (keys_type_get (some signet_magic_buffer) signet_magic_buffer.length)
        = some .Unspec :=
  ⟨((keys_reject_unspec keychain_length_mismatch).1 (by decide) (by decide)).2,
    ((keys_reject_unspec signet_magic_buffer).2 (by decide) (by decide) (by decide)).2⟩

/-- C18: `hash_fletcher32` computes the Fletcher-32 checksum: for a buffer that holds the
`m = length / 2` words `w_1 .. w_m`, the function returns a 32-bit value whose low 16
bits are congruent modulo 65535 to the sum of the `w_i`, and whose high 16 bits are
congruent modulo 65535 to the sum over `k = 1..m` of the prefix sums `w_1 + ... + w_k`. -/
theorem hash_fletcher32_checksum (buf : List Word16) (length : Nat)
    (hlen : length / 2 ≤ buf.length) :
    ∃ r, hash_fletcher32 buf length = .ok r ∧ r < 2 ^ 32 ∧
      r % 65536 ≡ word_sum (buf.take (length / 2)) [MOD 65535] ∧
      r / 65536 ≡ prefix_sum_sum (buf.take (length / 2)) [MOD 65535] := by
  obtain ⟨a, b, peak, h, ha, hb, -, hma, hmb⟩ := hash_fletcher32_nat_ok buf length hlen
  refine ⟨b * 65536 + a, ?_, by omega, ?_, ?_⟩
  · rw [hash_fletcher32_eq_nat, h]
    rfl
  · have e : (b * 65536 + a) % 65536 = a := by omega
    rw [e]
    exact hma
  · have e : (b * 65536 + a) / 65536 = b := by omega
    rw [e]
    exact hmb

/-- Witness of C18: the three words of `abcdef`, whose checksum is `0x56502D2A`. -/
theorem hash_fletcher32_checksum_witness :
    ∃ r, hash_fletcher32 [0x6261, 0x6463, 0x6665] 6 = .ok r ∧ r < 2 ^ 32 ∧
      r % 65536 ≡ word_sum (List.take (6 / 2) [0x6261, 0x6463, 0x6665]) [MOD 65535] ∧
      r / 65536 ≡ prefix_sum_sum (List.take (6 / 2) [0x6261, 0x6463, 0x6665]) [MOD 65535] :=
  hash_fletcher32_checksum [0x6261, 0x6463, 0x6665] 6 (by decide)

/-- C19: in `hash_fletcher32`, with its block size of 360 words, neither accumulator ever
exceeds `2 ^ 32 - 1` before being folded, for every input of every length: the function
computed with `uint32_t` wrap-around arithmetic equals the same function computed over
unbounded natural numbers, and in that computation the largest value taken by `a` or `b`
is at most `2 ^ 32 - 1`. -/
theorem hash_fletcher32_no_overflow (buf : List Word16) (length : Nat) :
    hash_fletcher32 buf length = (hash_fletcher32_nat buf length).map Prod.fst ∧
      ∀ v peak, hash_fletcher32_nat buf length = .ok (v, peak) → peak ≤ 2 ^ 32 - 1 :=
  ⟨hash_fletcher32_eq_nat buf length, hash_fletcher32_nat_peak buf length⟩

/-- Witness of C19: the three words of `abcdef`; over the natural numbers the value is
`0x56502D2A` and the largest accumulator is `415306`. -/
theorem hash_fletcher32_no_overflow_witness :
    hash_fletcher32 [0x6261, 0x6463, 0x6665] 6
        = (hash_fletcher32_nat [0x6261, 0x6463, 0x6665] 6).map Prod.fst ∧
      (415306 : Nat) ≤ 2 ^ 32 - 1 :=
  ⟨(hash_fletcher32_no_overflow [0x6261, 0x6463, 0x6665] 6).1,
    (hash_fletcher32_no_overflow [0x6261, 0x6463, 0x6665] 6).2 0x56502D2A 415306
      (by decide)⟩

/-- C20: the field ids of the signature fields in the canonical order are strictly
increasing, for user signets COC_SIG (4) < SSR_SIG (5) < CRYPTO_SIG (6) < FULL_SIG (253)
< ID_SIG (255) and for org signets CRYPTO_SIG (4) < FULL_SIG (253) < ID (254) < ID_SIG
(255); in both kinds every key field (POK or SIGN_KEY, ENC_KEY) has an id smaller than
every signature field, so the key fields followed by the signature fields are increasing
in their ids. -/
theorem signature_field_order :
    [SIGNET_USER_COC_SIG, SIGNET_USER_SSR_SIG, SIGNET_USER_CRYPTO_SIG, SIGNET_USER_FULL_SIG,
        SIGNET_USER_ID_SIG] = [4, 5, 6, 253, 255] ∧
      [SIGNET_ORG_CRYPTO_SIG, SIGNET_ORG_FULL_SIG, SIGNET_ORG_ID, SIGNET_ORG_ID_SIG]
        = [4, 253, 254, 255] ∧
      List.Pairwise (fun x y => x < y)
        [SIGNET_USER_SIGN_KEY, SIGNET_USER_ENC_KEY, SIGNET_USER_COC_SIG, SIGNET_USER_SSR_SIG,
          SIGNET_USER_CRYPTO_SIG, SIGNET_USER_FULL_SIG, SIGNET_USER_ID_SIG] ∧
      List.Pairwise (fun x y => x < y)
        [SIGNET_ORG_POK, SIGNET_ORG_ENC_KEY, SIGNET_ORG_CRYPTO_SIG, SIGNET_ORG_FULL_SIG,
          SIGNET_ORG_ID, SIGNET_ORG_ID_SIG] := by
  decide

/-- C21: the SSR field identifiers are exactly 1..5 and coincide with the user-signet
identifiers of the same fields: SIGN_KEY=1, ENC_KEY=2, ALT_KEY=3, COC_SIG=4, SSR_SIG=5 in
both `SIGNET_SSR_FIELD_T` and `SIGNET_USER_FIELD_T`. -/
theorem ssr_field_ids :
    SIGNET_SSR_FIELD_T = [1, 2, 3, 4, 5] ∧
      SIGNET_SSR_FIELD_T = [SIGNET_SSR_SIGN_KEY, SIGNET_SSR_ENC_KEY, SIGNET_SSR_ALT_KEY,
        SIGNET_SSR_COC_SIG, SIGNET_SSR_SSR_SIG] ∧
      [SIGNET_USER_SIGN_KEY, SIGNET_USER_ENC_KEY, SIGNET_USER_ALT_KEY, SIGNET_USER_COC_SIG,
        SIGNET_USER_SSR_SIG] = [1, 2, 3, 4, 5] ∧
      SIGNET_USER_FIELD_T.take 5 = SIGNET_SSR_FIELD_T := by
  decide

/-- C22: for every keychain buffer of the form
`header || r_1 .. r_k || enc_fid || u2be(L) || d[L] || tail`, where the header is
length-consistent with a keychain magic and each `r_i` is `fid_i || len_i || data_i[len_i]`
with a 1-byte length and `fid_i` different from the kind's encryption field id (the data
bytes are arbitrary), the record search of `keys_serial_get_enc_key` skips `r_1 .. r_k` by
their length bytes and ends after the encryption field id, and the function hands the
deserializer exactly `d`. -/
theorem keys_serial_get_enc_key_skips_records {K : Type} (deser : List Byte → Option K)
    (t : keys_type_t) (header : List Byte) (rs : List (Byte × List Byte)) (d tail : List Byte)
    (hh : header.length = 5)
    (ht : keys_type_get (some (keychain_with_records header rs (keys_enc_fid t) d tail))
      (keychain_with_records header rs (keys_enc_fid t) d tail).length = .ok t)
    (hrs : ∀ r ∈ rs, r.1.val ≠ keys_enc_fid t ∧ r.2.length ≤ 255)
    (hd : d.length ≤ 65535) :
    keys_serial_get_enc_key_loop (keychain_with_records header rs (keys_enc_fid t) d tail)
        (keychain_with_records header rs (keys_enc_fid t) d tail).length (keys_enc_fid t)
        (keychain_with_records header rs (keys_enc_fid t) d tail).length 5
        = .ok (5 + (records_bytes rs).length + 1) ∧
      keys_serial_get_enc_key deser
        (some (keychain_with_records header rs (keys_enc_fid t) d tail))
        (keychain_with_records header rs (keys_enc_fid t) d tail).length
        = deserialized (deser d) :=
  keys_serial_get_enc_key_with_records deser t header rs d tail hh ht hrs hd

/-- Witness of C22: an ORG keychain with the POK record, two SOK records (field id 2, one
with the data `3, 3`, one empty) and a tail byte after the encryption-key record. -/
theorem keys_serial_get_enc_key_skips_records_witness :
    keychain_with_sok = keychain_with_records [7, 160, 0, 0, 46]
        [(1, List.replicate 32 9), (2, [3, 3]), (2, [])] (keys_enc_fid .KEYS_TYPE_ORG)
        [0xAA, 0xBB] [0] ∧
      keys_serial_get_enc_key some (some keychain_with_sok) keychain_with_sok.length
        = deserialized (some [0xAA, 0xBB]) :=
  ⟨rfl, (keys_serial_get_enc_key_skips_records some .KEYS_TYPE_ORG [7, 160, 0, 0, 46]
    [(1, List.replicate 32 9), (2, [3, 3]), (2, [])] [0xAA, 0xBB] [0] rfl (by decide)
    (by decide) (by decide)).2⟩

/-- Counterexample to C23: for a serialized EC key of 16777179 bytes the buffer of
`keys_file_create` has 16777221 bytes, more than a 3-byte header length can state;
`keys_serial_get_enc_key` rejects it at `keys_check_length` and hands the deserializer
nothing, not the first `16777179 mod 65536` bytes of the key. -/
theorem keys_enc_key_header_overflow :
    65536 ≤ (List.replicate 16777179 (0 : Byte)).length ∧
      keys_file_create_serial_keys .KEYS_TYPE_ORG (List.replicate 32 0)
          (List.replicate 16777179 0)
        = .ok (keychain_layout 1952 1 3 (List.replicate 32 0) (List.replicate 16777179 0),
            16777221) ∧
      (keychain_layout 1952 1 3 (List.replicate 32 0) (List.replicate 16777179 0)).length
        = 16777221 ∧
      keys_serial_get_enc_key some
          (some (keychain_layout 1952 1 3 (List.replicate 32 0) (List.replicate 16777179 0)))
          16777221
        = .error (.err .ERR_BAD_PARAM) ∧
      keys_serial_get_enc_key some
          (some (keychain_layout 1952 1 3 (List.replicate 32 0) (List.replicate 16777179 0)))
          16777221
        ≠ deserialized (some ((List.replicate 16777179 (0 : Byte)).take (16777179 % 65536))) := by
  have hs : (List.replicate 32 (0 : Byte)).length = 32 := List.length_replicate _ _
  have he : (List.replicate 16777179 (0 : Byte)).length = 16777179 := List.length_replicate _ _
  have hl : (keychain_layout 1952 1 3 (List.replicate 32 0)
      (List.replicate 16777179 0)).length = 16777221 := by
    rw [keychain_layout_length 1952 1 3 _ _ hs, he]
  have hc := keys_file_create_serial_keys_eq .KEYS_TYPE_ORG (List.replicate 32 0)
    (List.replicate 16777179 0) (Or.inl rfl) hs
  rw [he] at hc
  have hk := keys_serial_get_enc_key_too_long (some : List Byte → Option (List Byte))
    (keychain_layout 1952 1 3 (List.replicate 32 0) (List.replicate 16777179 0))
    (by rw [hl])
  rw [hl] at hk
  refine ⟨by rw [he]; decide, hc, hl, hk, ?_⟩
  rw [hk]
  intro h
  cases h

/-- C23, amended: when the serialized EC private key `e` has `|e| >= 65536`,
`keys_file_create` writes `|e| mod 65536` into the 2-byte length prefix while still copying
all `|e|` bytes; for `|e| <= 16777178` `keys_serial_get_enc_key` on the produced buffer
hands the deserializer only the first `|e| mod 65536` bytes of `e` rather than `e`, and for
`|e| >= 16777179` it rejects the buffer, whose length a 3-byte header cannot state; in
both cases the key read back is not `e`. -/
theorem keys_enc_key_long {K : Type} (deser : List Byte → Option K) (t : keys_type_t)
    (s e : List Byte) (ht : t = .KEYS_TYPE_ORG ∨ t = .KEYS_TYPE_USER) (hs : s.length = 32)
    (he : 65536 ≤ e.length) :
    ∃ b : List Byte, keys_file_create_serial_keys t s e = .ok (b, b.length) ∧
      b.length = 42 + e.length ∧
      _int_no_get_2b b 40 = .ok (e.length % 65536) ∧
      b.drop 42 = e ∧
      (e.length ≤ 16777178 →
        keys_serial_get_enc_key deser (some b) b.length
          = deserialized (deser (e.take (e.length % 65536))) ∧
        e.take (e.length % 65536) ≠ e) ∧
      (16777179 ≤ e.length →
        keys_serial_get_enc_key deser (some b) b.length = .error (.err .ERR_BAD_PARAM)) ∧
      keys_serial_get_enc_key some (some b) b.length ≠ .ok e := by
  have hlen := keychain_layout_length (keys_magic t) (keys_sign_fid t) (keys_enc_fid t) s e hs
  have hmod : e.length % 65536 < e.length := by omega
  refine ⟨_, keys_file_create_serial_keys_length t s e ht hs, hlen,
    keychain_layout_get_2b_40_mod _ _ _ s e hs, keychain_layout_drop_42 _ _ _ s e hs, ?_, ?_, ?_⟩
  · intro hle
    exact ⟨keychain_layout_enc_key_mod deser t s e ht hs (by omega), take_ne_self_of_lt hmod⟩
  · intro hge
    exact keys_serial_get_enc_key_too_long deser _ (by omega)
  · by_cases hle : e.length ≤ 16777178
    · rw [keychain_layout_enc_key_mod some t s e ht hs (by omega)]
      intro h
      simp only [deserialized, Except.ok.injEq] at h
      exact take_ne_self_of_lt hmod h
    · rw [keys_serial_get_enc_key_too_long some _ (by omega)]
      intro h
      cases h

/-- Witness of C23, amended: a USER keychain with an EC key of 65537 bytes; the length
prefix holds 1 and the deserializer is given the first byte of the key. -/
theorem keys_enc_key_long_witness :
    ∃ b : List Byte,
      keys_file_create_serial_keys .KEYS_TYPE_USER (List.replicate 32 5) long_ec_key
        = .ok (b, b.length) ∧
      b.length = 42 + long_ec_key.length ∧
      _int_no_get_2b b 40 = .ok (long_ec_key.length % 65536) ∧
      b.drop 42 = long_ec_key ∧
      (long_ec_key.length ≤ 16777178 →
        keys_serial_get_enc_key some (some b) b.length
          = deserialized (some (long_ec_key.take (long_ec_key.length % 65536))) ∧
        long_ec_key.take (long_ec_key.length % 65536) ≠ long_ec_key) ∧
      (16777179 ≤ long_ec_key.length →
        keys_serial_get_enc_key some (some b) b.length = .error (.err .ERR_BAD_PARAM)) ∧
      keys_serial_get_enc_key some (some b) b.length ≠ .ok long_ec_key :=
  keys_enc_key_long some .KEYS_TYPE_USER (List.replicate 32 5) long_ec_key (Or.inr rfl)
    (by decide) (by rw [long_ec_key, List.length_replicate]; decide)

/-- C24: the record-search loop of `keys_serial_get_enc_key` terminates on every input
buffer: an iteration that does not find the encryption field id and does not fail
continues at an offset at least 2 larger and below `len`, so at most `(len - 5) / 2 + 1`
loop tests run: with that bound the search, started at offset 5, ends with a result, and
every larger bound gives the same result. -/
theorem keys_serial_get_enc_key_loop_terminates (b : List Byte) (len enc_fid : Nat) :
    keys_serial_get_enc_key_loop b len enc_fid ((len - 5) / 2 + 1) 5 ≠ .error .fuel ∧
      (∀ k, keys_serial_get_enc_key_loop b len enc_fid ((len - 5) / 2 + 1 + k) 5
        = keys_serial_get_enc_key_loop b len enc_fid ((len - 5) / 2 + 1) 5) ∧
      ∀ p, (∀ n, keys_serial_get_enc_key_loop b len enc_fid (n + 1) p = .ok (p + 1)) ∨
        (∀ n, keys_serial_get_enc_key_loop b len enc_fid (n + 1) p = .error (.oob p)) ∨
        (∀ n, keys_serial_get_enc_key_loop b len enc_fid (n + 1) p = .error (.oob (p + 1))) ∨
        (∀ n, keys_serial_get_enc_key_loop b len enc_fid (n + 1) p
          = .error (.err .ERR_UNSPEC)) ∨
        ∃ p', p + 2 ≤ p' ∧ p' < len ∧
          ∀ n, keys_serial_get_enc_key_loop b len enc_fid (n + 1) p
            = keys_serial_get_enc_key_loop b len enc_fid n p' := by
  have h := keys_serial_get_enc_key_loop_fuel_half b len enc_fid ((len - 5) / 2 + 1) 5
    (by omega) (by omega)
  exact ⟨h, fun k => keys_serial_get_enc_key_loop_mono b len enc_fid _ 5 k h,
    keys_serial_get_enc_key_loop_step b len enc_fid⟩

/-- Witness of C24: on the ORG keychain with two SOK records, of 51 bytes, the
search skips three records and finds the encryption field id with the bound
`(51 - 5) / 2 + 1 = 24`, and with the bound 51 that `keys_serial_get_enc_key` uses. -/
theorem keys_serial_get_enc_key_loop_terminates_witness :
    keys_serial_get_enc_key_loop keychain_with_sok 51 3 ((51 - 5) / 2 + 1) 5 = .ok 46 ∧
      keys_serial_get_enc_key_loop keychain_with_sok 51 3 ((51 - 5) / 2 + 1 + 27) 5
        = keys_serial_get_enc_key_loop keychain_with_sok 51 3 ((51 - 5) / 2 + 1) 5 :=
  ⟨by decide, (keys_serial_get_enc_key_loop_terminates keychain_with_sok 51 3).2.1 27⟩


/-- C25: each 16-bit half of the value returned by `hash_fletcher32` lies in the range
`1..0xFFFF`. For a buffer that holds the `length / 2` words the function returns a value,
and every value `r` that it returns has `1 ≤ r % 65536 ≤ 0xFFFF` and
`1 ≤ r / 65536 ≤ 0xFFFF`; a half whose sum is congruent to 0 modulo 65535 is `0xFFFF`. -/
theorem hash_fletcher32_halves (buf : List Word16) (length : Nat) :
    (length / 2 ≤ buf.length → ∃ r, hash_fletcher32 buf length = .ok r) ∧
      ∀ r, hash_fletcher32 buf length = .ok r →
        1 ≤ r % 65536 ∧ r % 65536 ≤ 0xFFFF ∧ 1 ≤ r / 65536 ∧ r / 65536 ≤ 0xFFFF ∧
        (word_sum (buf.take (length / 2)) ≡ 0 [MOD 65535] → r % 65536 = 0xFFFF) ∧
        (prefix_sum_sum (buf.take (length / 2)) ≡ 0 [MOD 65535] → r / 65536 = 0xFFFF) := by
  constructor
  · intro hlen
    obtain ⟨a, b, h, -⟩ := hash_fletcher32_ok_pos buf length hlen
    exact ⟨_, h⟩
  · intro r hr
    by_cases hlen : length / 2 ≤ buf.length
    · obtain ⟨a, b, h, ha1, ha2, hb1, hb2, hma, hmb⟩ := hash_fletcher32_ok_pos buf length hlen
      rw [h] at hr
      injection hr with hr
      subst hr
      have e1 : (b * 65536 + a) % 65536 = a := by omega
      have e2 : (b * 65536 + a) / 65536 = b := by omega
      rw [e1, e2]
      exact ⟨ha1, ha2, hb1, hb2, eq_ffff_of_modEq ha1 ha2 hma, eq_ffff_of_modEq hb1 hb2 hmb⟩
    · rw [hash_fletcher32_short buf length (by omega)] at hr
      cases hr

/-- Witness of C25: two zero words, whose sums are 0, give `0xFFFFFFFF`; the three words
of `abcdef` give the halves `0x2D2A` and `0x5650`. -/
theorem hash_fletcher32_halves_witness :
    (∃ r, hash_fletcher32 [0x6261, 0x6463, 0x6665] 6 = .ok r) ∧
      hash_fletcher32 [0, 0] 4 = .ok 0xFFFFFFFF ∧
      (1 ≤ 0xFFFFFFFF % 65536 ∧ 0xFFFFFFFF % 65536 ≤ 0xFFFF ∧ 1 ≤ 0xFFFFFFFF / 65536 ∧
        0xFFFFFFFF / 65536 ≤ 0xFFFF ∧
        (word_sum (List.take (4 / 2) [0, 0]) ≡ 0 [MOD 65535] → 0xFFFFFFFF % 65536 = 0xFFFF) ∧
        (prefix_sum_sum (List.take (4 / 2) [0, 0]) ≡ 0 [MOD 65535]
          → 0xFFFFFFFF / 65536 = 0xFFFF)) :=
  ⟨(hash_fletcher32_halves [0x6261, 0x6463, 0x6665] 6).1 (by decide), by decide,
    (hash_fletcher32_halves [0, 0] 4).2 0xFFFFFFFF (by decide)⟩

/-- C26: `hash_fletcher32` reads exactly the first `length / 2` 16-bit words and ignores an
odd trailing byte. For every buffer and every `k` the results for the lengths `2 * k + 1`
and `2 * k` are equal, and for the lengths 0 and 1 the result is `0xFFFFFFFF`. The result
is the same for every buffer with the same first `length / 2` words, a buffer that holds
these words gives a value, and a buffer that holds fewer of them is read at the index after
its end. The outer loop enters the inner do-while only for a number of blocks that is not
zero, with an `input` of at least 1, so that the body runs `input` times and the
decrement of the counter never wraps. -/
theorem hash_fletcher32_trailing_byte (buf : List Word16) (k length : Nat) :
    hash_fletcher32 buf (2 * k + 1) = hash_fletcher32 buf (2 * k) ∧
      hash_fletcher32 buf 0 = .ok 0xFFFFFFFF ∧ hash_fletcher32 buf 1 = .ok 0xFFFFFFFF ∧
      (∀ buf2 : List Word16, buf2.take (length / 2) = buf.take (length / 2) →
        hash_fletcher32 buf2 length = hash_fletcher32 buf length) ∧
      (length / 2 ≤ buf.length → ∃ r, hash_fletcher32 buf length = .ok r) ∧
      (buf.length < length / 2 → hash_fletcher32 buf length = .error (.oob buf.length)) ∧
      ∀ blocks, blocks ≠ 0 →
        1 ≤ (if blocks > 360 then 360 else blocks) ∧
        do_while_count (if blocks > 360 then 360 else blocks)
          = (if blocks > 360 then 360 else blocks) ∧
        ∀ fuel pos a b, hash_fletcher32_while buf (fuel + 1) blocks pos a b
          = (hash_fletcher32_do_while buf (if blocks > 360 then 360 else blocks) pos a b).bind
              (fun r => hash_fletcher32_while buf fuel
                (blocks - (if blocks > 360 then 360 else blocks)) r.1
                (((r.2.1 &&& 0xffff) + (r.2.1 >>> 16)) % 2 ^ 32)
                (((r.2.2 &&& 0xffff) + (r.2.2 >>> 16)) % 2 ^ 32)) := by
  refine ⟨?_, by rfl, by rfl, ?_, ?_, hash_fletcher32_short buf length, ?_⟩
  · have e : (2 * k + 1) / 2 = 2 * k / 2 := by omega
    unfold hash_fletcher32
    dsimp only
    rw [e]
  · intro buf2 h
    rw [← hash_fletcher32_take buf2, ← hash_fletcher32_take buf, h]
  · intro hlen
    obtain ⟨a, b, h, -⟩ := hash_fletcher32_ok_pos buf length hlen
    exact ⟨_, h⟩
  · intro blocks h0
    obtain ⟨hcount, -, -, hpos⟩ := do_while_count_block blocks h0
    exact ⟨hpos, hcount, fun fuel pos a b => hash_fletcher32_while_succ buf fuel blocks pos a b h0⟩

/-- Witness of C26: the three words of `abcdef` with the lengths 7 and 6, a buffer that
agrees with them in the first two words with the length 5, and the same buffer with the
length 8, which four words would hold. -/
theorem hash_fletcher32_trailing_byte_witness :
    hash_fletcher32 [0x6261, 0x6463, 0x6665] (2 * 3 + 1)
        = hash_fletcher32 [0x6261, 0x6463, 0x6665] (2 * 3) ∧
      hash_fletcher32 [0x6261, 0x6463, 0x1234, 0x5678] 5
        = hash_fletcher32 [0x6261, 0x6463, 0x6665] 5 ∧
      hash_fletcher32 [0x6261, 0x6463, 0x6665] 8 = .error (.oob 3) :=
  ⟨(hash_fletcher32_trailing_byte [0x6261, 0x6463, 0x6665] 3 5).1,
    (hash_fletcher32_trailing_byte [0x6261, 0x6463, 0x6665] 3 5).2.2.2.1
      [0x6261, 0x6463, 0x1234, 0x5678] (by decide),
    (hash_fletcher32_trailing_byte [0x6261, 0x6463, 0x6665] 3 8).2.2.2.2.2.1 (by decide)⟩

/-- C27: logging starts enabled. After `log_disable` and until the next `log_enable`,
calls of `log_internal`, with any arguments and options, and of `log_disable` write
nothing to standard output (nor to standard error), and logging stays disabled. After
`log_enable`, and in the state in which the program starts, `log_internal` appends to
standard output, and the text of the message is among what it appends. `log_enable` and
`log_disable` are idempotent, and when they return only `log_enabled` may differ from
what it was: the date and the streams are the same and the mutex is free. -/
theorem log_enable_disable (s : Log) (calls : List LogCall) (ext : LogExtern)
    (file function : List Byte) (line : Int) (options : Nat) (format : List Byte)
    (args : List Nat) :
    log_static.log_enabled = true ∧
      ((∀ c ∈ calls, c ≠ LogCall.log_enable) →
        (log_calls calls (log_disable s)).stdout = s.stdout ∧
        (log_calls calls (log_disable s)).stderr = s.stderr ∧
        (log_calls calls (log_disable s)).log_enabled = false) ∧
      (log_internal ext file function line options format args (log_disable s)).stdout
        = s.stdout ∧
      (∃ w, (log_internal ext file function line options format args (log_enable s)).stdout
        = s.stdout ++ w ∧ Output.message format args ∈ w) ∧
      (∃ w, (log_internal ext file function line options format args log_static).stdout
        = w ∧ Output.message format args ∈ w) ∧
      log_enable (log_enable s) = log_enable s ∧
      log_disable (log_disable s) = log_disable s ∧
      log_enable (log_disable s) = log_enable s ∧
      log_disable (log_enable s) = log_disable s ∧
      log_enable s = { s with log_enabled := true, log_mutex := false } ∧
      log_disable s = { s with log_enabled := false, log_mutex := false } := by
  refine ⟨rfl, ?_, ?_, ?_, ?_, rfl, rfl, rfl, rfl, rfl, rfl⟩
  · intro hc
    obtain ⟨h1, h2, -, h4⟩ := log_calls_disabled calls (log_disable s) rfl hc
    exact ⟨h1, h2, h4⟩
  · rw [log_internal_disabled ext file function line options format args (log_disable s) rfl]
    rfl
  · exact (log_internal_enabled ext file function line options format args (log_enable s)
      rfl).2.2.2.1
  · obtain ⟨w, hw, hm⟩ := (log_internal_enabled ext file function line options format args
      log_static rfl).2.2.2.1
    exact ⟨w, by rw [hw]; rfl, hm⟩

/-- Witness of C27: from the state in which the program starts, `log_disable` followed by
two calls of `log_internal` and one more of `log_disable` leaves standard output empty;
after `log_enable` the same call of `log_internal` writes the file, the line, the message
and the line feed. -/
theorem log_enable_disable_witness :
    ((log_calls [.log_internal log_extern_sample [102] [103] 7 0 [37, 115] [1],
          .log_disable, .log_internal log_extern_sample [102] [103] 7 512 [37, 115] [1]]
        (log_disable log_static)).stdout = [] ∧
      (log_calls [.log_internal log_extern_sample [102] [103] 7 0 [37, 115] [1],
          .log_disable, .log_internal log_extern_sample [102] [103] 7 512 [37, 115] [1]]
        (log_disable log_static)).stderr = [] ∧
      (log_calls [.log_internal log_extern_sample [102] [103] 7 0 [37, 115] [1],
          .log_disable, .log_internal log_extern_sample [102] [103] 7 512 [37, 115] [1]]
        (log_disable log_static)).log_enabled = false) ∧
      (log_internal log_extern_sample [102] [103] 7 0 [37, 115] [1]
          (log_enable (log_disable log_static))).stdout
        = [.file false [102], .line true 7, .bracket, .message [37, 115] [1], .line_feed,
            .fflush] :=
  ⟨(log_enable_disable log_static
      [.log_internal log_extern_sample [102] [103] 7 0 [37, 115] [1],
        .log_disable, .log_internal log_extern_sample [102] [103] 7 512 [37, 115] [1]]
      log_extern_sample [102] [103] 7 0 [37, 115] [1]).2.1 (by decide),
    by decide⟩

end Dime
